import Mathlib

/-!
# loe: fallible collection helpers

A shallow embedding of the Go package `loe` (`slice.go`, `find.go`,
`intersect.go`, `map.go`, `func.go`, `type_manipulations.go`).

Conventions of the embedding:

* A Go callback is a closure that may have effects, so every operation is
  written once, over an arbitrary monad `m`.  With `m := Id` the callback is
  a pure function; with `m := StateM σ` it is a closure over a state `σ`.
* A Go `error` result is an `Option E`: `none` is `nil`, `some err` a failure.
  A callback returning `(R, error)` returns a pair `R × Option E`, and the
  operations return Go-style tuples as well.
* A returned slice is an `Option (List T)`: `none` is the `nil` slice,
  `some xs` an allocated slice holding `xs`.  Likewise for returned maps.
* The zero value of a type is the `default` of its `Inhabited` instance.
* `for i, item := range collection` becomes a recursion over the remaining
  elements that carries the index `i` and the loop's mutable variables.
-/

namespace Loe

variable {m : Type → Type} [Monad m]
variable {T R E K V U T1 T2 T3 T4 T5 T6 K1 K2 V1 V2 σ : Type}

/-! ## type_manipulations.go -/

/-- Go `empty[T]()`: the zero value of `T`. -/
def empty (T : Type) [Inhabited T] : T := default

/-! ## Go maps -/

/-- A Go `map[K]V` value: its entries, each key at most once.  The order of
the list is the order in which `range` happens to visit the entries. -/
abbrev GoMap (K V : Type) := List (K × V)

/-- The comma-ok index expression `v, ok := mp[k]`: `none` when `k` is absent. -/
def GoMap.index [DecidableEq K] : GoMap K V → K → Option V
  | [], _ => none
  | (k', v) :: rest, k => if k' = k then some v else GoMap.index rest k

/-- The assignment `mp[k] = v`: overwrite the entry of `k`, or add one. -/
def GoMap.assign [DecidableEq K] : GoMap K V → K → V → GoMap K V
  | [], k, v => [(k, v)]
  | (k', v') :: rest, k, v =>
    if k' = k then (k', v) :: rest else (k', v') :: GoMap.assign rest k v

/-- Go `len(mp)`. -/
def GoMap.len (mp : GoMap K V) : Int := mp.length

/-! ## slice.go -/

/-- Loop of `Filter`: `i` is the index of the next element, `result` the
slice appended to so far. -/
def Filter.loop (predicate : V → Int → m (Bool × Option E)) :
    List V → Nat → List V → m (Option (List V) × Option E)
  | [], _, result => pure (some result, none)
  | item :: rest, i, result => do
    let r ← predicate item i
    match r.2 with
    | some err => pure (none, some err)
    | none =>
      if r.1 then Filter.loop predicate rest (i + 1) (result ++ [item])
      else Filter.loop predicate rest (i + 1) result

/-- Go `Filter`. -/
def Filter (collection : List V) (predicate : V → Int → m (Bool × Option E)) :
    m (Option (List V) × Option E) :=
  Filter.loop predicate collection 0 []

/-- Loop of `Map`: `result[i] = item` on the preallocated `result`. -/
def Map.loop (iteratee : T → Int → m (R × Option E)) :
    List T → Nat → List R → m (Option (List R) × Option E)
  | [], _, result => pure (some result, none)
  | item :: rest, i, result => do
    let r ← iteratee item i
    match r.2 with
    | some err => pure (none, some err)
    | none => Map.loop iteratee rest (i + 1) (result.set i r.1)

/-- Go `Map`; `make([]R, len(collection))` is a slice of zero values. -/
def Map [Inhabited R] (collection : List T) (iteratee : T → Int → m (R × Option E)) :
    m (Option (List R) × Option E) :=
  Map.loop iteratee collection 0 (List.replicate collection.length (empty R))

/-- Loop of `FilterMap`; the callback returns `(r, ok, err)`. -/
def FilterMap.loop (callback : T → Int → m (R × Bool × Option E)) :
    List T → Nat → List R → m (Option (List R) × Option E)
  | [], _, result => pure (some result, none)
  | item :: rest, i, result => do
    let r ← callback item i
    match r.2.2 with
    | some err => pure (none, some err)
    | none =>
      if r.2.1 then FilterMap.loop callback rest (i + 1) (result ++ [r.1])
      else FilterMap.loop callback rest (i + 1) result

/-- Go `FilterMap`. -/
def FilterMap (collection : List T) (callback : T → Int → m (R × Bool × Option E)) :
    m (Option (List R) × Option E) :=
  FilterMap.loop callback collection 0 []

/-- Loop of `FlatMap`; the callback may return a `nil` slice, of which
`append(result, items...)` appends nothing. -/
def FlatMap.loop (iteratee : T → Int → m (Option (List R) × Option E)) :
    List T → Nat → List R → m (Option (List R) × Option E)
  | [], _, result => pure (some result, none)
  | item :: rest, i, result => do
    let r ← iteratee item i
    match r.2 with
    | some err => pure (none, some err)
    | none => FlatMap.loop iteratee rest (i + 1) (result ++ r.1.getD [])

/-- Go `FlatMap`. -/
def FlatMap (collection : List T) (iteratee : T → Int → m (Option (List R) × Option E)) :
    m (Option (List R) × Option E) :=
  FlatMap.loop iteratee collection 0 []

/-- Loop of `Reduce`; `initial` is the variable reassigned at every step. -/
def Reduce.loop [Inhabited R] (accumulator : R → T → Int → m (R × Option E)) :
    List T → Nat → R → m (R × Option E)
  | [], _, initial => pure (initial, none)
  | item :: rest, i, initial => do
    let r ← accumulator initial item i
    match r.2 with
    | some err => pure (empty R, some err)
    | none => Reduce.loop accumulator rest (i + 1) r.1

/-- Go `Reduce`. -/
def Reduce [Inhabited R] (collection : List T)
    (accumulator : R → T → Int → m (R × Option E)) (initial : R) : m (R × Option E) :=
  Reduce.loop accumulator collection 0 initial

/-- Loop of `ReduceRight`: `for i := len(collection) - 1; i >= 0; i--`.  The
counter is `i + 1`, so that `0` is the exit `i = -1`. -/
def ReduceRight.loop [Inhabited R] (collection : List T)
    (accumulator : R → T → Int → m (R × Option E)) :
    (n : Nat) → n ≤ collection.length → R → m (R × Option E)
  | 0, _, initial => pure (initial, none)
  | i + 1, h, initial => do
    let r ← accumulator initial (collection.get ⟨i, h⟩) i
    match r.2 with
    | some err => pure (empty R, some err)
    | none => ReduceRight.loop collection accumulator i (Nat.le_of_succ_le h) r.1

/-- Go `ReduceRight`. -/
def ReduceRight [Inhabited R] (collection : List T)
    (accumulator : R → T → Int → m (R × Option E)) (initial : R) : m (R × Option E) :=
  ReduceRight.loop collection accumulator collection.length (Nat.le_refl _) initial

/-- Go `ForEach`; the callback returns only an error. -/
def ForEach.loop (iteratee : T → Int → m (Option E)) : List T → Nat → m (Option E)
  | [], _ => pure none
  | item :: rest, i => do
    let err ← iteratee item i
    match err with
    | some err => pure (some err)
    | none => ForEach.loop iteratee rest (i + 1)

/-- Go `ForEach`. -/
def ForEach (collection : List T) (iteratee : T → Int → m (Option E)) : m (Option E) :=
  ForEach.loop iteratee collection 0

/-- Loop of `Times`: `for i := 0; i < count; i++`, with `remaining = count - i`.
`result[i]` is assigned before the error is tested. -/
def Times.loop (iteratee : Int → m (T × Option E)) :
    (remaining : Nat) → Nat → List T → m (Option (List T) × Option E)
  | 0, _, result => pure (some result, none)
  | remaining + 1, i, result => do
    let r ← iteratee i
    match r.2 with
    | some err => pure (none, some err)
    | none => Times.loop iteratee remaining (i + 1) (result.set i r.1)

/-- Go `Times`.  `count` is a natural number: `make([]T, count)` panics on a
negative one. -/
def Times [Inhabited T] (count : Nat) (iteratee : Int → m (T × Option E)) :
    m (Option (List T) × Option E) :=
  Times.loop iteratee count 0 (List.replicate count (empty T))

/-- Loop of `UniqBy`: `seen` is the set of keys met so far. -/
def UniqBy.loop [DecidableEq U] (iteratee : T → m (U × Option E)) :
    List T → GoMap U Unit → List T → m (Option (List T) × Option E)
  | [], _, result => pure (some result, none)
  | item :: rest, seen, result => do
    let r ← iteratee item
    match r.2 with
    | some err => pure (none, some err)
    | none =>
      match GoMap.index seen r.1 with
      | some _ => UniqBy.loop iteratee rest seen result
      | none => UniqBy.loop iteratee rest (GoMap.assign seen r.1 ()) (result ++ [item])

/-- Go `UniqBy`. -/
def UniqBy [DecidableEq U] (collection : List T) (iteratee : T → m (U × Option E)) :
    m (Option (List T) × Option E) :=
  UniqBy.loop iteratee collection [] []

/-- Loop of `GroupBy`: `result[key] = append(result[key], item)`, where an
absent `result[key]` reads as the nil slice. -/
def GroupBy.loop [DecidableEq U] (iteratee : T → m (U × Option E)) :
    List T → GoMap U (List T) → m (Option (GoMap U (List T)) × Option E)
  | [], result => pure (some result, none)
  | item :: rest, result => do
    let r ← iteratee item
    match r.2 with
    | some err => pure (none, some err)
    | none =>
      GroupBy.loop iteratee rest
        (GoMap.assign result r.1 ((GoMap.index result r.1).getD [] ++ [item]))

/-- Go `GroupBy`. -/
def GroupBy [DecidableEq U] (collection : List T) (iteratee : T → m (U × Option E)) :
    m (Option (GoMap U (List T)) × Option E) :=
  GroupBy.loop iteratee collection []

/-- Loop of `PartitionBy`: `seen` maps a key to the index of its group in
`result`. -/
def PartitionBy.loop [DecidableEq K] (iteratee : T → m (K × Option E)) :
    List T → GoMap K Nat → List (List T) → m (Option (List (List T)) × Option E)
  | [], _, result => pure (some result, none)
  | item :: rest, seen, result => do
    let r ← iteratee item
    match r.2 with
    | some err => pure (none, some err)
    | none =>
      match GoMap.index seen r.1 with
      | some resultIndex =>
        PartitionBy.loop iteratee rest seen (result.modify (fun g => g ++ [item]) resultIndex)
      | none =>
        PartitionBy.loop iteratee rest (GoMap.assign seen r.1 result.length)
          ((result ++ [[]]).modify (fun g => g ++ [item]) result.length)

/-- Go `PartitionBy`. -/
def PartitionBy [DecidableEq K] (collection : List T) (iteratee : T → m (K × Option E)) :
    m (Option (List (List T)) × Option E) :=
  PartitionBy.loop iteratee collection [] []

/-- Loop of `RepeatBy`: `for i := 0; i < count; i++`, with `remaining = count - i`. -/
def RepeatBy.loop (predicate : Int → m (T × Option E)) :
    (remaining : Nat) → Nat → List T → m (Option (List T) × Option E)
  | 0, _, result => pure (some result, none)
  | remaining + 1, i, result => do
    let r ← predicate i
    match r.2 with
    | some err => pure (none, some err)
    | none => RepeatBy.loop predicate remaining (i + 1) (result ++ [r.1])

/-- Go `RepeatBy`.  `count` is a natural number: `make([]T, 0, count)` panics
on a negative one. -/
def RepeatBy (count : Nat) (predicate : Int → m (T × Option E)) :
    m (Option (List T) × Option E) :=
  RepeatBy.loop predicate count 0 []

/-- Loop of `KeyBy`: `result[k] = v`. -/
def KeyBy.loop [DecidableEq K] (iteratee : V → m (K × Option E)) :
    List V → GoMap K V → m (Option (GoMap K V) × Option E)
  | [], result => pure (some result, none)
  | v :: rest, result => do
    let r ← iteratee v
    match r.2 with
    | some err => pure (none, some err)
    | none => KeyBy.loop iteratee rest (GoMap.assign result r.1 v)

/-- Go `KeyBy`. -/
def KeyBy [DecidableEq K] (collection : List V) (iteratee : V → m (K × Option E)) :
    m (Option (GoMap K V) × Option E) :=
  KeyBy.loop iteratee collection []

/-- Loop of `Associate`; the callback returns `(k, v, err)`. -/
def Associate.loop [DecidableEq K] (transform : T → m (K × V × Option E)) :
    List T → GoMap K V → m (Option (GoMap K V) × Option E)
  | [], result => pure (some result, none)
  | t :: rest, result => do
    let r ← transform t
    match r.2.2 with
    | some err => pure (none, some err)
    | none => Associate.loop transform rest (GoMap.assign result r.1 r.2.1)

/-- Go `Associate`. -/
def Associate [DecidableEq K] (collection : List T) (transform : T → m (K × V × Option E)) :
    m (Option (GoMap K V) × Option E) :=
  Associate.loop transform collection []

/-- Go `SliceToMap`, an alias of `Associate`. -/
def SliceToMap [DecidableEq K] (collection : List T) (transform : T → m (K × V × Option E)) :
    m (Option (GoMap K V) × Option E) :=
  Associate collection transform

/-- Loop of `DropWhile` over `collection[i:]`: `.ok i` is the value of `i`
when the loop is left, `.error err` the early `return nil, err`. -/
def DropWhile.loop (predicate : T → m (Bool × Option E)) : List T → Nat → m (Except E Nat)
  | [], i => pure (.ok i)
  | item :: rest, i => do
    let r ← predicate item
    match r.2 with
    | some err => pure (.error err)
    | none => if !r.1 then pure (.ok i) else DropWhile.loop predicate rest (i + 1)

/-- Go `DropWhile`: the result is a copy of `collection[i:]`. -/
def DropWhile (collection : List T) (predicate : T → m (Bool × Option E)) :
    m (Option (List T) × Option E) := do
  match ← DropWhile.loop predicate collection 0 with
  | .error err => pure (none, some err)
  | .ok i => pure (some (collection.drop i), none)

/-- Loop of `DropRightWhile`: `for ; i >= 0; i--` from `i = len(collection) - 1`.
The counter is `i + 1`; `.ok n` is the value of `i + 1` when the loop is left. -/
def DropRightWhile.loop (collection : List T) (predicate : T → m (Bool × Option E)) :
    (n : Nat) → n ≤ collection.length → m (Except E Nat)
  | 0, _ => pure (.ok 0)
  | i + 1, h => do
    let r ← predicate (collection.get ⟨i, h⟩)
    match r.2 with
    | some err => pure (.error err)
    | none =>
      if !r.1 then pure (.ok (i + 1))
      else DropRightWhile.loop collection predicate i (Nat.le_of_succ_le h)

/-- Go `DropRightWhile`: the result is a copy of `collection[:i+1]`. -/
def DropRightWhile (collection : List T) (predicate : T → m (Bool × Option E)) :
    m (Option (List T) × Option E) := do
  match ← DropRightWhile.loop collection predicate collection.length (Nat.le_refl _) with
  | .error err => pure (none, some err)
  | .ok n => pure (some (collection.take n), none)

/-- Loop of `Reject`. -/
def Reject.loop (predicate : V → Int → m (Bool × Option E)) :
    List V → Nat → List V → m (Option (List V) × Option E)
  | [], _, result => pure (some result, none)
  | item :: rest, i, result => do
    let r ← predicate item i
    match r.2 with
    | some err => pure (none, some err)
    | none =>
      if !r.1 then Reject.loop predicate rest (i + 1) (result ++ [item])
      else Reject.loop predicate rest (i + 1) result

/-- Go `Reject`. -/
def Reject (collection : List V) (predicate : V → Int → m (Bool × Option E)) :
    m (Option (List V) × Option E) :=
  Reject.loop predicate collection 0 []

/-- Loop of `CountBy`; `count` is the named result, `return -1, err` on a
failure. -/
def CountBy.loop (predicate : T → m (Bool × Option E)) : List T → Int → m (Int × Option E)
  | [], count => pure (count, none)
  | item :: rest, count => do
    let r ← predicate item
    match r.2 with
    | some err => pure (-1, some err)
    | none =>
      if r.1 then CountBy.loop predicate rest (count + 1)
      else CountBy.loop predicate rest count

/-- Go `CountBy`. -/
def CountBy (collection : List T) (predicate : T → m (Bool × Option E)) : m (Int × Option E) :=
  CountBy.loop predicate collection 0

/-- Loop of `CountValuesBy`: `result[key]++`, where an absent entry reads 0. -/
def CountValuesBy.loop [DecidableEq U] (mapper : T → m (U × Option E)) :
    List T → GoMap U Int → m (Option (GoMap U Int) × Option E)
  | [], result => pure (some result, none)
  | item :: rest, result => do
    let r ← mapper item
    match r.2 with
    | some err => pure (none, some err)
    | none =>
      CountValuesBy.loop mapper rest
        (GoMap.assign result r.1 ((GoMap.index result r.1).getD 0 + 1))

/-- Go `CountValuesBy`. -/
def CountValuesBy [DecidableEq U] (collection : List T) (mapper : T → m (U × Option E)) :
    m (Option (GoMap U Int) × Option E) :=
  CountValuesBy.loop mapper collection []

/-! ## find.go -/

/-- Go `Find`. -/
def Find [Inhabited T] (collection : List T) (predicate : T → m (Bool × Option E)) :
    m (T × Bool × Option E) :=
  match collection with
  | [] => pure (empty T, false, none)
  | item :: rest => do
    let r ← predicate item
    match r.2 with
    | some err => pure (empty T, false, some err)
    | none => if r.1 then pure (item, true, none) else Find rest predicate

/-- Loop of `FindIndexOf`. -/
def FindIndexOf.loop [Inhabited T] (predicate : T → m (Bool × Option E)) :
    List T → Nat → m (T × Int × Bool × Option E)
  | [], _ => pure (empty T, -1, false, none)
  | item :: rest, i => do
    let r ← predicate item
    match r.2 with
    | some err => pure (empty T, -1, false, some err)
    | none => if r.1 then pure (item, i, true, none) else FindIndexOf.loop predicate rest (i + 1)

/-- Go `FindIndexOf`. -/
def FindIndexOf [Inhabited T] (collection : List T) (predicate : T → m (Bool × Option E)) :
    m (T × Int × Bool × Option E) :=
  FindIndexOf.loop predicate collection 0

/-- Loop of `FindLastIndexOf`: `for i := length - 1; i >= 0; i--`, with the
counter `i + 1`. -/
def FindLastIndexOf.loop [Inhabited T] (collection : List T)
    (predicate : T → m (Bool × Option E)) :
    (n : Nat) → n ≤ collection.length → m (T × Int × Bool × Option E)
  | 0, _ => pure (empty T, -1, false, none)
  | i + 1, h => do
    let r ← predicate (collection.get ⟨i, h⟩)
    match r.2 with
    | some err => pure (empty T, -1, false, some err)
    | none =>
      if r.1 then pure (collection.get ⟨i, h⟩, i, true, none)
      else FindLastIndexOf.loop collection predicate i (Nat.le_of_succ_le h)

/-- Go `FindLastIndexOf`. -/
def FindLastIndexOf [Inhabited T] (collection : List T) (predicate : T → m (Bool × Option E)) :
    m (T × Int × Bool × Option E) :=
  FindLastIndexOf.loop collection predicate collection.length (Nat.le_refl _)

/-- Go `FindOrElse`. -/
def FindOrElse [Inhabited T] (collection : List T) (fallback : T)
    (predicate : T → m (Bool × Option E)) : m (T × Option E) :=
  match collection with
  | [] => pure (fallback, none)
  | item :: rest => do
    let r ← predicate item
    match r.2 with
    | some err => pure (empty T, some err)
    | none => if r.1 then pure (item, none) else FindOrElse rest fallback predicate

/-- Go `FindKeyBy`; the entries of `object` are visited in their list order. -/
def FindKeyBy [Inhabited K] (object : GoMap K V) (predicate : K → V → m (Bool × Option E)) :
    m (K × Bool × Option E) :=
  match object with
  | [] => pure (empty K, false, none)
  | (k, v) :: rest => do
    let r ← predicate k v
    match r.2 with
    | some err => pure (empty K, false, some err)
    | none => if r.1 then pure (k, true, none) else FindKeyBy rest predicate

/-- First loop of `FindUniquesBy` and of `FindDuplicatesBy`: `isDupl[key]` is
`false` after the first occurrence of `key` and `true` from the second on.
`.error err` is the early `return nil, err`. -/
def isDuplPass [DecidableEq U] (iteratee : T → m (U × Option E)) :
    List T → GoMap U Bool → m (Except E (GoMap U Bool))
  | [], isDupl => pure (.ok isDupl)
  | item :: rest, isDupl => do
    let r ← iteratee item
    match r.2 with
    | some err => pure (.error err)
    | none =>
      match GoMap.index isDupl r.1 with
      | none => isDuplPass iteratee rest (GoMap.assign isDupl r.1 false)
      | some duplicated =>
        if !duplicated then isDuplPass iteratee rest (GoMap.assign isDupl r.1 true)
        else isDuplPass iteratee rest isDupl

/-- Second loop of `FindUniquesBy`; an absent `isDupl[key]` reads `false`. -/
def FindUniquesBy.loop [DecidableEq U] (iteratee : T → m (U × Option E))
    (isDupl : GoMap U Bool) : List T → List T → m (Option (List T) × Option E)
  | [], result => pure (some result, none)
  | item :: rest, result => do
    let r ← iteratee item
    match r.2 with
    | some err => pure (none, some err)
    | none =>
      if !(GoMap.index isDupl r.1).getD false then
        FindUniquesBy.loop iteratee isDupl rest (result ++ [item])
      else FindUniquesBy.loop iteratee isDupl rest result

/-- Go `FindUniquesBy`. -/
def FindUniquesBy [DecidableEq U] (collection : List T) (iteratee : T → m (U × Option E)) :
    m (Option (List T) × Option E) := do
  match ← isDuplPass iteratee collection [] with
  | .error err => pure (none, some err)
  | .ok isDupl => FindUniquesBy.loop iteratee isDupl collection []

/-- Second loop of `FindDuplicatesBy`; `isDupl[key] = false` after an element
of `key` is emitted. -/
def FindDuplicatesBy.loop [DecidableEq U] (iteratee : T → m (U × Option E)) :
    List T → GoMap U Bool → List T → m (Option (List T) × Option E)
  | [], _, result => pure (some result, none)
  | item :: rest, isDupl, result => do
    let r ← iteratee item
    match r.2 with
    | some err => pure (none, some err)
    | none =>
      if (GoMap.index isDupl r.1).getD false then
        FindDuplicatesBy.loop iteratee rest (GoMap.assign isDupl r.1 false) (result ++ [item])
      else FindDuplicatesBy.loop iteratee rest isDupl result

/-- Go `FindDuplicatesBy`. -/
def FindDuplicatesBy [DecidableEq U] (collection : List T) (iteratee : T → m (U × Option E)) :
    m (Option (List T) × Option E) := do
  match ← isDuplPass iteratee collection [] with
  | .error err => pure (none, some err)
  | .ok isDupl => FindDuplicatesBy.loop iteratee collection isDupl []

/-- Go `make([]T, 0, capacity)`, the allocation of `result` between the two
loops of `FindUniquesBy` and of `FindDuplicatesBy`: the empty slice, or the
run-time panic of a negative capacity (`none`). -/
def makeEmpty (T : Type) (capacity : Int) : Option (List T) :=
  if capacity < 0 then none else some []

/-- The capacity `len(collection)-len(isDupl)` that `FindUniquesBy` passes to
`make` once its first loop has filled `isDupl`; `none` when the first loop
returned early with an error, before the allocation. -/
def FindUniquesBy.capacity [DecidableEq U] (collection : List T)
    (iteratee : T → m (U × Option E)) : m (Option Int) := do
  match ← isDuplPass iteratee collection [] with
  | .error _ => pure none
  | .ok isDupl => pure (some ((collection.length : Int) - GoMap.len isDupl))

/-- The capacity `len(collection)-len(isDupl)` that `FindDuplicatesBy` passes
to `make` once its first loop has filled `isDupl`; `none` when the first loop
returned early with an error, before the allocation. -/
def FindDuplicatesBy.capacity [DecidableEq U] (collection : List T)
    (iteratee : T → m (U × Option E)) : m (Option Int) := do
  match ← isDuplPass iteratee collection [] with
  | .error _ => pure none
  | .ok isDupl => pure (some ((collection.length : Int) - GoMap.len isDupl))

/-! ## intersect.go -/

/-- Go `ContainsBy`. -/
def ContainsBy (collection : List T) (predicate : T → m (Bool × Option E)) :
    m (Bool × Option E) :=
  match collection with
  | [] => pure (false, none)
  | item :: rest => do
    let r ← predicate item
    match r.2 with
    | some err => pure (false, some err)
    | none => if r.1 then pure (true, none) else ContainsBy rest predicate

/-- Go `EveryBy`. -/
def EveryBy (collection : List T) (predicate : T → m (Bool × Option E)) :
    m (Bool × Option E) :=
  match collection with
  | [] => pure (true, none)
  | v :: rest => do
    let r ← predicate v
    match r.2 with
    | some err => pure (false, some err)
    | none => if !r.1 then pure (false, none) else EveryBy rest predicate

/-- Go `SomeBy`. -/
def SomeBy (collection : List T) (predicate : T → m (Bool × Option E)) :
    m (Bool × Option E) :=
  match collection with
  | [] => pure (false, none)
  | v :: rest => do
    let r ← predicate v
    match r.2 with
    | some err => pure (false, some err)
    | none => if r.1 then pure (true, none) else SomeBy rest predicate

/-- Go `NoneBy`. -/
def NoneBy (collection : List T) (predicate : T → m (Bool × Option E)) :
    m (Bool × Option E) :=
  match collection with
  | [] => pure (true, none)
  | v :: rest => do
    let r ← predicate v
    match r.2 with
    | some err => pure (false, some err)
    | none => if r.1 then pure (false, none) else NoneBy rest predicate

/-! ## map.go

`for k, v := range in` visits the entries of `in` in an unspecified order:
the loops below visit them in the order of the list that represents `in`. -/

/-- Loop of `MapKeys`: `result[key] = v`. -/
def MapKeys.loop [DecidableEq R] (iteratee : V → K → m (R × Option E)) :
    GoMap K V → GoMap R V → m (Option (GoMap R V) × Option E)
  | [], result => pure (some result, none)
  | (k, v) :: rest, result => do
    let r ← iteratee v k
    match r.2 with
    | some err => pure (none, some err)
    | none => MapKeys.loop iteratee rest (GoMap.assign result r.1 v)

/-- Go `MapKeys`. -/
def MapKeys [DecidableEq R] (inp : GoMap K V) (iteratee : V → K → m (R × Option E)) :
    m (Option (GoMap R V) × Option E) :=
  MapKeys.loop iteratee inp []

/-- Loop of `MapValues`: `result[k] = value`. -/
def MapValues.loop [DecidableEq K] (iteratee : V → K → m (R × Option E)) :
    GoMap K V → GoMap K R → m (Option (GoMap K R) × Option E)
  | [], result => pure (some result, none)
  | (k, v) :: rest, result => do
    let r ← iteratee v k
    match r.2 with
    | some err => pure (none, some err)
    | none => MapValues.loop iteratee rest (GoMap.assign result k r.1)

/-- Go `MapValues`. -/
def MapValues [DecidableEq K] (inp : GoMap K V) (iteratee : V → K → m (R × Option E)) :
    m (Option (GoMap K R) × Option E) :=
  MapValues.loop iteratee inp []

/-- Loop of `MapEntries`: `result[k2] = v2`. -/
def MapEntries.loop [DecidableEq K2] (iteratee : K1 → V1 → m (K2 × V2 × Option E)) :
    GoMap K1 V1 → GoMap K2 V2 → m (Option (GoMap K2 V2) × Option E)
  | [], result => pure (some result, none)
  | (k1, v1) :: rest, result => do
    let r ← iteratee k1 v1
    match r.2.2 with
    | some err => pure (none, some err)
    | none => MapEntries.loop iteratee rest (GoMap.assign result r.1 r.2.1)

/-- Go `MapEntries`. -/
def MapEntries [DecidableEq K2] (inp : GoMap K1 V1)
    (iteratee : K1 → V1 → m (K2 × V2 × Option E)) : m (Option (GoMap K2 V2) × Option E) :=
  MapEntries.loop iteratee inp []

/-- Loop of `MapToSlice`. -/
def MapToSlice.loop (iteratee : K → V → m (R × Option E)) :
    GoMap K V → List R → m (Option (List R) × Option E)
  | [], result => pure (some result, none)
  | (k, v) :: rest, result => do
    let r ← iteratee k v
    match r.2 with
    | some err => pure (none, some err)
    | none => MapToSlice.loop iteratee rest (result ++ [r.1])

/-- Go `MapToSlice`. -/
def MapToSlice (inp : GoMap K V) (iteratee : K → V → m (R × Option E)) :
    m (Option (List R) × Option E) :=
  MapToSlice.loop iteratee inp []

/-! ## func.go -/

/-- Go `Partial`. -/
def Partial (f : T1 → T2 → m (R × Option E)) (arg1 : T1) : T2 → m (R × Option E) :=
  fun t2 => f arg1 t2

/-- Go `Partial1`. -/
def Partial1 (f : T1 → T2 → m (R × Option E)) (arg1 : T1) : T2 → m (R × Option E) :=
  Partial f arg1

/-- Go `Partial2`. -/
def Partial2 (f : T1 → T2 → T3 → m (R × Option E)) (arg1 : T1) : T2 → T3 → m (R × Option E) :=
  fun t2 t3 => f arg1 t2 t3

/-- Go `Partial3`. -/
def Partial3 (f : T1 → T2 → T3 → T4 → m (R × Option E)) (arg1 : T1) :
    T2 → T3 → T4 → m (R × Option E) :=
  fun t2 t3 t4 => f arg1 t2 t3 t4

/-- Go `Partial4`. -/
def Partial4 (f : T1 → T2 → T3 → T4 → T5 → m (R × Option E)) (arg1 : T1) :
    T2 → T3 → T4 → T5 → m (R × Option E) :=
  fun t2 t3 t4 t5 => f arg1 t2 t3 t4 t5

/-- Go `Partial5`. -/
def Partial5 (f : T1 → T2 → T3 → T4 → T5 → T6 → m (R × Option E)) (arg1 : T1) :
    T2 → T3 → T4 → T5 → T6 → m (R × Option E) :=
  fun t2 t3 t4 t5 t6 => f arg1 t2 t3 t4 t5 t6

/-! ## Vocabulary of the specifications -/

/-- The elements of `s`, in their original order, whose position `i` and
value `x` satisfy `keep i x`. -/
def pick (keep : Nat → T → Bool) (s : List T) : List T :=
  (s.enum.filter (fun q => keep q.1 q.2)).map Prod.snd

/-- The first occurrence of every key: the elements `s[i]` whose key `f s[i]`
is the key of no earlier element `s[j]`, `j < i`, in their original order. -/
def firstByKey [DecidableEq U] (f : T → U) (s : List T) : List T :=
  pick (fun i x => decide (f x ∉ (s.take i).map f)) s

/-- The number of elements of `s` whose key is `k`. -/
def keyCount [DecidableEq U] (f : T → U) (s : List T) (k : U) : Nat :=
  (s.map f).count k

/-- The entry `isDupl[k]` once the first loop of `FindUniquesBy` has visited
`s`: absent when no element has key `k`, else whether several have it. -/
def dupState [DecidableEq U] (f : T → U) (s : List T) (k : U) : Option Bool :=
  if keyCount f s k = 0 then none else some (decide (2 ≤ keyCount f s k))

/-- A callback that never fails and computes `f`. -/
def total {A B : Type} (f : A → B) : A → Id (B × Option E) :=
  fun x => (f x, none)

/-- A callback instrumented to append its argument to a log at every
invocation; its result is that of the function `f`. -/
def traced {A B : Type} (f : A → B) (x : A) : StateM (List A) B :=
  fun log => (f x, log ++ [x])

/-- An indexed callback instrumented to log the pair of its arguments. -/
def tracedIdx {A B : Type} (f : A → Int → B) (x : A) (i : Int) : StateM (List (A × Int)) B :=
  fun log => (f x i, log ++ [(x, i)])

/-- Run an operation whose callbacks are closures over a state of type `σ`,
from the closure state `st`: the Go result and the final closure state. -/
def runFrom {σ A : Type} (x : StateM σ A) (st : σ) : A × σ :=
  Id.run (StateT.run x st)

/-- The arguments `(item, index)` of a forward pass over `s` that starts at
index `i`. -/
def indexedFrom (i : Nat) (s : List T) : List (T × Int) :=
  (s.enumFrom i).map (fun q => (q.2, (q.1 : Int)))

/-- An indexed callback with an accumulator, instrumented to log the item and
the index it is invoked with. -/
def tracedAcc {A B C : Type} (g : C → A → Int → B) (acc : C) (x : A) (i : Int) :
    StateM (List (A × Int)) B :=
  fun log => (g acc x i, log ++ [(x, i)])

/-- A callback of two arguments (an item and its index, or a value and its
key) that never fails and computes `f`. -/
def total2 {A B C : Type} (f : A → B → C) : A → B → Id (C × Option E) :=
  fun x y => (f x y, none)

/-- An accumulator callback that never fails and computes `g`. -/
def total3 {A B C D : Type} (g : A → B → C → D) : A → B → C → Id (D × Option E) :=
  fun acc x i => (g acc x i, none)

/-- A transform to a key and a value that never fails and computes `t`. -/
def totalPair {A B C : Type} (t : A → B × C) : A → Id (B × C × Option E) :=
  fun x => ((t x).1, (t x).2, none)

/-- A closure callback instrumented to record its failures.  `act` is an
invocation of the callback, a closure over a state of type `σ`; the
instrumented invocation runs it on the closure state and appends the error of
its result, when it is not nil, to a log kept next to the closure state.
`err` selects the error component of the callback's result. -/
def watched {A : Type} (err : A → Option E) (act : StateM σ A) : StateM (σ × List E) A :=
  fun st =>
    ((runFrom act st.1).1, ((runFrom act st.1).2, st.2 ++ (err (runFrom act st.1).1).toList))

/-! ## Callbacks of the scenarios -/

/-- A transform that doubles its item and never fails. -/
def double (x : Int) (_ : Int) : Int × Option String := (2 * x, none)

/-- A predicate that is false on every item and fails on the item `3`. -/
def failsOnThree (x : Int) : Bool × Option String :=
  (false, if x = 3 then some "boom" else none)

/-- A predicate that fails on every item. -/
def alwaysFails (_ : Int) : Bool × Option String := (false, some "boom")

/-- A predicate that holds of the nonnegative items, whatever the index, and
never fails. -/
def nonNegative (x : Int) (_ : Int) : Bool × Option String := (decide (0 ≤ x), none)

/-- The predicate of the scenarios: the item is even; it never fails. -/
def isEven (x : Int) : Bool × Option String := (decide (x % 2 = 0), none)

/-- A predicate that holds of every item, whatever the index, and fails on the
item `3`. -/
def trueUntilThree (x : Int) (_ : Int) : Bool × Option String :=
  (true, if x = 3 then some "boom" else none)

/-! # Lemmas -/

/-! ## Go maps -/

theorem GoMap.index_assign_self [DecidableEq K] (mp : GoMap K V) (k : K) (v : V) :
    GoMap.index (GoMap.assign mp k v) k = some v := by
  induction mp with
  | nil => simp [GoMap.assign, GoMap.index]
  | cons e rest ih =>
    obtain ⟨k', v'⟩ := e
    by_cases h : k' = k <;> simp [GoMap.assign, GoMap.index, h, ih]

theorem GoMap.index_assign_ne [DecidableEq K] (mp : GoMap K V) (k k2 : K) (v : V)
    (hne : k ≠ k2) : GoMap.index (GoMap.assign mp k v) k2 = GoMap.index mp k2 := by
  induction mp with
  | nil => simp [GoMap.assign, GoMap.index, hne]
  | cons e rest ih =>
    obtain ⟨k', v'⟩ := e
    by_cases h : k' = k
    · subst h; simp [GoMap.assign, GoMap.index, hne]
    · by_cases h2 : k' = k2
      · subst h2; simp [GoMap.assign, GoMap.index, h]
      · simp [GoMap.assign, GoMap.index, h, h2, ih]

theorem GoMap.index_assign [DecidableEq K] (mp : GoMap K V) (k k2 : K) (v : V) :
    GoMap.index (GoMap.assign mp k v) k2 = if k = k2 then some v else GoMap.index mp k2 := by
  by_cases h : k = k2
  · subst h; simp [GoMap.index_assign_self]
  · simp [h, GoMap.index_assign_ne _ _ _ _ h]

theorem GoMap.index_eq_none_iff [DecidableEq K] (mp : GoMap K V) (k : K) :
    GoMap.index mp k = none ↔ k ∉ mp.map Prod.fst := by
  induction mp with
  | nil => simp [GoMap.index]
  | cons e rest ih =>
    obtain ⟨k', v'⟩ := e
    by_cases h : k' = k
    · simp [GoMap.index, h]
    · simp [GoMap.index, h, ih, Ne.symm h]

theorem GoMap.keys_assign [DecidableEq K] (mp : GoMap K V) (k : K) (v : V) :
    (GoMap.assign mp k v).map Prod.fst =
      if k ∈ mp.map Prod.fst then mp.map Prod.fst else mp.map Prod.fst ++ [k] := by
  induction mp with
  | nil => simp [GoMap.assign]
  | cons e rest ih =>
    obtain ⟨k', v'⟩ := e
    by_cases h : k' = k
    · simp [GoMap.assign, h]
    · simp only [GoMap.assign, h, if_false, List.map_cons, ih, List.mem_cons, Ne.symm h,
        false_or]
      split <;> simp

/-! ## pick -/

theorem pick_sublist (keep : Nat → T → Bool) (s : List T) : List.Sublist (pick keep s) s := by
  have h : List.Sublist (pick keep s) (s.enum.map Prod.snd) :=
    List.Sublist.map _ (List.filter_sublist _)
  rwa [List.enum_map_snd] at h

theorem mem_pick (keep : Nat → T → Bool) (s : List T) (x : T) :
    x ∈ pick keep s ↔ ∃ (i : Nat) (h : i < s.length), s[i] = x ∧ keep i x = true := by
  simp only [pick, List.mem_map, List.mem_filter, Prod.exists, List.mk_mem_enum_iff_getElem?]
  constructor
  · rintro ⟨i, y, ⟨hy, hk⟩, rfl⟩
    obtain ⟨h, rfl⟩ := List.getElem?_eq_some_iff.1 hy
    exact ⟨i, h, rfl, hk⟩
  · rintro ⟨i, h, rfl, hk⟩
    exact ⟨i, s[i], ⟨List.getElem?_eq_getElem h, hk⟩, rfl⟩

theorem pick_snoc (keep : Nat → T → Bool) (pre : List T) (x : T) :
    pick keep (pre ++ [x]) = pick keep pre ++ (if keep pre.length x then [x] else []) := by
  simp only [pick, List.enum_append, List.filter_append, List.map_append, List.enumFrom_singleton]
  by_cases h : keep pre.length x = true <;> simp [List.filter_cons, h]

theorem pick_congr (keep keep2 : Nat → T → Bool) (s : List T)
    (h : ∀ (i : Nat) (hi : i < s.length), keep i s[i] = keep2 i s[i]) :
    pick keep s = pick keep2 s := by
  simp only [pick]
  congr 1
  apply List.filter_congr
  intro q hq
  obtain ⟨i, x⟩ := q
  obtain ⟨hi, rfl⟩ := List.getElem?_eq_some_iff.1 (List.mk_mem_enum_iff_getElem?.1 hq)
  exact h i hi

theorem pick_filter (keep : Nat → T → Bool) (p : T → Bool) (s : List T) :
    (pick keep s).filter p = pick (fun i x => keep i x && p x) s := by
  simp only [pick, List.filter_map, List.filter_filter]
  congr 2
  funext q
  simp [Bool.and_comm]

theorem filter_eq_pick (p : T → Bool) (s : List T) :
    s.filter p = pick (fun _ x => p x) s := by
  have := pick_filter (fun _ _ => true) p s
  simp only [Bool.true_and] at this
  rw [← this]
  congr 1
  simp [pick, List.enum_map_snd]

/-! ## firstByKey -/

theorem firstByKey_snoc [DecidableEq U] (f : T → U) (pre : List T) (x : T) :
    firstByKey f (pre ++ [x]) =
      if f x ∈ pre.map f then firstByKey f pre else firstByKey f pre ++ [x] := by
  simp only [firstByKey]
  rw [pick_snoc]
  have h1 : pick (fun i y => decide (f y ∉ ((pre ++ [x]).take i).map f)) pre =
      pick (fun i y => decide (f y ∉ (pre.take i).map f)) pre := by
    apply pick_congr
    intro i hi
    rw [List.take_append_of_le_length (Nat.le_of_lt hi)]
  rw [h1]
  by_cases h : f x ∈ pre.map f <;> simp [h]

theorem firstByKey_nil [DecidableEq U] (f : T → U) : firstByKey f ([] : List T) = [] := rfl

theorem mem_keys_firstByKey [DecidableEq U] (f : T → U) (s : List T) (k : U) :
    k ∈ (firstByKey f s).map f ↔ k ∈ s.map f := by
  induction s using List.reverseRecOn with
  | nil => simp [firstByKey_nil]
  | append_singleton pre x ih =>
    rw [firstByKey_snoc]
    by_cases h : f x ∈ pre.map f
    · simp only [h, if_true, ih, List.map_append, List.mem_append, List.map_cons, List.map_nil,
        List.mem_singleton]
      constructor
      · exact Or.inl
      · rintro (h1 | rfl)
        · exact h1
        · exact h
    · simp only [h, if_false, List.map_append, List.mem_append, ih]

theorem nodup_keys_firstByKey [DecidableEq U] (f : T → U) (s : List T) :
    ((firstByKey f s).map f).Nodup := by
  induction s using List.reverseRecOn with
  | nil => simp [firstByKey_nil]
  | append_singleton pre x ih =>
    rw [firstByKey_snoc]
    by_cases h : f x ∈ pre.map f
    · simpa [h] using ih
    · simp only [h, if_false, List.map_append, List.map_cons, List.map_nil]
      rw [List.nodup_append]
      refine ⟨ih, List.nodup_singleton _, ?_⟩
      intro a ha hb
      rw [List.mem_singleton] at hb
      subst hb
      exact h ((mem_keys_firstByKey f pre _).1 ha)

theorem firstByKey_sublist [DecidableEq U] (f : T → U) (s : List T) :
    List.Sublist (firstByKey f s) s := pick_sublist _ _

theorem keyCount_snoc [DecidableEq U] (f : T → U) (pre : List T) (x : T) (k : U) :
    keyCount f (pre ++ [x]) k = keyCount f pre k + (if f x = k then 1 else 0) := by
  simp only [keyCount, List.map_append, List.count_append, List.map_cons, List.map_nil,
    List.count_singleton, beq_iff_eq]

theorem keyCount_pos_iff [DecidableEq U] (f : T → U) (s : List T) (k : U) :
    0 < keyCount f s k ↔ k ∈ s.map f := by
  simp [keyCount, List.count_pos_iff]

theorem keyCount_eq_zero_iff [DecidableEq U] (f : T → U) (s : List T) (k : U) :
    keyCount f s k = 0 ↔ k ∉ s.map f := by
  simp [keyCount, List.count_eq_zero]

theorem dupState_snoc [DecidableEq U] (f : T → U) (pre : List T) (x : T) (k : U) :
    dupState f (pre ++ [x]) k =
      if f x = k then
        (match dupState f pre k with
          | none => some false
          | some _ => some true)
      else dupState f pre k := by
  simp only [dupState, keyCount_snoc]
  by_cases h : f x = k
  · simp only [h, if_true]
    by_cases h0 : keyCount f pre k = 0
    · simp [h0]
    · have : 2 ≤ keyCount f pre k + 1 := by omega
      simp [h0, this]
  · simp [h]

theorem isDuplPass_total [DecidableEq U] (f : T → U) (rest pre : List T) (isDupl : GoMap U Bool)
    (hmp : ∀ k, GoMap.index isDupl k = dupState f pre k) :
    ∃ mp : GoMap U Bool, isDuplPass (total (E := E) f) rest isDupl = Except.ok mp ∧
      ∀ k, GoMap.index mp k = dupState f (pre ++ rest) k := by
  induction rest generalizing pre isDupl with
  | nil => exact ⟨isDupl, rfl, by simpa using hmp⟩
  | cons x xs ih =>
    have hsplit : pre ++ x :: xs = (pre ++ [x]) ++ xs := by simp
    rw [hsplit]
    simp only [isDuplPass, total, bind]
    have hx := hmp (f x)
    cases hi : GoMap.index isDupl (f x) with
    | none =>
      simp only
      apply ih
      intro k
      rw [GoMap.index_assign, dupState_snoc, hmp k]
      by_cases hk : f x = k
      · subst hk; rw [← hx, hi]
      · simp [hk]
    | some d =>
      simp only
      cases d with
      | false =>
        simp only [Bool.not_false, if_true]
        apply ih
        intro k
        rw [GoMap.index_assign, dupState_snoc, hmp k]
        by_cases hk : f x = k
        · subst hk; rw [← hx, hi]
        · simp [hk]
      | true =>
        simp only [Bool.not_true, Bool.false_eq_true, if_false]
        apply ih
        intro k
        rw [dupState_snoc, hmp k]
        by_cases hk : f x = k
        · subst hk; rw [← hx, hi]; simp
        · simp [hk]

theorem FindUniquesBy_loop_total [DecidableEq U] (f : T → U) (isDupl : GoMap U Bool)
    (rest result : List T) :
    FindUniquesBy.loop (total (E := E) f) isDupl rest result =
      (some (result ++ rest.filter (fun x => !(GoMap.index isDupl (f x)).getD false)), none) := by
  induction rest generalizing result with
  | nil => simp [FindUniquesBy.loop, pure]
  | cons x xs ih =>
    simp only [FindUniquesBy.loop, total, bind]
    by_cases h : (GoMap.index isDupl (f x)).getD false = true
    · simp [ih, List.filter_cons, h]
    · simp [ih, List.filter_cons, h]

theorem FindUniquesBy_total [DecidableEq U] (f : T → U) (s : List T) :
    Id.run (FindUniquesBy s (total (E := E) f)) =
      (some (s.filter (fun x => decide (keyCount f s (f x) = 1))), none) := by
  obtain ⟨mp, h1, h2⟩ := isDuplPass_total (E := E) f s [] [] (by
    intro k; simp [GoMap.index, dupState, keyCount])
  simp only [List.nil_append] at h2
  simp only [FindUniquesBy, Id.run, bind, h1, FindUniquesBy_loop_total, List.nil_append]
  congr 2
  apply List.filter_congr
  intro x hx
  have hpos : 0 < keyCount f s (f x) := (keyCount_pos_iff f s _).2 (List.mem_map_of_mem f hx)
  rw [h2, dupState, if_neg (by omega)]
  by_cases hc : 2 ≤ keyCount f s (f x)
  · have : keyCount f s (f x) ≠ 1 := by omega
    simp [hc, this]
  · have : keyCount f s (f x) = 1 := by omega
    simp [this]

theorem FindDuplicatesBy_loop_total [DecidableEq U] (f : T → U) (s rest pre : List T)
    (isDupl : GoMap U Bool)
    (hmp : ∀ k, (GoMap.index isDupl k).getD false =
      decide (2 ≤ keyCount f s k ∧ k ∉ pre.map f)) :
    FindDuplicatesBy.loop (total (E := E) f) rest isDupl
        ((firstByKey f pre).filter (fun x => decide (2 ≤ keyCount f s (f x)))) =
      (some ((firstByKey f (pre ++ rest)).filter (fun x => decide (2 ≤ keyCount f s (f x)))),
        none) := by
  induction rest generalizing pre isDupl with
  | nil => simp [FindDuplicatesBy.loop, pure]
  | cons x xs ih =>
    have hsplit : pre ++ x :: xs = (pre ++ [x]) ++ xs := by simp
    simp only [FindDuplicatesBy.loop, total, bind]
    have hx := hmp (f x)
    by_cases hd : (GoMap.index isDupl (f x)).getD false = true
    · rw [hd] at hx
      have hx2 : 2 ≤ keyCount f s (f x) ∧ f x ∉ pre.map f := by simpa using hx.symm
      rw [if_pos hd, hsplit, ← ih (pre ++ [x]) (GoMap.assign isDupl (f x) false),
        firstByKey_snoc, if_neg hx2.2, List.filter_append]
      · simp [List.filter_cons, hx2.1]
      · intro k
        rw [GoMap.index_assign]
        by_cases hk : f x = k
        · simp [hk]
        · rw [if_neg hk, hmp k]
          simp [Ne.symm hk]
    · rw [if_neg hd, hsplit, ← ih (pre ++ [x]) isDupl]
      · rw [firstByKey_snoc]
        by_cases hm : f x ∈ pre.map f
        · rw [if_pos hm]
        · rw [if_neg hm, List.filter_append]
          have : ¬ 2 ≤ keyCount f s (f x) := by
            intro h2
            apply hd
            rw [hx]
            simp [h2, hm]
          simp [List.filter_cons, this]
      · intro k
        rw [hmp k]
        by_cases hk : f x = k
        · subst hk
          have : ¬ (2 ≤ keyCount f s (f x) ∧ f x ∉ pre.map f) := by
            intro h2
            apply hd
            rw [hx]
            simpa using h2
          simp only [this, decide_False]
          simp
        · simp [Ne.symm hk]

theorem FindDuplicatesBy_total [DecidableEq U] (f : T → U) (s : List T) :
    Id.run (FindDuplicatesBy s (total (E := E) f)) =
      (some ((firstByKey f s).filter (fun x => decide (2 ≤ keyCount f s (f x)))), none) := by
  obtain ⟨mp, h1, h2⟩ := isDuplPass_total (E := E) f s [] [] (by
    intro k; simp [GoMap.index, dupState, keyCount])
  simp only [List.nil_append] at h2
  have := FindDuplicatesBy_loop_total (E := E) f s s [] mp (by
    intro k
    rw [h2, dupState]
    by_cases h0 : keyCount f s k = 0
    · simp [h0]
    · simp [h0])
  simp only [FindDuplicatesBy, Id.run, bind, h1]
  simpa [firstByKey_nil] using this

/-- An element whose key occurs once is the first occurrence of its key. -/
theorem not_mem_take_of_keyCount_eq_one [DecidableEq U] (f : T → U) (s : List T) (i : Nat)
    (hi : i < s.length) (h1 : keyCount f s (f s[i]) = 1) : f s[i] ∉ (s.take i).map f := by
  intro hmem
  have hs : s = s.take i ++ s[i] :: s.drop (i + 1) := by
    rw [← List.drop_eq_getElem_cons hi, List.take_append_drop]
  have hc : 0 < ((s.take i).map f).count (f s[i]) := List.count_pos_iff.2 hmem
  generalize hx : s[i] = x at hs hc h1
  have : keyCount f s (f x) =
      ((s.take i).map f).count (f x) + (((s.drop (i + 1)).map f).count (f x) + 1) := by
    conv_lhs => rw [keyCount, hs]
    simp [List.count_append, List.count_cons]
  omega

theorem filter_once_eq_firstByKey_filter [DecidableEq U] (f : T → U) (s : List T) :
    s.filter (fun x => decide (keyCount f s (f x) = 1)) =
      (firstByKey f s).filter (fun x => decide (keyCount f s (f x) = 1)) := by
  rw [filter_eq_pick, firstByKey, pick_filter]
  apply pick_congr
  intro i hi
  by_cases h1 : keyCount f s (f s[i]) = 1
  · have := not_mem_take_of_keyCount_eq_one f s i hi h1
    rw [List.map_take] at this
    simp [h1, this]
  · simp [h1]

theorem GoMap.index_of_mem [DecidableEq K] (mp : GoMap K V) (hnd : (mp.map Prod.fst).Nodup)
    (k : K) (v : V) (hmem : (k, v) ∈ mp) : GoMap.index mp k = some v := by
  induction mp with
  | nil => cases hmem
  | cons e rest ih =>
    obtain ⟨k', v'⟩ := e
    simp only [List.map_cons, List.nodup_cons] at hnd
    rcases List.mem_cons.1 hmem with h | h
    · cases h; simp [GoMap.index]
    · have hne : k' ≠ k := by
        rintro rfl
        exact hnd.1 (List.mem_map_of_mem Prod.fst h)
      simp [GoMap.index, hne, ih hnd.2 h]

theorem GoMap.mem_of_index [DecidableEq K] (mp : GoMap K V) (k : K) (v : V)
    (h : GoMap.index mp k = some v) : (k, v) ∈ mp := by
  induction mp with
  | nil => simp [GoMap.index] at h
  | cons e rest ih =>
    obtain ⟨k', v'⟩ := e
    by_cases hk : k' = k
    · subst hk; simp [GoMap.index] at h; simp [h]
    · simp only [GoMap.index, hk, if_false] at h
      exact List.mem_cons_of_mem _ (ih h)

theorem GoMap.nodup_keys_assign [DecidableEq K] (mp : GoMap K V) (k : K) (v : V)
    (hnd : (mp.map Prod.fst).Nodup) : ((GoMap.assign mp k v).map Prod.fst).Nodup := by
  rw [GoMap.keys_assign]
  split
  · exact hnd
  · rename_i h
    rw [List.nodup_append]
    refine ⟨hnd, List.nodup_singleton _, ?_⟩
    intro a ha hb
    rw [List.mem_singleton] at hb
    exact h (hb ▸ ha)

theorem GoMap.sum_assign [DecidableEq K] (g : V → Nat) (mp : GoMap K V) (k : K) (v : V) :
    ((GoMap.assign mp k v).map (fun e => g e.2)).sum + ((GoMap.index mp k).map g).getD 0 =
      (mp.map (fun e => g e.2)).sum + g v := by
  induction mp with
  | nil => simp [GoMap.assign, GoMap.index]
  | cons e rest ih =>
    obtain ⟨k', v'⟩ := e
    by_cases hk : k' = k
    · simp [GoMap.assign, GoMap.index, hk]; omega
    · simp only [GoMap.assign, GoMap.index, hk, if_false, List.map_cons, List.sum_cons]
      omega

theorem filter_key_snoc [DecidableEq U] (f : T → U) (pre : List T) (x : T) (k : U) :
    (pre ++ [x]).filter (fun z => decide (f z = k)) =
      pre.filter (fun z => decide (f z = k)) ++ (if f x = k then [x] else []) := by
  by_cases h : f x = k <;> simp [List.filter_append, List.filter_cons, h]

theorem filter_key_eq_nil [DecidableEq U] (f : T → U) (s : List T) (k : U)
    (h : k ∉ s.map f) : s.filter (fun z => decide (f z = k)) = [] := by
  rw [List.filter_eq_nil_iff]
  intro z hz hk
  exact h (by simpa using ⟨z, hz, by simpa using hk⟩)

theorem GroupBy_loop_total [DecidableEq U] (f : T → U) (rest pre : List T)
    (result : GoMap U (List T))
    (hnd : (result.map Prod.fst).Nodup)
    (hidx : ∀ k, GoMap.index result k =
      if k ∈ pre.map f then some (pre.filter (fun z => decide (f z = k))) else none)
    (hsum : (result.map (fun e => e.2.length)).sum = pre.length) :
    ∃ mp : GoMap U (List T),
      GroupBy.loop (total (E := E) f) rest result = (some mp, none) ∧
      (mp.map Prod.fst).Nodup ∧
      (∀ k, GoMap.index mp k =
        if k ∈ (pre ++ rest).map f then
          some ((pre ++ rest).filter (fun z => decide (f z = k))) else none) ∧
      (mp.map (fun e => e.2.length)).sum = (pre ++ rest).length := by
  induction rest generalizing pre result with
  | nil => exact ⟨result, rfl, hnd, by simpa using hidx, by simpa using hsum⟩
  | cons x xs ih =>
    have hsplit : pre ++ x :: xs = (pre ++ [x]) ++ xs := by simp
    rw [hsplit]
    simp only [GroupBy.loop, total, bind]
    apply ih
    · exact GoMap.nodup_keys_assign _ _ _ hnd
    · intro k
      rw [GoMap.index_assign, filter_key_snoc]
      by_cases hk : f x = k
      · subst hk
        rw [hidx (f x)]
        by_cases hm : f x ∈ pre.map f
        · simp [hm]
        · simp [hm, filter_key_eq_nil f pre _ hm]
      · rw [if_neg hk, hidx k]
        simp [hk, Ne.symm hk]
    · have := GoMap.sum_assign List.length result (f x)
        ((GoMap.index result (f x)).getD [] ++ [x])
      have h2 : ((GoMap.index result (f x)).map List.length).getD 0 =
          ((GoMap.index result (f x)).getD []).length := by
        cases GoMap.index result (f x) <;> simp
      simp only [List.length_append, List.length_singleton] at this ⊢
      omega

theorem flatten_modify_append_perm (l : List (List T)) (x : T) (j : Nat) (hj : j < l.length) :
    List.Perm (l.modify (fun g => g ++ [x]) j).flatten (l.flatten ++ [x]) := by
  induction l generalizing j with
  | nil => simp at hj
  | cons g gs ih =>
    cases j with
    | zero =>
      simp only [List.modify_zero_cons, List.flatten_cons, List.append_assoc]
      exact List.Perm.append_left g List.perm_append_comm
    | succ j =>
      simp only [List.modify_succ_cons, List.flatten_cons, List.append_assoc]
      exact List.Perm.append_left g (ih j (by simpa using hj))

theorem modify_append_singleton_length (l : List (List T)) (x : T) :
    (l ++ [[]]).modify (fun g => g ++ [x]) l.length = l ++ [[x]] := by
  induction l with
  | nil => rfl
  | cons g gs ih => simp [ih]

theorem PartitionBy_loop_total [DecidableEq K] (f : T → K) (rest pre : List T)
    (seen : GoMap K Nat) (result : List (List T))
    (hres : result = (firstByKey f pre).map (fun y => pre.filter (fun z => decide (f z = f y))))
    (hseen : ∀ k j, GoMap.index seen k = some j ↔ ((firstByKey f pre).map f)[j]? = some k)
    (hperm : List.Perm result.flatten pre) :
    ∃ groups : List (List T),
      PartitionBy.loop (total (E := E) f) rest seen result = (some groups, none) ∧
      groups = (firstByKey f (pre ++ rest)).map
        (fun y => (pre ++ rest).filter (fun z => decide (f z = f y))) ∧
      List.Perm groups.flatten (pre ++ rest) := by
  induction rest generalizing pre seen result with
  | nil => exact ⟨result, rfl, by simpa using hres, by simpa using hperm⟩
  | cons x xs ih =>
    have hsplit : pre ++ x :: xs = (pre ++ [x]) ++ xs := by simp
    have hnd := nodup_keys_firstByKey f pre
    rw [hsplit]
    simp only [PartitionBy.loop, total, bind]
    cases hi : GoMap.index seen (f x) with
    | some j =>
      simp only
      have hj := (hseen _ _).1 hi
      obtain ⟨hjlt, hjeq⟩ := List.getElem?_eq_some_iff.1 hj
      have hmem : f x ∈ pre.map f :=
        (mem_keys_firstByKey f pre _).1 (hjeq ▸ List.getElem_mem _)
      have hlen : j < result.length := by
        rw [hres]; simpa using hjlt
      apply ih
      · rw [firstByKey_snoc, if_pos hmem, hres]
        apply List.ext_getElem?
        intro n
        rw [List.getElem?_modify]
        simp only [List.getElem?_map]
        cases hy : (firstByKey f pre)[n]? with
        | none => rfl
        | some y =>
          simp only [Option.map_some', Option.map_eq_map, filter_key_snoc]
          obtain ⟨hnlt, hneq⟩ := List.getElem?_eq_some_iff.1 hy
          have hiff : j = n ↔ f x = f y := by
            have hn' : n < ((firstByKey f pre).map f).length := by simpa using hnlt
            have := @List.Nodup.getElem_inj_iff _ _ hnd j hjlt n hn'
            rw [← this, hjeq]
            simp [hneq]
          by_cases hjn : j = n
          · simp [hjn, hiff.1 hjn]
          · have : f x ≠ f y := fun h => hjn (hiff.2 h)
            simp [hjn, this]
      · rw [firstByKey_snoc, if_pos hmem]
        exact hseen
      · exact (flatten_modify_append_perm result x j hlen).trans (hperm.append_right _)
    | none =>
      simp only
      have hnk : f x ∉ (firstByKey f pre).map f := by
        intro hmem
        obtain ⟨j, hjlt, hjeq⟩ := List.getElem_of_mem hmem
        have := (hseen (f x) j).2 (by rw [List.getElem?_eq_getElem hjlt, hjeq])
        rw [hi] at this
        cases this
      have hmem : f x ∉ pre.map f := fun h => hnk ((mem_keys_firstByKey f pre _).2 h)
      have hrl : result.length = ((firstByKey f pre).map f).length := by
        rw [hres]; simp
      rw [modify_append_singleton_length]
      apply ih
      · rw [firstByKey_snoc, if_neg hmem, hres, List.map_append]
        congr 1
        · apply List.map_congr_left
          intro y hy
          rw [filter_key_snoc]
          have : f x ≠ f y := fun h => hnk (h ▸ List.mem_map_of_mem f hy)
          simp [this]
        · simp [filter_key_snoc, filter_key_eq_nil f pre _ hmem]
      · intro k j
        rw [GoMap.index_assign, firstByKey_snoc, if_neg hmem, List.map_append, hrl]
        by_cases hk : f x = k
        · subst hk
          simp only [if_true, Option.some.injEq, List.map_cons, List.map_nil]
          constructor
          · intro h
            subst h
            simp
          · intro h
            by_contra hne
            rcases Nat.lt_or_gt_of_ne hne with hlt | hgt
            · rw [List.getElem?_append_right (by omega)] at h
              have : j - ((firstByKey f pre).map f).length ≠ 0 := by omega
              cases hj : j - ((firstByKey f pre).map f).length with
              | zero => exact this hj
              | succ n => rw [hj] at h; simp at h
            · rw [List.getElem?_append_left hgt] at h
              exact hnk (List.getElem?_mem h)
        · rw [if_neg hk, hseen k j]
          constructor
          · intro h
            have hlt := (List.getElem?_eq_some_iff.1 h).1
            rw [List.getElem?_append_left hlt]; exact h
          · intro h
            by_cases hlt : j < ((firstByKey f pre).map f).length
            · rwa [List.getElem?_append_left hlt] at h
            · rw [List.getElem?_append_right (by omega)] at h
              cases hj : j - ((firstByKey f pre).map f).length with
              | zero => rw [hj] at h; simp at h; exact absurd h hk
              | succ n => rw [hj] at h; simp at h
      · simp only [List.flatten_append, List.flatten_cons, List.flatten_nil, List.append_nil]
        exact hperm.append_right _

/-! ## Running operations over stateful callbacks -/

theorem runFrom_bind {A B : Type} (x : StateM σ A) (f : A → StateM σ B) (st : σ) :
    runFrom (x >>= f) st = runFrom (f (runFrom x st).1) (runFrom x st).2 := rfl

theorem runFrom_pure {A : Type} (a : A) (st : σ) :
    runFrom (pure a : StateM σ A) st = (a, st) := rfl

/-! ## Zero value on failure -/

theorem Filter_loop_zero (cb : V → Int → StateM σ (Bool × Option E)) (rest : List V) (i : Nat) (result : List V) (st : σ) :
    (runFrom (Filter.loop cb rest i result) st).1.2 ≠ none →
      (runFrom (Filter.loop cb rest i result) st).1.1 = none := by
  induction rest generalizing i result st with
  | nil => simp [Filter.loop, runFrom_pure]
  | cons x xs ih =>
    simp only [Filter.loop, runFrom_bind]
    split
    · simp [runFrom_pure]
    · split <;> exact ih _ _ _

theorem Map_loop_zero (cb : T → Int → StateM σ (R × Option E)) (rest : List T) (i : Nat) (result : List R) (st : σ) :
    (runFrom (Map.loop cb rest i result) st).1.2 ≠ none →
      (runFrom (Map.loop cb rest i result) st).1.1 = none := by
  induction rest generalizing i result st with
  | nil => simp [Map.loop, runFrom_pure]
  | cons x xs ih =>
    simp only [Map.loop, runFrom_bind]
    split
    · simp [runFrom_pure]
    · exact ih _ _ _

theorem FilterMap_loop_zero (cb : T → Int → StateM σ (R × Bool × Option E)) (rest : List T) (i : Nat) (result : List R) (st : σ) :
    (runFrom (FilterMap.loop cb rest i result) st).1.2 ≠ none →
      (runFrom (FilterMap.loop cb rest i result) st).1.1 = none := by
  induction rest generalizing i result st with
  | nil => simp [FilterMap.loop, runFrom_pure]
  | cons x xs ih =>
    simp only [FilterMap.loop, runFrom_bind]
    split
    · simp [runFrom_pure]
    · split <;> exact ih _ _ _

theorem FlatMap_loop_zero (cb : T → Int → StateM σ (Option (List R) × Option E)) (rest : List T) (i : Nat) (result : List R) (st : σ) :
    (runFrom (FlatMap.loop cb rest i result) st).1.2 ≠ none →
      (runFrom (FlatMap.loop cb rest i result) st).1.1 = none := by
  induction rest generalizing i result st with
  | nil => simp [FlatMap.loop, runFrom_pure]
  | cons x xs ih =>
    simp only [FlatMap.loop, runFrom_bind]
    split
    · simp [runFrom_pure]
    · exact ih _ _ _

theorem Reject_loop_zero (cb : V → Int → StateM σ (Bool × Option E)) (rest : List V) (i : Nat) (result : List V) (st : σ) :
    (runFrom (Reject.loop cb rest i result) st).1.2 ≠ none →
      (runFrom (Reject.loop cb rest i result) st).1.1 = none := by
  induction rest generalizing i result st with
  | nil => simp [Reject.loop, runFrom_pure]
  | cons x xs ih =>
    simp only [Reject.loop, runFrom_bind]
    split
    · simp [runFrom_pure]
    · split <;> exact ih _ _ _

theorem Reduce_loop_zero [Inhabited R] (cb : R → T → Int → StateM σ (R × Option E)) (rest : List T) (i : Nat) (initial : R) (st : σ) :
    (runFrom (Reduce.loop cb rest i initial) st).1.2 ≠ none →
      (runFrom (Reduce.loop cb rest i initial) st).1.1 = empty R := by
  induction rest generalizing i initial st with
  | nil => simp [Reduce.loop, runFrom_pure]
  | cons x xs ih =>
    simp only [Reduce.loop, runFrom_bind]
    split
    · simp [runFrom_pure]
    · exact ih _ _ _

theorem UniqBy_loop_zero [DecidableEq U] (cb : T → StateM σ (U × Option E)) (rest : List T) (seen : GoMap U Unit) (result : List T) (st : σ) :
    (runFrom (UniqBy.loop cb rest seen result) st).1.2 ≠ none →
      (runFrom (UniqBy.loop cb rest seen result) st).1.1 = none := by
  induction rest generalizing seen result st with
  | nil => simp [UniqBy.loop, runFrom_pure]
  | cons x xs ih =>
    simp only [UniqBy.loop, runFrom_bind]
    split
    · simp [runFrom_pure]
    · split <;> exact ih _ _ _

theorem GroupBy_loop_zero [DecidableEq U] (cb : T → StateM σ (U × Option E)) (rest : List T) (result : GoMap U (List T)) (st : σ) :
    (runFrom (GroupBy.loop cb rest result) st).1.2 ≠ none →
      (runFrom (GroupBy.loop cb rest result) st).1.1 = none := by
  induction rest generalizing result st with
  | nil => simp [GroupBy.loop, runFrom_pure]
  | cons x xs ih =>
    simp only [GroupBy.loop, runFrom_bind]
    split
    · simp [runFrom_pure]
    · exact ih _ _

theorem PartitionBy_loop_zero [DecidableEq K] (cb : T → StateM σ (K × Option E)) (rest : List T) (seen : GoMap K Nat) (result : List (List T)) (st : σ) :
    (runFrom (PartitionBy.loop cb rest seen result) st).1.2 ≠ none →
      (runFrom (PartitionBy.loop cb rest seen result) st).1.1 = none := by
  induction rest generalizing seen result st with
  | nil => simp [PartitionBy.loop, runFrom_pure]
  | cons x xs ih =>
    simp only [PartitionBy.loop, runFrom_bind]
    split
    · simp [runFrom_pure]
    · split <;> exact ih _ _ _

theorem KeyBy_loop_zero [DecidableEq K] (cb : V → StateM σ (K × Option E)) (rest : List V) (result : GoMap K V) (st : σ) :
    (runFrom (KeyBy.loop cb rest result) st).1.2 ≠ none →
      (runFrom (KeyBy.loop cb rest result) st).1.1 = none := by
  induction rest generalizing result st with
  | nil => simp [KeyBy.loop, runFrom_pure]
  | cons x xs ih =>
    simp only [KeyBy.loop, runFrom_bind]
    split
    · simp [runFrom_pure]
    · exact ih _ _

theorem Associate_loop_zero [DecidableEq K] (cb : T → StateM σ (K × V × Option E)) (rest : List T) (result : GoMap K V) (st : σ) :
    (runFrom (Associate.loop cb rest result) st).1.2 ≠ none →
      (runFrom (Associate.loop cb rest result) st).1.1 = none := by
  induction rest generalizing result st with
  | nil => simp [Associate.loop, runFrom_pure]
  | cons x xs ih =>
    simp only [Associate.loop, runFrom_bind]
    split
    · simp [runFrom_pure]
    · exact ih _ _

theorem CountBy_loop_zero (cb : T → StateM σ (Bool × Option E)) (rest : List T) (count : Int) (st : σ) :
    (runFrom (CountBy.loop cb rest count) st).1.2 ≠ none →
      (runFrom (CountBy.loop cb rest count) st).1.1 = -1 := by
  induction rest generalizing count st with
  | nil => simp [CountBy.loop, runFrom_pure]
  | cons x xs ih =>
    simp only [CountBy.loop, runFrom_bind]
    split
    · simp [runFrom_pure]
    · split <;> exact ih _ _

theorem CountValuesBy_loop_zero [DecidableEq U] (cb : T → StateM σ (U × Option E)) (rest : List T) (result : GoMap U Int) (st : σ) :
    (runFrom (CountValuesBy.loop cb rest result) st).1.2 ≠ none →
      (runFrom (CountValuesBy.loop cb rest result) st).1.1 = none := by
  induction rest generalizing result st with
  | nil => simp [CountValuesBy.loop, runFrom_pure]
  | cons x xs ih =>
    simp only [CountValuesBy.loop, runFrom_bind]
    split
    · simp [runFrom_pure]
    · exact ih _ _

theorem FindIndexOf_loop_zero [Inhabited T] (cb : T → StateM σ (Bool × Option E))
    (rest : List T) (i : Nat) (st : σ) :
    (runFrom (FindIndexOf.loop cb rest i) st).1.2.2.2 ≠ none →
      (runFrom (FindIndexOf.loop cb rest i) st).1.1 = empty T ∧
      (runFrom (FindIndexOf.loop cb rest i) st).1.2.1 = -1 ∧
      (runFrom (FindIndexOf.loop cb rest i) st).1.2.2.1 = false := by
  induction rest generalizing i st with
  | nil => simp [FindIndexOf.loop, runFrom_pure]
  | cons x xs ih =>
    simp only [FindIndexOf.loop, runFrom_bind]
    split
    · simp [runFrom_pure]
    · split
      · simp [runFrom_pure]
      · exact ih _ _

theorem MapKeys_loop_zero [DecidableEq R] (cb : V → K → StateM σ (R × Option E)) (rest : GoMap K V) (result : GoMap R V) (st : σ) :
    (runFrom (MapKeys.loop cb rest result) st).1.2 ≠ none →
      (runFrom (MapKeys.loop cb rest result) st).1.1 = none := by
  induction rest generalizing result st with
  | nil => simp [MapKeys.loop, runFrom_pure]
  | cons en rest ih =>
    obtain ⟨k, v⟩ := en
    simp only [MapKeys.loop, runFrom_bind]
    split
    · simp [runFrom_pure]
    · exact ih _ _

theorem MapValues_loop_zero [DecidableEq K] (cb : V → K → StateM σ (R × Option E)) (rest : GoMap K V) (result : GoMap K R) (st : σ) :
    (runFrom (MapValues.loop cb rest result) st).1.2 ≠ none →
      (runFrom (MapValues.loop cb rest result) st).1.1 = none := by
  induction rest generalizing result st with
  | nil => simp [MapValues.loop, runFrom_pure]
  | cons en rest ih =>
    obtain ⟨k, v⟩ := en
    simp only [MapValues.loop, runFrom_bind]
    split
    · simp [runFrom_pure]
    · exact ih _ _

theorem MapEntries_loop_zero [DecidableEq K2] (cb : K1 → V1 → StateM σ (K2 × V2 × Option E)) (rest : GoMap K1 V1) (result : GoMap K2 V2) (st : σ) :
    (runFrom (MapEntries.loop cb rest result) st).1.2 ≠ none →
      (runFrom (MapEntries.loop cb rest result) st).1.1 = none := by
  induction rest generalizing result st with
  | nil => simp [MapEntries.loop, runFrom_pure]
  | cons en rest ih =>
    obtain ⟨k, v⟩ := en
    simp only [MapEntries.loop, runFrom_bind]
    split
    · simp [runFrom_pure]
    · exact ih _ _

theorem MapToSlice_loop_zero (cb : K → V → StateM σ (R × Option E)) (rest : GoMap K V) (result : List R) (st : σ) :
    (runFrom (MapToSlice.loop cb rest result) st).1.2 ≠ none →
      (runFrom (MapToSlice.loop cb rest result) st).1.1 = none := by
  induction rest generalizing result st with
  | nil => simp [MapToSlice.loop, runFrom_pure]
  | cons en rest ih =>
    obtain ⟨k, v⟩ := en
    simp only [MapToSlice.loop, runFrom_bind]
    split
    · simp [runFrom_pure]
    · exact ih _ _

theorem Find_zero [Inhabited T] (cb : T → StateM σ (Bool × Option E)) (s : List T) (st : σ) :
    (runFrom (Find s cb) st).1.2.2 ≠ none →
      (runFrom (Find s cb) st).1.1 = empty T ∧ (runFrom (Find s cb) st).1.2.1 = false := by
  induction s generalizing st with
  | nil => simp [Find, runFrom_pure]
  | cons x xs ih =>
    simp only [Find, runFrom_bind]
    split
    · simp [runFrom_pure]
    · split
      · simp [runFrom_pure]
      · exact ih _

theorem FindOrElse_zero [Inhabited T] (cb : T → StateM σ (Bool × Option E)) (s : List T) (fallback : T) (st : σ) :
    (runFrom (FindOrElse s fallback cb) st).1.2 ≠ none →
      (runFrom (FindOrElse s fallback cb) st).1.1 = empty T := by
  induction s generalizing st with
  | nil => simp [FindOrElse, runFrom_pure]
  | cons x xs ih =>
    simp only [FindOrElse, runFrom_bind]
    split
    · simp [runFrom_pure]
    · split
      · simp [runFrom_pure]
      · exact ih _

theorem FindKeyBy_zero [Inhabited K] (cb : K → V → StateM σ (Bool × Option E)) (s : GoMap K V) (st : σ) :
    (runFrom (FindKeyBy s cb) st).1.2.2 ≠ none →
      (runFrom (FindKeyBy s cb) st).1.1 = empty K ∧ (runFrom (FindKeyBy s cb) st).1.2.1 = false := by
  induction s generalizing st with
  | nil => simp [FindKeyBy, runFrom_pure]
  | cons en rest ih =>
    obtain ⟨k, v⟩ := en
    simp only [FindKeyBy, runFrom_bind]
    split
    · simp [runFrom_pure]
    · split
      · simp [runFrom_pure]
      · exact ih _

theorem ContainsBy_zero (cb : T → StateM σ (Bool × Option E)) (s : List T) (st : σ) :
    (runFrom (ContainsBy s cb) st).1.2 ≠ none →
      (runFrom (ContainsBy s cb) st).1.1 = false := by
  induction s generalizing st with
  | nil => simp [ContainsBy, runFrom_pure]
  | cons x xs ih =>
    simp only [ContainsBy, runFrom_bind]
    split
    · simp [runFrom_pure]
    · split
      · simp [runFrom_pure]
      · exact ih _

theorem EveryBy_zero (cb : T → StateM σ (Bool × Option E)) (s : List T) (st : σ) :
    (runFrom (EveryBy s cb) st).1.2 ≠ none →
      (runFrom (EveryBy s cb) st).1.1 = false := by
  induction s generalizing st with
  | nil => simp [EveryBy, runFrom_pure]
  | cons x xs ih =>
    simp only [EveryBy, runFrom_bind]
    split
    · simp [runFrom_pure]
    · split
      · simp [runFrom_pure]
      · exact ih _

theorem SomeBy_zero (cb : T → StateM σ (Bool × Option E)) (s : List T) (st : σ) :
    (runFrom (SomeBy s cb) st).1.2 ≠ none →
      (runFrom (SomeBy s cb) st).1.1 = false := by
  induction s generalizing st with
  | nil => simp [SomeBy, runFrom_pure]
  | cons x xs ih =>
    simp only [SomeBy, runFrom_bind]
    split
    · simp [runFrom_pure]
    · split
      · simp [runFrom_pure]
      · exact ih _

theorem NoneBy_zero (cb : T → StateM σ (Bool × Option E)) (s : List T) (st : σ) :
    (runFrom (NoneBy s cb) st).1.2 ≠ none →
      (runFrom (NoneBy s cb) st).1.1 = false := by
  induction s generalizing st with
  | nil => simp [NoneBy, runFrom_pure]
  | cons x xs ih =>
    simp only [NoneBy, runFrom_bind]
    split
    · simp [runFrom_pure]
    · split
      · simp [runFrom_pure]
      · exact ih _

theorem ReduceRight_loop_zero [Inhabited R] (cb : R → T → Int → StateM σ (R × Option E)) (s : List T) (n : Nat)
    (h : n ≤ s.length) (initial : R) (st : σ) :
    (runFrom (ReduceRight.loop s cb n h initial) st).1.2 ≠ none →
      (runFrom (ReduceRight.loop s cb n h initial) st).1.1 = empty R := by
  induction n generalizing initial st with
  | zero => simp [ReduceRight.loop, runFrom_pure]
  | succ n ih =>
    simp only [ReduceRight.loop, runFrom_bind]
    split
    · simp [runFrom_pure]
    · exact ih _ _ _

theorem FindLastIndexOf_loop_zero [Inhabited T] (cb : T → StateM σ (Bool × Option E)) (s : List T) (n : Nat)
    (h : n ≤ s.length) (st : σ) :
    (runFrom (FindLastIndexOf.loop s cb n h) st).1.2.2.2 ≠ none →
      (runFrom (FindLastIndexOf.loop s cb n h) st).1.1 = empty T ∧ (runFrom (FindLastIndexOf.loop s cb n h) st).1.2.1 = -1 ∧
      (runFrom (FindLastIndexOf.loop s cb n h) st).1.2.2.1 = false := by
  induction n generalizing st with
  | zero => simp [FindLastIndexOf.loop, runFrom_pure]
  | succ n ih =>
    simp only [FindLastIndexOf.loop, runFrom_bind]
    split
    · simp [runFrom_pure]
    · split
      · simp [runFrom_pure]
      · exact ih _ _

theorem Times_loop_zero (cb : Int → StateM σ (T × Option E)) (remaining i : Nat)
    (result : List T) (st : σ) :
    (runFrom (Times.loop cb remaining i result) st).1.2 ≠ none → (runFrom (Times.loop cb remaining i result) st).1.1 = none := by
  induction remaining generalizing i result st with
  | zero => simp [Times.loop, runFrom_pure]
  | succ n ih =>
    simp only [Times.loop, runFrom_bind]
    split
    · simp [runFrom_pure]
    · exact ih _ _ _

theorem RepeatBy_loop_zero (cb : Int → StateM σ (T × Option E)) (remaining i : Nat)
    (result : List T) (st : σ) :
    (runFrom (RepeatBy.loop cb remaining i result) st).1.2 ≠ none → (runFrom (RepeatBy.loop cb remaining i result) st).1.1 = none := by
  induction remaining generalizing i result st with
  | zero => simp [RepeatBy.loop, runFrom_pure]
  | succ n ih =>
    simp only [RepeatBy.loop, runFrom_bind]
    split
    · simp [runFrom_pure]
    · exact ih _ _ _

theorem DropWhile_zero (cb : T → StateM σ (Bool × Option E)) (s : List T) (st : σ) :
    (runFrom (DropWhile s cb) st).1.2 ≠ none → (runFrom (DropWhile s cb) st).1.1 = none := by
  simp only [DropWhile, runFrom_bind]
  split <;> simp [runFrom_pure]

theorem DropRightWhile_zero (cb : T → StateM σ (Bool × Option E)) (s : List T) (st : σ) :
    (runFrom (DropRightWhile s cb) st).1.2 ≠ none →
      (runFrom (DropRightWhile s cb) st).1.1 = none := by
  simp only [DropRightWhile, runFrom_bind]
  split <;> simp [runFrom_pure]

theorem FindUniquesBy_loop_zero [DecidableEq U] (cb : T → StateM σ (U × Option E))
    (isDupl : GoMap U Bool) (rest result : List T) (st : σ) :
    (runFrom (FindUniquesBy.loop cb isDupl rest result) st).1.2 ≠ none →
      (runFrom (FindUniquesBy.loop cb isDupl rest result) st).1.1 = none := by
  induction rest generalizing result st with
  | nil => simp [FindUniquesBy.loop, runFrom_pure]
  | cons x xs ih =>
    simp only [FindUniquesBy.loop, runFrom_bind]
    split
    · simp [runFrom_pure]
    · split <;> exact ih _ _

theorem FindUniquesBy_zero [DecidableEq U] (cb : T → StateM σ (U × Option E)) (s : List T)
    (st : σ) :
    (runFrom (FindUniquesBy s cb) st).1.2 ≠ none →
      (runFrom (FindUniquesBy s cb) st).1.1 = none := by
  simp only [FindUniquesBy, runFrom_bind]
  split
  · simp [runFrom_pure]
  · exact FindUniquesBy_loop_zero _ _ _ _ _

theorem FindDuplicatesBy_loop_zero [DecidableEq U] (cb : T → StateM σ (U × Option E))
    (rest : List T) (isDupl : GoMap U Bool) (result : List T) (st : σ) :
    (runFrom (FindDuplicatesBy.loop cb rest isDupl result) st).1.2 ≠ none →
      (runFrom (FindDuplicatesBy.loop cb rest isDupl result) st).1.1 = none := by
  induction rest generalizing isDupl result st with
  | nil => simp [FindDuplicatesBy.loop, runFrom_pure]
  | cons x xs ih =>
    simp only [FindDuplicatesBy.loop, runFrom_bind]
    split
    · simp [runFrom_pure]
    · split <;> exact ih _ _ _

theorem FindDuplicatesBy_zero [DecidableEq U] (cb : T → StateM σ (U × Option E)) (s : List T)
    (st : σ) :
    (runFrom (FindDuplicatesBy s cb) st).1.2 ≠ none →
      (runFrom (FindDuplicatesBy s cb) st).1.1 = none := by
  simp only [FindDuplicatesBy, runFrom_bind]
  split
  · simp [runFrom_pure]
  · exact FindDuplicatesBy_loop_zero _ _ _ _ _

/-! ## Callbacks instrumented to record their failures -/

theorem runFrom_watched {A : Type} (err : A → Option E) (act : StateM σ A) (st : σ)
    (log : List E) :
    runFrom (watched err act) (st, log) =
      ((runFrom act st).1, ((runFrom act st).2, log ++ (err (runFrom act st).1).toList)) := rfl

theorem Filter_loop_watched (cb : V → Int → StateM σ (Bool × Option E)) (rest : List V) (i : Nat) (result : List V) (st : σ) (log : List E) :
    runFrom (Filter.loop (fun x j => watched Prod.snd (cb x j)) rest i result) (st, log) =
      ((runFrom (Filter.loop cb rest i result) st).1, ((runFrom (Filter.loop cb rest i result) st).2,
        log ++ ((runFrom (Filter.loop cb rest i result) st).1.2).toList)) := by
  induction rest generalizing i result st log with
  | nil => simp [Filter.loop, runFrom_pure]
  | cons x xs ih =>
    simp only [Filter.loop, runFrom_bind, runFrom_watched]
    split
    · rename_i h; simp only [h]; simp [runFrom_pure]
    · rename_i h
      simp only [h]
      split <;> simp [ih, runFrom_pure]

theorem Map_loop_watched (cb : T → Int → StateM σ (R × Option E)) (rest : List T) (i : Nat) (result : List R) (st : σ) (log : List E) :
    runFrom (Map.loop (fun x j => watched Prod.snd (cb x j)) rest i result) (st, log) =
      ((runFrom (Map.loop cb rest i result) st).1, ((runFrom (Map.loop cb rest i result) st).2,
        log ++ ((runFrom (Map.loop cb rest i result) st).1.2).toList)) := by
  induction rest generalizing i result st log with
  | nil => simp [Map.loop, runFrom_pure]
  | cons x xs ih =>
    simp only [Map.loop, runFrom_bind, runFrom_watched]
    split
    · rename_i h; simp only [h]; simp [runFrom_pure]
    · rename_i h
      simp only [h]
      simp [ih]

theorem FilterMap_loop_watched (cb : T → Int → StateM σ (R × Bool × Option E)) (rest : List T) (i : Nat) (result : List R) (st : σ) (log : List E) :
    runFrom (FilterMap.loop (fun x j => watched (fun r => r.2.2) (cb x j)) rest i result) (st, log) =
      ((runFrom (FilterMap.loop cb rest i result) st).1, ((runFrom (FilterMap.loop cb rest i result) st).2,
        log ++ ((runFrom (FilterMap.loop cb rest i result) st).1.2).toList)) := by
  induction rest generalizing i result st log with
  | nil => simp [FilterMap.loop, runFrom_pure]
  | cons x xs ih =>
    simp only [FilterMap.loop, runFrom_bind, runFrom_watched]
    split
    · rename_i h; simp only [h]; simp [runFrom_pure]
    · rename_i h
      simp only [h]
      split <;> simp [ih, runFrom_pure]

theorem FlatMap_loop_watched (cb : T → Int → StateM σ (Option (List R) × Option E)) (rest : List T) (i : Nat) (result : List R) (st : σ) (log : List E) :
    runFrom (FlatMap.loop (fun x j => watched Prod.snd (cb x j)) rest i result) (st, log) =
      ((runFrom (FlatMap.loop cb rest i result) st).1, ((runFrom (FlatMap.loop cb rest i result) st).2,
        log ++ ((runFrom (FlatMap.loop cb rest i result) st).1.2).toList)) := by
  induction rest generalizing i result st log with
  | nil => simp [FlatMap.loop, runFrom_pure]
  | cons x xs ih =>
    simp only [FlatMap.loop, runFrom_bind, runFrom_watched]
    split
    · rename_i h; simp only [h]; simp [runFrom_pure]
    · rename_i h
      simp only [h]
      simp [ih]

theorem Reject_loop_watched (cb : V → Int → StateM σ (Bool × Option E)) (rest : List V) (i : Nat) (result : List V) (st : σ) (log : List E) :
    runFrom (Reject.loop (fun x j => watched Prod.snd (cb x j)) rest i result) (st, log) =
      ((runFrom (Reject.loop cb rest i result) st).1, ((runFrom (Reject.loop cb rest i result) st).2,
        log ++ ((runFrom (Reject.loop cb rest i result) st).1.2).toList)) := by
  induction rest generalizing i result st log with
  | nil => simp [Reject.loop, runFrom_pure]
  | cons x xs ih =>
    simp only [Reject.loop, runFrom_bind, runFrom_watched]
    split
    · rename_i h; simp only [h]; simp [runFrom_pure]
    · rename_i h
      simp only [h]
      split <;> simp [ih, runFrom_pure]

theorem Reduce_loop_watched [Inhabited R] (cb : R → T → Int → StateM σ (R × Option E)) (rest : List T) (i : Nat) (initial : R) (st : σ) (log : List E) :
    runFrom (Reduce.loop (fun a x j => watched Prod.snd (cb a x j)) rest i initial) (st, log) =
      ((runFrom (Reduce.loop cb rest i initial) st).1, ((runFrom (Reduce.loop cb rest i initial) st).2,
        log ++ ((runFrom (Reduce.loop cb rest i initial) st).1.2).toList)) := by
  induction rest generalizing i initial st log with
  | nil => simp [Reduce.loop, runFrom_pure]
  | cons x xs ih =>
    simp only [Reduce.loop, runFrom_bind, runFrom_watched]
    split
    · rename_i h; simp only [h]; simp [runFrom_pure]
    · rename_i h
      simp only [h]
      simp [ih]

theorem ReduceRight_loop_watched [Inhabited R] (cb : R → T → Int → StateM σ (R × Option E)) (s : List T) (n : Nat) (h : n ≤ s.length) (initial : R) (st : σ) (log : List E) :
    runFrom (ReduceRight.loop s (fun a x j => watched Prod.snd (cb a x j)) n h initial) (st, log) =
      ((runFrom (ReduceRight.loop s cb n h initial) st).1, ((runFrom (ReduceRight.loop s cb n h initial) st).2,
        log ++ ((runFrom (ReduceRight.loop s cb n h initial) st).1.2).toList)) := by
  induction n generalizing initial st log with
  | zero => simp [ReduceRight.loop, runFrom_pure]
  | succ n ih =>
    simp only [ReduceRight.loop, runFrom_bind, runFrom_watched]
    split
    · rename_i h; simp only [h]; simp [runFrom_pure]
    · rename_i h
      simp only [h]
      simp [ih]

theorem ForEach_loop_watched (cb : T → Int → StateM σ (Option E)) (rest : List T) (i : Nat) (st : σ) (log : List E) :
    runFrom (ForEach.loop (fun x j => watched (fun r => r) (cb x j)) rest i) (st, log) =
      ((runFrom (ForEach.loop cb rest i) st).1, ((runFrom (ForEach.loop cb rest i) st).2,
        log ++ ((runFrom (ForEach.loop cb rest i) st).1).toList)) := by
  induction rest generalizing i st log with
  | nil => simp [ForEach.loop, runFrom_pure]
  | cons x xs ih =>
    simp only [ForEach.loop, runFrom_bind, runFrom_watched]
    split
    · rename_i h; simp only [h]; simp [runFrom_pure]
    · rename_i h
      simp only [h]
      simp [ih]

theorem Times_loop_watched (cb : Int → StateM σ (T × Option E)) (remaining : Nat) (i : Nat) (result : List T) (st : σ) (log : List E) :
    runFrom (Times.loop (fun j => watched Prod.snd (cb j)) remaining i result) (st, log) =
      ((runFrom (Times.loop cb remaining i result) st).1, ((runFrom (Times.loop cb remaining i result) st).2,
        log ++ ((runFrom (Times.loop cb remaining i result) st).1.2).toList)) := by
  induction remaining generalizing i result st log with
  | zero => simp [Times.loop, runFrom_pure]
  | succ n ih =>
    simp only [Times.loop, runFrom_bind, runFrom_watched]
    split
    · rename_i h; simp only [h]; simp [runFrom_pure]
    · rename_i h
      simp only [h]
      simp [ih]

theorem RepeatBy_loop_watched (cb : Int → StateM σ (T × Option E)) (remaining : Nat) (i : Nat) (result : List T) (st : σ) (log : List E) :
    runFrom (RepeatBy.loop (fun j => watched Prod.snd (cb j)) remaining i result) (st, log) =
      ((runFrom (RepeatBy.loop cb remaining i result) st).1, ((runFrom (RepeatBy.loop cb remaining i result) st).2,
        log ++ ((runFrom (RepeatBy.loop cb remaining i result) st).1.2).toList)) := by
  induction remaining generalizing i result st log with
  | zero => simp [RepeatBy.loop, runFrom_pure]
  | succ n ih =>
    simp only [RepeatBy.loop, runFrom_bind, runFrom_watched]
    split
    · rename_i h; simp only [h]; simp [runFrom_pure]
    · rename_i h
      simp only [h]
      simp [ih]

theorem UniqBy_loop_watched [DecidableEq U] (cb : T → StateM σ (U × Option E)) (rest : List T) (seen : GoMap U Unit) (result : List T) (st : σ) (log : List E) :
    runFrom (UniqBy.loop (fun x => watched Prod.snd (cb x)) rest seen result) (st, log) =
      ((runFrom (UniqBy.loop cb rest seen result) st).1, ((runFrom (UniqBy.loop cb rest seen result) st).2,
        log ++ ((runFrom (UniqBy.loop cb rest seen result) st).1.2).toList)) := by
  induction rest generalizing seen result st log with
  | nil => simp [UniqBy.loop, runFrom_pure]
  | cons x xs ih =>
    simp only [UniqBy.loop, runFrom_bind, runFrom_watched]
    split
    · rename_i h; simp only [h]; simp [runFrom_pure]
    · rename_i h
      simp only [h]
      split <;> simp [ih, runFrom_pure]

theorem GroupBy_loop_watched [DecidableEq U] (cb : T → StateM σ (U × Option E)) (rest : List T) (result : GoMap U (List T)) (st : σ) (log : List E) :
    runFrom (GroupBy.loop (fun x => watched Prod.snd (cb x)) rest result) (st, log) =
      ((runFrom (GroupBy.loop cb rest result) st).1, ((runFrom (GroupBy.loop cb rest result) st).2,
        log ++ ((runFrom (GroupBy.loop cb rest result) st).1.2).toList)) := by
  induction rest generalizing result st log with
  | nil => simp [GroupBy.loop, runFrom_pure]
  | cons x xs ih =>
    simp only [GroupBy.loop, runFrom_bind, runFrom_watched]
    split
    · rename_i h; simp only [h]; simp [runFrom_pure]
    · rename_i h
      simp only [h]
      simp [ih]

theorem PartitionBy_loop_watched [DecidableEq K] (cb : T → StateM σ (K × Option E)) (rest : List T) (seen : GoMap K Nat) (result : List (List T)) (st : σ) (log : List E) :
    runFrom (PartitionBy.loop (fun x => watched Prod.snd (cb x)) rest seen result) (st, log) =
      ((runFrom (PartitionBy.loop cb rest seen result) st).1, ((runFrom (PartitionBy.loop cb rest seen result) st).2,
        log ++ ((runFrom (PartitionBy.loop cb rest seen result) st).1.2).toList)) := by
  induction rest generalizing seen result st log with
  | nil => simp [PartitionBy.loop, runFrom_pure]
  | cons x xs ih =>
    simp only [PartitionBy.loop, runFrom_bind, runFrom_watched]
    split
    · rename_i h; simp only [h]; simp [runFrom_pure]
    · rename_i h
      simp only [h]
      split <;> simp [ih, runFrom_pure]

theorem KeyBy_loop_watched [DecidableEq K] (cb : V → StateM σ (K × Option E)) (rest : List V) (result : GoMap K V) (st : σ) (log : List E) :
    runFrom (KeyBy.loop (fun x => watched Prod.snd (cb x)) rest result) (st, log) =
      ((runFrom (KeyBy.loop cb rest result) st).1, ((runFrom (KeyBy.loop cb rest result) st).2,
        log ++ ((runFrom (KeyBy.loop cb rest result) st).1.2).toList)) := by
  induction rest generalizing result st log with
  | nil => simp [KeyBy.loop, runFrom_pure]
  | cons x xs ih =>
    simp only [KeyBy.loop, runFrom_bind, runFrom_watched]
    split
    · rename_i h; simp only [h]; simp [runFrom_pure]
    · rename_i h
      simp only [h]
      simp [ih]

theorem Associate_loop_watched [DecidableEq K] (cb : T → StateM σ (K × V × Option E)) (rest : List T) (result : GoMap K V) (st : σ) (log : List E) :
    runFrom (Associate.loop (fun x => watched (fun r => r.2.2) (cb x)) rest result) (st, log) =
      ((runFrom (Associate.loop cb rest result) st).1, ((runFrom (Associate.loop cb rest result) st).2,
        log ++ ((runFrom (Associate.loop cb rest result) st).1.2).toList)) := by
  induction rest generalizing result st log with
  | nil => simp [Associate.loop, runFrom_pure]
  | cons x xs ih =>
    simp only [Associate.loop, runFrom_bind, runFrom_watched]
    split
    · rename_i h; simp only [h]; simp [runFrom_pure]
    · rename_i h
      simp only [h]
      simp [ih]

theorem CountValuesBy_loop_watched [DecidableEq U] (cb : T → StateM σ (U × Option E)) (rest : List T) (result : GoMap U Int) (st : σ) (log : List E) :
    runFrom (CountValuesBy.loop (fun x => watched Prod.snd (cb x)) rest result) (st, log) =
      ((runFrom (CountValuesBy.loop cb rest result) st).1, ((runFrom (CountValuesBy.loop cb rest result) st).2,
        log ++ ((runFrom (CountValuesBy.loop cb rest result) st).1.2).toList)) := by
  induction rest generalizing result st log with
  | nil => simp [CountValuesBy.loop, runFrom_pure]
  | cons x xs ih =>
    simp only [CountValuesBy.loop, runFrom_bind, runFrom_watched]
    split
    · rename_i h; simp only [h]; simp [runFrom_pure]
    · rename_i h
      simp only [h]
      simp [ih]

theorem CountBy_loop_watched (cb : T → StateM σ (Bool × Option E)) (rest : List T) (count : Int) (st : σ) (log : List E) :
    runFrom (CountBy.loop (fun x => watched Prod.snd (cb x)) rest count) (st, log) =
      ((runFrom (CountBy.loop cb rest count) st).1, ((runFrom (CountBy.loop cb rest count) st).2,
        log ++ ((runFrom (CountBy.loop cb rest count) st).1.2).toList)) := by
  induction rest generalizing count st log with
  | nil => simp [CountBy.loop, runFrom_pure]
  | cons x xs ih =>
    simp only [CountBy.loop, runFrom_bind, runFrom_watched]
    split
    · rename_i h; simp only [h]; simp [runFrom_pure]
    · rename_i h
      simp only [h]
      split <;> simp [ih, runFrom_pure]

theorem Find_watched [Inhabited T] (cb : T → StateM σ (Bool × Option E)) (rest : List T) (st : σ) (log : List E) :
    runFrom (Find rest (fun x => watched Prod.snd (cb x))) (st, log) =
      ((runFrom (Find rest cb) st).1, ((runFrom (Find rest cb) st).2,
        log ++ ((runFrom (Find rest cb) st).1.2.2).toList)) := by
  induction rest generalizing  st log with
  | nil => simp [Find, runFrom_pure]
  | cons x xs ih =>
    simp only [Find, runFrom_bind, runFrom_watched]
    split
    · rename_i h; simp only [h]; simp [runFrom_pure]
    · rename_i h
      simp only [h]
      split <;> simp [ih, runFrom_pure]

theorem FindIndexOf_loop_watched [Inhabited T] (cb : T → StateM σ (Bool × Option E)) (rest : List T) (i : Nat) (st : σ) (log : List E) :
    runFrom (FindIndexOf.loop (fun x => watched Prod.snd (cb x)) rest i) (st, log) =
      ((runFrom (FindIndexOf.loop cb rest i) st).1, ((runFrom (FindIndexOf.loop cb rest i) st).2,
        log ++ ((runFrom (FindIndexOf.loop cb rest i) st).1.2.2.2).toList)) := by
  induction rest generalizing i st log with
  | nil => simp [FindIndexOf.loop, runFrom_pure]
  | cons x xs ih =>
    simp only [FindIndexOf.loop, runFrom_bind, runFrom_watched]
    split
    · rename_i h; simp only [h]; simp [runFrom_pure]
    · rename_i h
      simp only [h]
      split <;> simp [ih, runFrom_pure]

theorem FindLastIndexOf_loop_watched [Inhabited T] (cb : T → StateM σ (Bool × Option E)) (s : List T) (n : Nat) (h : n ≤ s.length) (st : σ) (log : List E) :
    runFrom (FindLastIndexOf.loop s (fun x => watched Prod.snd (cb x)) n h) (st, log) =
      ((runFrom (FindLastIndexOf.loop s cb n h) st).1, ((runFrom (FindLastIndexOf.loop s cb n h) st).2,
        log ++ ((runFrom (FindLastIndexOf.loop s cb n h) st).1.2.2.2).toList)) := by
  induction n generalizing  st log with
  | zero => simp [FindLastIndexOf.loop, runFrom_pure]
  | succ n ih =>
    simp only [FindLastIndexOf.loop, runFrom_bind, runFrom_watched]
    split
    · rename_i h; simp only [h]; simp [runFrom_pure]
    · rename_i h
      simp only [h]
      split <;> simp [ih, runFrom_pure]

theorem FindOrElse_watched [Inhabited T] (cb : T → StateM σ (Bool × Option E)) (rest : List T) (fallback : T) (st : σ) (log : List E) :
    runFrom (FindOrElse rest fallback (fun x => watched Prod.snd (cb x))) (st, log) =
      ((runFrom (FindOrElse rest fallback cb) st).1, ((runFrom (FindOrElse rest fallback cb) st).2,
        log ++ ((runFrom (FindOrElse rest fallback cb) st).1.2).toList)) := by
  induction rest generalizing fallback st log with
  | nil => simp [FindOrElse, runFrom_pure]
  | cons x xs ih =>
    simp only [FindOrElse, runFrom_bind, runFrom_watched]
    split
    · rename_i h; simp only [h]; simp [runFrom_pure]
    · rename_i h
      simp only [h]
      split <;> simp [ih, runFrom_pure]

theorem FindKeyBy_watched [Inhabited K] (cb : K → V → StateM σ (Bool × Option E)) (rest : GoMap K V) (st : σ) (log : List E) :
    runFrom (FindKeyBy rest (fun x j => watched Prod.snd (cb x j))) (st, log) =
      ((runFrom (FindKeyBy rest cb) st).1, ((runFrom (FindKeyBy rest cb) st).2,
        log ++ ((runFrom (FindKeyBy rest cb) st).1.2.2).toList)) := by
  induction rest generalizing  st log with
  | nil => simp [FindKeyBy, runFrom_pure]
  | cons en rest ih =>
    obtain ⟨k, v⟩ := en
    simp only [FindKeyBy, runFrom_bind, runFrom_watched]
    split
    · rename_i h; simp only [h]; simp [runFrom_pure]
    · rename_i h
      simp only [h]
      split <;> simp [ih, runFrom_pure]

theorem FindUniquesBy_loop_watched [DecidableEq U] (cb : T → StateM σ (U × Option E)) (rest : List T) (isDupl : GoMap U Bool) (result : List T) (st : σ) (log : List E) :
    runFrom (FindUniquesBy.loop (fun x => watched Prod.snd (cb x)) isDupl rest result) (st, log) =
      ((runFrom (FindUniquesBy.loop cb isDupl rest result) st).1, ((runFrom (FindUniquesBy.loop cb isDupl rest result) st).2,
        log ++ ((runFrom (FindUniquesBy.loop cb isDupl rest result) st).1.2).toList)) := by
  induction rest generalizing isDupl result st log with
  | nil => simp [FindUniquesBy.loop, runFrom_pure]
  | cons x xs ih =>
    simp only [FindUniquesBy.loop, runFrom_bind, runFrom_watched]
    split
    · rename_i h; simp only [h]; simp [runFrom_pure]
    · rename_i h
      simp only [h]
      split <;> simp [ih, runFrom_pure]

theorem FindDuplicatesBy_loop_watched [DecidableEq U] (cb : T → StateM σ (U × Option E)) (rest : List T) (isDupl : GoMap U Bool) (result : List T) (st : σ) (log : List E) :
    runFrom (FindDuplicatesBy.loop (fun x => watched Prod.snd (cb x)) rest isDupl result) (st, log) =
      ((runFrom (FindDuplicatesBy.loop cb rest isDupl result) st).1, ((runFrom (FindDuplicatesBy.loop cb rest isDupl result) st).2,
        log ++ ((runFrom (FindDuplicatesBy.loop cb rest isDupl result) st).1.2).toList)) := by
  induction rest generalizing isDupl result st log with
  | nil => simp [FindDuplicatesBy.loop, runFrom_pure]
  | cons x xs ih =>
    simp only [FindDuplicatesBy.loop, runFrom_bind, runFrom_watched]
    split
    · rename_i h; simp only [h]; simp [runFrom_pure]
    · rename_i h
      simp only [h]
      split <;> simp [ih, runFrom_pure]

theorem ContainsBy_watched (cb : T → StateM σ (Bool × Option E)) (rest : List T) (st : σ) (log : List E) :
    runFrom (ContainsBy rest (fun x => watched Prod.snd (cb x))) (st, log) =
      ((runFrom (ContainsBy rest cb) st).1, ((runFrom (ContainsBy rest cb) st).2,
        log ++ ((runFrom (ContainsBy rest cb) st).1.2).toList)) := by
  induction rest generalizing  st log with
  | nil => simp [ContainsBy, runFrom_pure]
  | cons x xs ih =>
    simp only [ContainsBy, runFrom_bind, runFrom_watched]
    split
    · rename_i h; simp only [h]; simp [runFrom_pure]
    · rename_i h
      simp only [h]
      split <;> simp [ih, runFrom_pure]

theorem EveryBy_watched (cb : T → StateM σ (Bool × Option E)) (rest : List T) (st : σ) (log : List E) :
    runFrom (EveryBy rest (fun x => watched Prod.snd (cb x))) (st, log) =
      ((runFrom (EveryBy rest cb) st).1, ((runFrom (EveryBy rest cb) st).2,
        log ++ ((runFrom (EveryBy rest cb) st).1.2).toList)) := by
  induction rest generalizing  st log with
  | nil => simp [EveryBy, runFrom_pure]
  | cons x xs ih =>
    simp only [EveryBy, runFrom_bind, runFrom_watched]
    split
    · rename_i h; simp only [h]; simp [runFrom_pure]
    · rename_i h
      simp only [h]
      split <;> simp [ih, runFrom_pure]

theorem SomeBy_watched (cb : T → StateM σ (Bool × Option E)) (rest : List T) (st : σ) (log : List E) :
    runFrom (SomeBy rest (fun x => watched Prod.snd (cb x))) (st, log) =
      ((runFrom (SomeBy rest cb) st).1, ((runFrom (SomeBy rest cb) st).2,
        log ++ ((runFrom (SomeBy rest cb) st).1.2).toList)) := by
  induction rest generalizing  st log with
  | nil => simp [SomeBy, runFrom_pure]
  | cons x xs ih =>
    simp only [SomeBy, runFrom_bind, runFrom_watched]
    split
    · rename_i h; simp only [h]; simp [runFrom_pure]
    · rename_i h
      simp only [h]
      split <;> simp [ih, runFrom_pure]

theorem NoneBy_watched (cb : T → StateM σ (Bool × Option E)) (rest : List T) (st : σ) (log : List E) :
    runFrom (NoneBy rest (fun x => watched Prod.snd (cb x))) (st, log) =
      ((runFrom (NoneBy rest cb) st).1, ((runFrom (NoneBy rest cb) st).2,
        log ++ ((runFrom (NoneBy rest cb) st).1.2).toList)) := by
  induction rest generalizing  st log with
  | nil => simp [NoneBy, runFrom_pure]
  | cons x xs ih =>
    simp only [NoneBy, runFrom_bind, runFrom_watched]
    split
    · rename_i h; simp only [h]; simp [runFrom_pure]
    · rename_i h
      simp only [h]
      split <;> simp [ih, runFrom_pure]

theorem MapKeys_loop_watched [DecidableEq R] (cb : V → K → StateM σ (R × Option E)) (rest : GoMap K V) (result : GoMap R V) (st : σ) (log : List E) :
    runFrom (MapKeys.loop (fun x j => watched Prod.snd (cb x j)) rest result) (st, log) =
      ((runFrom (MapKeys.loop cb rest result) st).1, ((runFrom (MapKeys.loop cb rest result) st).2,
        log ++ ((runFrom (MapKeys.loop cb rest result) st).1.2).toList)) := by
  induction rest generalizing result st log with
  | nil => simp [MapKeys.loop, runFrom_pure]
  | cons en rest ih =>
    obtain ⟨k, v⟩ := en
    simp only [MapKeys.loop, runFrom_bind, runFrom_watched]
    split
    · rename_i h; simp only [h]; simp [runFrom_pure]
    · rename_i h
      simp only [h]
      simp [ih]

theorem MapValues_loop_watched [DecidableEq K] (cb : V → K → StateM σ (R × Option E)) (rest : GoMap K V) (result : GoMap K R) (st : σ) (log : List E) :
    runFrom (MapValues.loop (fun x j => watched Prod.snd (cb x j)) rest result) (st, log) =
      ((runFrom (MapValues.loop cb rest result) st).1, ((runFrom (MapValues.loop cb rest result) st).2,
        log ++ ((runFrom (MapValues.loop cb rest result) st).1.2).toList)) := by
  induction rest generalizing result st log with
  | nil => simp [MapValues.loop, runFrom_pure]
  | cons en rest ih =>
    obtain ⟨k, v⟩ := en
    simp only [MapValues.loop, runFrom_bind, runFrom_watched]
    split
    · rename_i h; simp only [h]; simp [runFrom_pure]
    · rename_i h
      simp only [h]
      simp [ih]

theorem MapEntries_loop_watched [DecidableEq K2] (cb : K1 → V1 → StateM σ (K2 × V2 × Option E)) (rest : GoMap K1 V1) (result : GoMap K2 V2) (st : σ) (log : List E) :
    runFrom (MapEntries.loop (fun x j => watched (fun r => r.2.2) (cb x j)) rest result) (st, log) =
      ((runFrom (MapEntries.loop cb rest result) st).1, ((runFrom (MapEntries.loop cb rest result) st).2,
        log ++ ((runFrom (MapEntries.loop cb rest result) st).1.2).toList)) := by
  induction rest generalizing result st log with
  | nil => simp [MapEntries.loop, runFrom_pure]
  | cons en rest ih =>
    obtain ⟨k, v⟩ := en
    simp only [MapEntries.loop, runFrom_bind, runFrom_watched]
    split
    · rename_i h; simp only [h]; simp [runFrom_pure]
    · rename_i h
      simp only [h]
      simp [ih]

theorem MapToSlice_loop_watched (cb : K → V → StateM σ (R × Option E)) (rest : GoMap K V) (result : List R) (st : σ) (log : List E) :
    runFrom (MapToSlice.loop (fun x j => watched Prod.snd (cb x j)) rest result) (st, log) =
      ((runFrom (MapToSlice.loop cb rest result) st).1, ((runFrom (MapToSlice.loop cb rest result) st).2,
        log ++ ((runFrom (MapToSlice.loop cb rest result) st).1.2).toList)) := by
  induction rest generalizing result st log with
  | nil => simp [MapToSlice.loop, runFrom_pure]
  | cons en rest ih =>
    obtain ⟨k, v⟩ := en
    simp only [MapToSlice.loop, runFrom_bind, runFrom_watched]
    split
    · rename_i h; simp only [h]; simp [runFrom_pure]
    · rename_i h
      simp only [h]
      simp [ih]

theorem DropWhile_loop_watched (cb : T → StateM σ (Bool × Option E)) (rest : List T) (i : Nat)
    (st : σ) (log : List E) :
    runFrom (DropWhile.loop (fun x => watched Prod.snd (cb x)) rest i) (st, log) =
      ((runFrom (DropWhile.loop cb rest i) st).1, ((runFrom (DropWhile.loop cb rest i) st).2,
        log ++ (match (runFrom (DropWhile.loop cb rest i) st).1 with
          | .error err => [err]
          | .ok _ => []))) := by
  induction rest generalizing i st log with
  | nil => simp [DropWhile.loop, runFrom_pure]
  | cons x xs ih =>
    simp only [DropWhile.loop, runFrom_bind, runFrom_watched]
    split
    · rename_i h; simp only [h]; simp [runFrom_pure]
    · rename_i h
      simp only [h]
      split <;> simp [ih, runFrom_pure]

theorem DropWhile_watched (cb : T → StateM σ (Bool × Option E)) (s : List T) (st : σ)
    (log : List E) :
    runFrom (DropWhile s (fun x => watched Prod.snd (cb x))) (st, log) =
      ((runFrom (DropWhile s cb) st).1, ((runFrom (DropWhile s cb) st).2,
        log ++ (runFrom (DropWhile s cb) st).1.2.toList)) := by
  simp only [DropWhile, runFrom_bind, DropWhile_loop_watched]
  split <;> rename_i heq <;> simp [heq, runFrom_pure]

theorem DropRightWhile_loop_watched (cb : T → StateM σ (Bool × Option E)) (s : List T)
    (n : Nat) (h : n ≤ s.length) (st : σ) (log : List E) :
    runFrom (DropRightWhile.loop s (fun x => watched Prod.snd (cb x)) n h) (st, log) =
      ((runFrom (DropRightWhile.loop s cb n h) st).1,
        ((runFrom (DropRightWhile.loop s cb n h) st).2,
          log ++ (match (runFrom (DropRightWhile.loop s cb n h) st).1 with
            | .error err => [err]
            | .ok _ => []))) := by
  induction n generalizing st log with
  | zero => simp [DropRightWhile.loop, runFrom_pure]
  | succ n ih =>
    simp only [DropRightWhile.loop, runFrom_bind, runFrom_watched]
    split
    · rename_i h; simp only [h]; simp [runFrom_pure]
    · rename_i h
      simp only [h]
      split <;> simp [ih, runFrom_pure]

theorem DropRightWhile_watched (cb : T → StateM σ (Bool × Option E)) (s : List T) (st : σ)
    (log : List E) :
    runFrom (DropRightWhile s (fun x => watched Prod.snd (cb x))) (st, log) =
      ((runFrom (DropRightWhile s cb) st).1, ((runFrom (DropRightWhile s cb) st).2,
        log ++ (runFrom (DropRightWhile s cb) st).1.2.toList)) := by
  simp only [DropRightWhile, runFrom_bind, DropRightWhile_loop_watched]
  split <;> rename_i heq <;> simp [heq, runFrom_pure]

theorem isDuplPass_watched [DecidableEq U] (cb : T → StateM σ (U × Option E)) (rest : List T)
    (isDupl : GoMap U Bool) (st : σ) (log : List E) :
    runFrom (isDuplPass (fun x => watched Prod.snd (cb x)) rest isDupl) (st, log) =
      ((runFrom (isDuplPass cb rest isDupl) st).1, ((runFrom (isDuplPass cb rest isDupl) st).2,
        log ++ (match (runFrom (isDuplPass cb rest isDupl) st).1 with
          | .error err => [err]
          | .ok _ => []))) := by
  induction rest generalizing isDupl st log with
  | nil => simp [isDuplPass, runFrom_pure]
  | cons x xs ih =>
    simp only [isDuplPass, runFrom_bind, runFrom_watched]
    split
    · rename_i h; simp only [h]; simp [runFrom_pure]
    · rename_i h
      simp only [h]
      split
      · simp [ih]
      · split <;> simp [ih]

theorem FindUniquesBy_watched [DecidableEq U] (cb : T → StateM σ (U × Option E)) (s : List T)
    (st : σ) (log : List E) :
    runFrom (FindUniquesBy s (fun x => watched Prod.snd (cb x))) (st, log) =
      ((runFrom (FindUniquesBy s cb) st).1, ((runFrom (FindUniquesBy s cb) st).2,
        log ++ (runFrom (FindUniquesBy s cb) st).1.2.toList)) := by
  simp only [FindUniquesBy, runFrom_bind, isDuplPass_watched]
  split <;> rename_i heq <;> simp [heq, runFrom_pure, FindUniquesBy_loop_watched]

theorem FindDuplicatesBy_watched [DecidableEq U] (cb : T → StateM σ (U × Option E))
    (s : List T) (st : σ) (log : List E) :
    runFrom (FindDuplicatesBy s (fun x => watched Prod.snd (cb x))) (st, log) =
      ((runFrom (FindDuplicatesBy s cb) st).1, ((runFrom (FindDuplicatesBy s cb) st).2,
        log ++ (runFrom (FindDuplicatesBy s cb) st).1.2.toList)) := by
  simp only [FindDuplicatesBy, runFrom_bind, isDuplPass_watched]
  split <;> rename_i heq <;> simp [heq, runFrom_pure, FindDuplicatesBy_loop_watched]

theorem watched_err (w : Option E × (σ × List E)) (p : Option E × σ)
    (hw : w = (p.1, (p.2, [] ++ p.1.toList))) :
    (∀ e ∈ w.2.2, w.1 = some e) ∧ w.1 = p.1 := by
  subst hw
  refine ⟨fun e he => ?_, rfl⟩
  simpa using he

theorem watched_pair {A : Type} (zero : A) (w : (A × Option E) × (σ × List E))
    (p : (A × Option E) × σ) (hw : w = (p.1, (p.2, [] ++ p.1.2.toList)))
    (hz : p.1.2 ≠ none → p.1.1 = zero) :
    (∀ e ∈ w.2.2, w.1 = (zero, some e)) ∧ w.1 = p.1 ∧ (p.1.2 ≠ none → p.1.1 = zero) := by
  subst hw
  refine ⟨fun e he => ?_, rfl, hz⟩
  have h : p.1.2 = some e := by simpa using he
  exact Prod.ext (hz (by simp [h])) h

theorem watched_triple {A : Type} (zero : A) (w : (A × Bool × Option E) × (σ × List E))
    (p : (A × Bool × Option E) × σ) (hw : w = (p.1, (p.2, [] ++ p.1.2.2.toList)))
    (hz : p.1.2.2 ≠ none → p.1.1 = zero ∧ p.1.2.1 = false) :
    (∀ e ∈ w.2.2, w.1 = (zero, false, some e)) ∧ w.1 = p.1 ∧
      (p.1.2.2 ≠ none → p.1.1 = zero ∧ p.1.2.1 = false) := by
  subst hw
  refine ⟨fun e he => ?_, rfl, hz⟩
  have h : p.1.2.2 = some e := by simpa using he
  have hv := hz (by simp [h])
  exact Prod.ext hv.1 (Prod.ext hv.2 h)

theorem watched_quad {A : Type} (zero : A) (w : (A × Int × Bool × Option E) × (σ × List E))
    (p : (A × Int × Bool × Option E) × σ) (hw : w = (p.1, (p.2, [] ++ p.1.2.2.2.toList)))
    (hz : p.1.2.2.2 ≠ none → p.1.1 = zero ∧ p.1.2.1 = -1 ∧ p.1.2.2.1 = false) :
    (∀ e ∈ w.2.2, w.1 = (zero, -1, false, some e)) ∧ w.1 = p.1 ∧
      (p.1.2.2.2 ≠ none → p.1.1 = zero ∧ p.1.2.1 = -1 ∧ p.1.2.2.1 = false) := by
  subst hw
  refine ⟨fun e he => ?_, rfl, hz⟩
  have h : p.1.2.2.2 = some e := by simpa using he
  have hv := hz (by simp [h])
  exact Prod.ext hv.1 (Prod.ext hv.2.1 (Prod.ext hv.2.2 h))

/-! ## Instrumented callbacks -/

theorem runFrom_traced {A B : Type} (f : A → B) (x : A) (log : List A) :
    runFrom (traced f x) log = (f x, log ++ [x]) := rfl

theorem runFrom_tracedIdx {A B : Type} (f : A → Int → B) (x : A) (i : Int)
    (log : List (A × Int)) :
    runFrom (tracedIdx f x i) log = (f x i, log ++ [(x, i)]) := rfl

theorem runFrom_tracedAcc {A B C : Type} (g : C → A → Int → B) (acc : C) (x : A) (i : Int)
    (log : List (A × Int)) :
    runFrom (tracedAcc g acc x i) log = (g acc x i, log ++ [(x, i)]) := rfl

theorem indexedFrom_cons (i : Nat) (x : T) (xs : List T) :
    indexedFrom i (x :: xs) = (x, (i : Int)) :: indexedFrom (i + 1) xs := rfl

theorem indexedFrom_nil (i : Nat) : indexedFrom i ([] : List T) = [] := rfl

theorem length_indexedFrom (i : Nat) (s : List T) : (indexedFrom i s).length = s.length := by
  simp [indexedFrom]

theorem forall_mem_enumFrom_zero {P : Nat → T → Prop} (s : List T)
    (h : ∀ (j : Nat) (hj : j < s.length), P j s[j]) : ∀ q ∈ s.enumFrom 0, P q.1 q.2 := by
  have := (List.forall_mem_enum (l := s) (p := fun q => P q.1 q.2)).2 h
  simpa [List.enum] using this

theorem take_succ_reverse (post : List T) (k : Nat) (h : k < post.length) :
    (post.take (k + 1)).reverse = post[k] :: (post.take k).reverse := by
  rw [List.take_succ, List.getElem?_eq_getElem h]
  simp

theorem getElem_append_cons_mid (pre post : List T) (x : T)
    (h : pre.length < (pre ++ x :: post).length) :
    (pre ++ x :: post)[pre.length] = x := by
  rw [List.getElem_append_right (Nat.le_refl _)]
  simp

theorem getElem_append_cons_post (pre post : List T) (x : T) (k : Nat) (hk : k < post.length)
    (h : pre.length + 1 + k < (pre ++ x :: post).length) :
    (pre ++ x :: post)[pre.length + 1 + k] = post[k] := by
  rw [List.getElem_append_right (by omega)]
  simp [Nat.add_sub_cancel_left, Nat.add_assoc, Nat.add_comm 1 k]

/-! ## Short circuit: the invocations up to the first failure -/

theorem Filter_loop_trace (f : V → Int → Bool × Option E) (pre post : List V) (x : V)
    (e : E) (i : Nat) (result : List V) (log : List (V × Int))
    (hpre : ∀ q ∈ pre.enumFrom i, (f q.2 (q.1 : Int)).2 = none)
    (hx : (f x ((i + pre.length : Nat) : Int)).2 = some e) :
    runFrom (Filter.loop (tracedIdx f) (pre ++ x :: post) i result) log =
      ((none, some e), log ++ indexedFrom i pre ++ [(x, ((i + pre.length : Nat) : Int))]) := by
  induction pre generalizing i result log with
  | nil =>
    simp only [List.nil_append, Filter.loop, runFrom_bind, runFrom_tracedIdx]
    simp only [List.length_nil, Nat.add_zero] at hx
    simp [hx, runFrom_pure, indexedFrom]
  | cons y ys ih =>
    have hy : (f y (i : Int)).2 = none := hpre (i, y) (by simp)
    have hl : i + (y :: ys).length = i + 1 + ys.length := by
      simp only [List.length_cons]; omega
    rw [hl] at hx ⊢
    have ih2 := fun a0 lg => ih (i + 1) a0 lg
      (fun q hq => hpre q (by simp [hq])) hx
    rw [List.cons_append]
    simp only [Filter.loop, runFrom_bind, runFrom_tracedIdx, hy]
    split <;> rw [ih2] <;> simp [indexedFrom_cons]

theorem Filter_trace (f : V → Int → Bool × Option E) (pre post : List V) (x : V) (e : E)
    (hpre : ∀ (j : Nat) (h : j < pre.length), (f pre[j] (j : Int)).2 = none)
    (hx : (f x (pre.length : Int)).2 = some e) :
    runFrom (Filter (pre ++ x :: post) (tracedIdx f)) [] =
      ((none, some e), indexedFrom 0 pre ++ [(x, (pre.length : Int))]) := by
  have := Filter_loop_trace f pre post x e 0 [] []
    (forall_mem_enumFrom_zero (P := fun j y => (f y (j : Int)).2 = none) pre hpre)
    (by simpa using hx)
  simpa [Filter] using this

theorem Map_loop_trace (f : T → Int → R × Option E) (pre post : List T) (x : T)
    (e : E) (i : Nat) (result : List R) (log : List (T × Int))
    (hpre : ∀ q ∈ pre.enumFrom i, (f q.2 (q.1 : Int)).2 = none)
    (hx : (f x ((i + pre.length : Nat) : Int)).2 = some e) :
    runFrom (Map.loop (tracedIdx f) (pre ++ x :: post) i result) log =
      ((none, some e), log ++ indexedFrom i pre ++ [(x, ((i + pre.length : Nat) : Int))]) := by
  induction pre generalizing i result log with
  | nil =>
    simp only [List.nil_append, Map.loop, runFrom_bind, runFrom_tracedIdx]
    simp only [List.length_nil, Nat.add_zero] at hx
    simp [hx, runFrom_pure, indexedFrom]
  | cons y ys ih =>
    have hy : (f y (i : Int)).2 = none := hpre (i, y) (by simp)
    have hl : i + (y :: ys).length = i + 1 + ys.length := by
      simp only [List.length_cons]; omega
    rw [hl] at hx ⊢
    have ih2 := fun a0 lg => ih (i + 1) a0 lg
      (fun q hq => hpre q (by simp [hq])) hx
    rw [List.cons_append]
    simp only [Map.loop, runFrom_bind, runFrom_tracedIdx, hy]
    rw [ih2]; simp [indexedFrom_cons]

theorem Map_trace [Inhabited R] (f : T → Int → R × Option E) (pre post : List T) (x : T) (e : E)
    (hpre : ∀ (j : Nat) (h : j < pre.length), (f pre[j] (j : Int)).2 = none)
    (hx : (f x (pre.length : Int)).2 = some e) :
    runFrom (Map (pre ++ x :: post) (tracedIdx f)) [] =
      ((none, some e), indexedFrom 0 pre ++ [(x, (pre.length : Int))]) := by
  have := Map_loop_trace f pre post x e 0 (List.replicate (pre ++ x :: post).length (empty R)) []
    (forall_mem_enumFrom_zero (P := fun j y => (f y (j : Int)).2 = none) pre hpre)
    (by simpa using hx)
  simpa [Map] using this

theorem FilterMap_loop_trace (f : T → Int → R × Bool × Option E) (pre post : List T) (x : T)
    (e : E) (i : Nat) (result : List R) (log : List (T × Int))
    (hpre : ∀ q ∈ pre.enumFrom i, (f q.2 (q.1 : Int)).2.2 = none)
    (hx : (f x ((i + pre.length : Nat) : Int)).2.2 = some e) :
    runFrom (FilterMap.loop (tracedIdx f) (pre ++ x :: post) i result) log =
      ((none, some e), log ++ indexedFrom i pre ++ [(x, ((i + pre.length : Nat) : Int))]) := by
  induction pre generalizing i result log with
  | nil =>
    simp only [List.nil_append, FilterMap.loop, runFrom_bind, runFrom_tracedIdx]
    simp only [List.length_nil, Nat.add_zero] at hx
    simp [hx, runFrom_pure, indexedFrom]
  | cons y ys ih =>
    have hy : (f y (i : Int)).2.2 = none := hpre (i, y) (by simp)
    have hl : i + (y :: ys).length = i + 1 + ys.length := by
      simp only [List.length_cons]; omega
    rw [hl] at hx ⊢
    have ih2 := fun a0 lg => ih (i + 1) a0 lg
      (fun q hq => hpre q (by simp [hq])) hx
    rw [List.cons_append]
    simp only [FilterMap.loop, runFrom_bind, runFrom_tracedIdx, hy]
    split <;> rw [ih2] <;> simp [indexedFrom_cons]

theorem FilterMap_trace (f : T → Int → R × Bool × Option E) (pre post : List T) (x : T) (e : E)
    (hpre : ∀ (j : Nat) (h : j < pre.length), (f pre[j] (j : Int)).2.2 = none)
    (hx : (f x (pre.length : Int)).2.2 = some e) :
    runFrom (FilterMap (pre ++ x :: post) (tracedIdx f)) [] =
      ((none, some e), indexedFrom 0 pre ++ [(x, (pre.length : Int))]) := by
  have := FilterMap_loop_trace f pre post x e 0 [] []
    (forall_mem_enumFrom_zero (P := fun j y => (f y (j : Int)).2.2 = none) pre hpre)
    (by simpa using hx)
  simpa [FilterMap] using this

theorem FlatMap_loop_trace (f : T → Int → Option (List R) × Option E) (pre post : List T) (x : T)
    (e : E) (i : Nat) (result : List R) (log : List (T × Int))
    (hpre : ∀ q ∈ pre.enumFrom i, (f q.2 (q.1 : Int)).2 = none)
    (hx : (f x ((i + pre.length : Nat) : Int)).2 = some e) :
    runFrom (FlatMap.loop (tracedIdx f) (pre ++ x :: post) i result) log =
      ((none, some e), log ++ indexedFrom i pre ++ [(x, ((i + pre.length : Nat) : Int))]) := by
  induction pre generalizing i result log with
  | nil =>
    simp only [List.nil_append, FlatMap.loop, runFrom_bind, runFrom_tracedIdx]
    simp only [List.length_nil, Nat.add_zero] at hx
    simp [hx, runFrom_pure, indexedFrom]
  | cons y ys ih =>
    have hy : (f y (i : Int)).2 = none := hpre (i, y) (by simp)
    have hl : i + (y :: ys).length = i + 1 + ys.length := by
      simp only [List.length_cons]; omega
    rw [hl] at hx ⊢
    have ih2 := fun a0 lg => ih (i + 1) a0 lg
      (fun q hq => hpre q (by simp [hq])) hx
    rw [List.cons_append]
    simp only [FlatMap.loop, runFrom_bind, runFrom_tracedIdx, hy]
    rw [ih2]; simp [indexedFrom_cons]

theorem FlatMap_trace (f : T → Int → Option (List R) × Option E) (pre post : List T) (x : T) (e : E)
    (hpre : ∀ (j : Nat) (h : j < pre.length), (f pre[j] (j : Int)).2 = none)
    (hx : (f x (pre.length : Int)).2 = some e) :
    runFrom (FlatMap (pre ++ x :: post) (tracedIdx f)) [] =
      ((none, some e), indexedFrom 0 pre ++ [(x, (pre.length : Int))]) := by
  have := FlatMap_loop_trace f pre post x e 0 [] []
    (forall_mem_enumFrom_zero (P := fun j y => (f y (j : Int)).2 = none) pre hpre)
    (by simpa using hx)
  simpa [FlatMap] using this

theorem Reject_loop_trace (f : V → Int → Bool × Option E) (pre post : List V) (x : V)
    (e : E) (i : Nat) (result : List V) (log : List (V × Int))
    (hpre : ∀ q ∈ pre.enumFrom i, (f q.2 (q.1 : Int)).2 = none)
    (hx : (f x ((i + pre.length : Nat) : Int)).2 = some e) :
    runFrom (Reject.loop (tracedIdx f) (pre ++ x :: post) i result) log =
      ((none, some e), log ++ indexedFrom i pre ++ [(x, ((i + pre.length : Nat) : Int))]) := by
  induction pre generalizing i result log with
  | nil =>
    simp only [List.nil_append, Reject.loop, runFrom_bind, runFrom_tracedIdx]
    simp only [List.length_nil, Nat.add_zero] at hx
    simp [hx, runFrom_pure, indexedFrom]
  | cons y ys ih =>
    have hy : (f y (i : Int)).2 = none := hpre (i, y) (by simp)
    have hl : i + (y :: ys).length = i + 1 + ys.length := by
      simp only [List.length_cons]; omega
    rw [hl] at hx ⊢
    have ih2 := fun a0 lg => ih (i + 1) a0 lg
      (fun q hq => hpre q (by simp [hq])) hx
    rw [List.cons_append]
    simp only [Reject.loop, runFrom_bind, runFrom_tracedIdx, hy]
    split <;> rw [ih2] <;> simp [indexedFrom_cons]

theorem Reject_trace (f : V → Int → Bool × Option E) (pre post : List V) (x : V) (e : E)
    (hpre : ∀ (j : Nat) (h : j < pre.length), (f pre[j] (j : Int)).2 = none)
    (hx : (f x (pre.length : Int)).2 = some e) :
    runFrom (Reject (pre ++ x :: post) (tracedIdx f)) [] =
      ((none, some e), indexedFrom 0 pre ++ [(x, (pre.length : Int))]) := by
  have := Reject_loop_trace f pre post x e 0 [] []
    (forall_mem_enumFrom_zero (P := fun j y => (f y (j : Int)).2 = none) pre hpre)
    (by simpa using hx)
  simpa [Reject] using this

theorem ForEach_loop_trace (f : T → Int → Option E) (pre post : List T) (x : T)
    (e : E) (i : Nat) (log : List (T × Int))
    (hpre : ∀ q ∈ pre.enumFrom i, f q.2 (q.1 : Int) = none)
    (hx : f x ((i + pre.length : Nat) : Int) = some e) :
    runFrom (ForEach.loop (tracedIdx f) (pre ++ x :: post) i) log =
      (some e, log ++ indexedFrom i pre ++ [(x, ((i + pre.length : Nat) : Int))]) := by
  induction pre generalizing i log with
  | nil =>
    simp only [List.nil_append, ForEach.loop, runFrom_bind, runFrom_tracedIdx]
    simp only [List.length_nil, Nat.add_zero] at hx
    simp [hx, runFrom_pure, indexedFrom]
  | cons y ys ih =>
    have hy : f y (i : Int) = none := hpre (i, y) (by simp)
    have hl : i + (y :: ys).length = i + 1 + ys.length := by
      simp only [List.length_cons]; omega
    rw [hl] at hx ⊢
    have ih2 := fun lg => ih (i + 1) lg (fun q hq => hpre q (by simp [hq])) hx
    rw [List.cons_append]
    simp only [ForEach.loop, runFrom_bind, runFrom_tracedIdx, hy]
    rw [ih2]; simp [indexedFrom_cons]

theorem ForEach_trace (f : T → Int → Option E) (pre post : List T) (x : T) (e : E)
    (hpre : ∀ (j : Nat) (h : j < pre.length), f pre[j] (j : Int) = none)
    (hx : f x (pre.length : Int) = some e) :
    runFrom (ForEach (pre ++ x :: post) (tracedIdx f)) [] =
      (some e, indexedFrom 0 pre ++ [(x, (pre.length : Int))]) := by
  have := ForEach_loop_trace f pre post x e 0 []
    (forall_mem_enumFrom_zero (P := fun j y => f y (j : Int) = none) pre hpre)
    (by simpa using hx)
  simpa [ForEach] using this

theorem UniqBy_loop_trace [DecidableEq U] (f : T → U × Option E) (pre post : List T) (x : T) (e : E)
    (seen : GoMap U Unit) (result : List T) (log : List T)
    (hpre : ∀ y ∈ pre, (f y).2 = none) (hx : (f x).2 = some e) :
    runFrom (UniqBy.loop (traced f) (pre ++ x :: post) seen result) log =
      ((none, some e), log ++ pre ++ [x]) := by
  induction pre generalizing seen result log with
  | nil => simp [UniqBy.loop, runFrom_bind, runFrom_traced, hx, runFrom_pure]
  | cons y ys ih =>
    have hy : (f y).2 = none := hpre y (by simp)
    have ih2 := fun a0 a1 lg => ih a0 a1 lg (fun z hz => hpre z (by simp [hz]))
    rw [List.cons_append]
    simp only [UniqBy.loop, runFrom_bind, runFrom_traced, hy]
    split <;> rw [ih2] <;> simp

theorem UniqBy_trace [DecidableEq U] (f : T → U × Option E) (pre post : List T) (x : T) (e : E)
    (hpre : ∀ y ∈ pre, (f y).2 = none) (hx : (f x).2 = some e) :
    runFrom (UniqBy (pre ++ x :: post) (traced f)) [] = ((none, some e), pre ++ [x]) := by
  have := UniqBy_loop_trace f pre post x e [] [] [] hpre hx
  simpa [UniqBy] using this

theorem GroupBy_loop_trace [DecidableEq U] (f : T → U × Option E) (pre post : List T) (x : T) (e : E)
    (result : GoMap U (List T)) (log : List T)
    (hpre : ∀ y ∈ pre, (f y).2 = none) (hx : (f x).2 = some e) :
    runFrom (GroupBy.loop (traced f) (pre ++ x :: post) result) log =
      ((none, some e), log ++ pre ++ [x]) := by
  induction pre generalizing result log with
  | nil => simp [GroupBy.loop, runFrom_bind, runFrom_traced, hx, runFrom_pure]
  | cons y ys ih =>
    have hy : (f y).2 = none := hpre y (by simp)
    have ih2 := fun a0 lg => ih a0 lg (fun z hz => hpre z (by simp [hz]))
    rw [List.cons_append]
    simp only [GroupBy.loop, runFrom_bind, runFrom_traced, hy]
    rw [ih2]; simp

theorem GroupBy_trace [DecidableEq U] (f : T → U × Option E) (pre post : List T) (x : T) (e : E)
    (hpre : ∀ y ∈ pre, (f y).2 = none) (hx : (f x).2 = some e) :
    runFrom (GroupBy (pre ++ x :: post) (traced f)) [] = ((none, some e), pre ++ [x]) := by
  have := GroupBy_loop_trace f pre post x e [] [] hpre hx
  simpa [GroupBy] using this

theorem PartitionBy_loop_trace [DecidableEq K] (f : T → K × Option E) (pre post : List T) (x : T) (e : E)
    (seen : GoMap K Nat) (result : List (List T)) (log : List T)
    (hpre : ∀ y ∈ pre, (f y).2 = none) (hx : (f x).2 = some e) :
    runFrom (PartitionBy.loop (traced f) (pre ++ x :: post) seen result) log =
      ((none, some e), log ++ pre ++ [x]) := by
  induction pre generalizing seen result log with
  | nil => simp [PartitionBy.loop, runFrom_bind, runFrom_traced, hx, runFrom_pure]
  | cons y ys ih =>
    have hy : (f y).2 = none := hpre y (by simp)
    have ih2 := fun a0 a1 lg => ih a0 a1 lg (fun z hz => hpre z (by simp [hz]))
    rw [List.cons_append]
    simp only [PartitionBy.loop, runFrom_bind, runFrom_traced, hy]
    split <;> rw [ih2] <;> simp

theorem PartitionBy_trace [DecidableEq K] (f : T → K × Option E) (pre post : List T) (x : T) (e : E)
    (hpre : ∀ y ∈ pre, (f y).2 = none) (hx : (f x).2 = some e) :
    runFrom (PartitionBy (pre ++ x :: post) (traced f)) [] = ((none, some e), pre ++ [x]) := by
  have := PartitionBy_loop_trace f pre post x e [] [] [] hpre hx
  simpa [PartitionBy] using this

theorem KeyBy_loop_trace [DecidableEq K] (f : T → K × Option E) (pre post : List T) (x : T) (e : E)
    (result : GoMap K T) (log : List T)
    (hpre : ∀ y ∈ pre, (f y).2 = none) (hx : (f x).2 = some e) :
    runFrom (KeyBy.loop (traced f) (pre ++ x :: post) result) log =
      ((none, some e), log ++ pre ++ [x]) := by
  induction pre generalizing result log with
  | nil => simp [KeyBy.loop, runFrom_bind, runFrom_traced, hx, runFrom_pure]
  | cons y ys ih =>
    have hy : (f y).2 = none := hpre y (by simp)
    have ih2 := fun a0 lg => ih a0 lg (fun z hz => hpre z (by simp [hz]))
    rw [List.cons_append]
    simp only [KeyBy.loop, runFrom_bind, runFrom_traced, hy]
    rw [ih2]; simp

theorem KeyBy_trace [DecidableEq K] (f : T → K × Option E) (pre post : List T) (x : T) (e : E)
    (hpre : ∀ y ∈ pre, (f y).2 = none) (hx : (f x).2 = some e) :
    runFrom (KeyBy (pre ++ x :: post) (traced f)) [] = ((none, some e), pre ++ [x]) := by
  have := KeyBy_loop_trace f pre post x e [] [] hpre hx
  simpa [KeyBy] using this

theorem Associate_loop_trace [DecidableEq K] (f : T → K × V × Option E) (pre post : List T) (x : T) (e : E)
    (result : GoMap K V) (log : List T)
    (hpre : ∀ y ∈ pre, (f y).2.2 = none) (hx : (f x).2.2 = some e) :
    runFrom (Associate.loop (traced f) (pre ++ x :: post) result) log =
      ((none, some e), log ++ pre ++ [x]) := by
  induction pre generalizing result log with
  | nil => simp [Associate.loop, runFrom_bind, runFrom_traced, hx, runFrom_pure]
  | cons y ys ih =>
    have hy : (f y).2.2 = none := hpre y (by simp)
    have ih2 := fun a0 lg => ih a0 lg (fun z hz => hpre z (by simp [hz]))
    rw [List.cons_append]
    simp only [Associate.loop, runFrom_bind, runFrom_traced, hy]
    rw [ih2]; simp

theorem Associate_trace [DecidableEq K] (f : T → K × V × Option E) (pre post : List T) (x : T) (e : E)
    (hpre : ∀ y ∈ pre, (f y).2.2 = none) (hx : (f x).2.2 = some e) :
    runFrom (Associate (pre ++ x :: post) (traced f)) [] = ((none, some e), pre ++ [x]) := by
  have := Associate_loop_trace f pre post x e [] [] hpre hx
  simpa [Associate] using this

theorem CountBy_loop_trace (f : T → Bool × Option E) (pre post : List T) (x : T) (e : E)
    (count : Int) (log : List T)
    (hpre : ∀ y ∈ pre, (f y).2 = none) (hx : (f x).2 = some e) :
    runFrom (CountBy.loop (traced f) (pre ++ x :: post) count) log =
      ((-1, some e), log ++ pre ++ [x]) := by
  induction pre generalizing count log with
  | nil => simp [CountBy.loop, runFrom_bind, runFrom_traced, hx, runFrom_pure]
  | cons y ys ih =>
    have hy : (f y).2 = none := hpre y (by simp)
    have ih2 := fun a0 lg => ih a0 lg (fun z hz => hpre z (by simp [hz]))
    rw [List.cons_append]
    simp only [CountBy.loop, runFrom_bind, runFrom_traced, hy]
    split <;> rw [ih2] <;> simp

theorem CountBy_trace (f : T → Bool × Option E) (pre post : List T) (x : T) (e : E)
    (hpre : ∀ y ∈ pre, (f y).2 = none) (hx : (f x).2 = some e) :
    runFrom (CountBy (pre ++ x :: post) (traced f)) [] = ((-1, some e), pre ++ [x]) := by
  have := CountBy_loop_trace f pre post x e 0 [] hpre hx
  simpa [CountBy] using this

theorem CountValuesBy_loop_trace [DecidableEq U] (f : T → U × Option E) (pre post : List T) (x : T) (e : E)
    (result : GoMap U Int) (log : List T)
    (hpre : ∀ y ∈ pre, (f y).2 = none) (hx : (f x).2 = some e) :
    runFrom (CountValuesBy.loop (traced f) (pre ++ x :: post) result) log =
      ((none, some e), log ++ pre ++ [x]) := by
  induction pre generalizing result log with
  | nil => simp [CountValuesBy.loop, runFrom_bind, runFrom_traced, hx, runFrom_pure]
  | cons y ys ih =>
    have hy : (f y).2 = none := hpre y (by simp)
    have ih2 := fun a0 lg => ih a0 lg (fun z hz => hpre z (by simp [hz]))
    rw [List.cons_append]
    simp only [CountValuesBy.loop, runFrom_bind, runFrom_traced, hy]
    rw [ih2]; simp

theorem CountValuesBy_trace [DecidableEq U] (f : T → U × Option E) (pre post : List T) (x : T) (e : E)
    (hpre : ∀ y ∈ pre, (f y).2 = none) (hx : (f x).2 = some e) :
    runFrom (CountValuesBy (pre ++ x :: post) (traced f)) [] = ((none, some e), pre ++ [x]) := by
  have := CountValuesBy_loop_trace f pre post x e [] [] hpre hx
  simpa [CountValuesBy] using this

theorem Find_trace [Inhabited T] (f : T → Bool × Option E) (pre post : List T) (x : T) (e : E)
    (log : List T)
    (hpre : ∀ y ∈ pre, f y = (false, none)) (hx : (f x).2 = some e) :
    runFrom (Find (pre ++ x :: post) (traced f)) log = ((empty T, false, some e), log ++ pre ++ [x]) := by
  induction pre generalizing log with
  | nil => simp [Find, runFrom_bind, runFrom_traced, hx, runFrom_pure]
  | cons y ys ih =>
    have hy := hpre y (by simp)
    have ih2 := fun lg => ih lg (fun z hz => hpre z (by simp [hz]))
    rw [List.cons_append]
    simp [Find, runFrom_bind, runFrom_traced, hy, ih2]

theorem FindOrElse_trace [Inhabited T] (f : T → Bool × Option E) (pre post : List T) (x : T) (e : E)
    (fallback : T) (log : List T)
    (hpre : ∀ y ∈ pre, f y = (false, none)) (hx : (f x).2 = some e) :
    runFrom (FindOrElse (pre ++ x :: post) fallback (traced f)) log = ((empty T, some e), log ++ pre ++ [x]) := by
  induction pre generalizing log with
  | nil => simp [FindOrElse, runFrom_bind, runFrom_traced, hx, runFrom_pure]
  | cons y ys ih =>
    have hy := hpre y (by simp)
    have ih2 := fun lg => ih lg (fun z hz => hpre z (by simp [hz]))
    rw [List.cons_append]
    simp [FindOrElse, runFrom_bind, runFrom_traced, hy, ih2]

theorem ContainsBy_trace (f : T → Bool × Option E) (pre post : List T) (x : T) (e : E)
    (log : List T)
    (hpre : ∀ y ∈ pre, f y = (false, none)) (hx : (f x).2 = some e) :
    runFrom (ContainsBy (pre ++ x :: post) (traced f)) log = ((false, some e), log ++ pre ++ [x]) := by
  induction pre generalizing log with
  | nil => simp [ContainsBy, runFrom_bind, runFrom_traced, hx, runFrom_pure]
  | cons y ys ih =>
    have hy := hpre y (by simp)
    have ih2 := fun lg => ih lg (fun z hz => hpre z (by simp [hz]))
    rw [List.cons_append]
    simp [ContainsBy, runFrom_bind, runFrom_traced, hy, ih2]

theorem EveryBy_trace (f : T → Bool × Option E) (pre post : List T) (x : T) (e : E)
    (log : List T)
    (hpre : ∀ y ∈ pre, f y = (true, none)) (hx : (f x).2 = some e) :
    runFrom (EveryBy (pre ++ x :: post) (traced f)) log = ((false, some e), log ++ pre ++ [x]) := by
  induction pre generalizing log with
  | nil => simp [EveryBy, runFrom_bind, runFrom_traced, hx, runFrom_pure]
  | cons y ys ih =>
    have hy := hpre y (by simp)
    have ih2 := fun lg => ih lg (fun z hz => hpre z (by simp [hz]))
    rw [List.cons_append]
    simp [EveryBy, runFrom_bind, runFrom_traced, hy, ih2]

theorem SomeBy_trace (f : T → Bool × Option E) (pre post : List T) (x : T) (e : E)
    (log : List T)
    (hpre : ∀ y ∈ pre, f y = (false, none)) (hx : (f x).2 = some e) :
    runFrom (SomeBy (pre ++ x :: post) (traced f)) log = ((false, some e), log ++ pre ++ [x]) := by
  induction pre generalizing log with
  | nil => simp [SomeBy, runFrom_bind, runFrom_traced, hx, runFrom_pure]
  | cons y ys ih =>
    have hy := hpre y (by simp)
    have ih2 := fun lg => ih lg (fun z hz => hpre z (by simp [hz]))
    rw [List.cons_append]
    simp [SomeBy, runFrom_bind, runFrom_traced, hy, ih2]

theorem NoneBy_trace (f : T → Bool × Option E) (pre post : List T) (x : T) (e : E)
    (log : List T)
    (hpre : ∀ y ∈ pre, f y = (false, none)) (hx : (f x).2 = some e) :
    runFrom (NoneBy (pre ++ x :: post) (traced f)) log = ((false, some e), log ++ pre ++ [x]) := by
  induction pre generalizing log with
  | nil => simp [NoneBy, runFrom_bind, runFrom_traced, hx, runFrom_pure]
  | cons y ys ih =>
    have hy := hpre y (by simp)
    have ih2 := fun lg => ih lg (fun z hz => hpre z (by simp [hz]))
    rw [List.cons_append]
    simp [NoneBy, runFrom_bind, runFrom_traced, hy, ih2]

theorem FindIndexOf_loop_trace [Inhabited T] (f : T → Bool × Option E) (pre post : List T)
    (x : T) (e : E) (i : Nat) (log : List T)
    (hpre : ∀ y ∈ pre, f y = (false, none)) (hx : (f x).2 = some e) :
    runFrom (FindIndexOf.loop (traced f) (pre ++ x :: post) i) log =
      ((empty T, -1, false, some e), log ++ pre ++ [x]) := by
  induction pre generalizing i log with
  | nil => simp [FindIndexOf.loop, runFrom_bind, runFrom_traced, hx, runFrom_pure]
  | cons y ys ih =>
    have hy := hpre y (by simp)
    have ih2 := fun j lg => ih j lg (fun z hz => hpre z (by simp [hz]))
    rw [List.cons_append]
    simp [FindIndexOf.loop, runFrom_bind, runFrom_traced, hy, ih2]

theorem FindIndexOf_trace [Inhabited T] (f : T → Bool × Option E) (pre post : List T)
    (x : T) (e : E)
    (hpre : ∀ y ∈ pre, f y = (false, none)) (hx : (f x).2 = some e) :
    runFrom (FindIndexOf (pre ++ x :: post) (traced f)) [] =
      ((empty T, -1, false, some e), pre ++ [x]) := by
  have := FindIndexOf_loop_trace f pre post x e 0 [] hpre hx
  simpa [FindIndexOf] using this

theorem DropWhile_loop_trace (f : T → Bool × Option E) (pre post : List T)
    (x : T) (e : E) (i : Nat) (log : List T)
    (hpre : ∀ y ∈ pre, f y = (true, none)) (hx : (f x).2 = some e) :
    runFrom (DropWhile.loop (traced f) (pre ++ x :: post) i) log =
      (Except.error e, log ++ pre ++ [x]) := by
  induction pre generalizing i log with
  | nil => simp [DropWhile.loop, runFrom_bind, runFrom_traced, hx, runFrom_pure]
  | cons y ys ih =>
    have hy := hpre y (by simp)
    have ih2 := fun j lg => ih j lg (fun z hz => hpre z (by simp [hz]))
    rw [List.cons_append]
    simp [DropWhile.loop, runFrom_bind, runFrom_traced, hy, ih2]

theorem DropWhile_trace (f : T → Bool × Option E) (pre post : List T) (x : T) (e : E)
    (hpre : ∀ y ∈ pre, f y = (true, none)) (hx : (f x).2 = some e) :
    runFrom (DropWhile (pre ++ x :: post) (traced f)) [] = ((none, some e), pre ++ [x]) := by
  simp only [DropWhile, runFrom_bind, DropWhile_loop_trace f pre post x e 0 [] hpre hx]
  simp [runFrom_pure]

theorem FindLastIndexOf_loop_trace [Inhabited T] (f : T → Bool × Option E) (pre post : List T)
    (x : T) (e : E) (k : Nat) (hk : k ≤ post.length)
    (h : pre.length + 1 + k ≤ (pre ++ x :: post).length) (log : List T)
    (hpost : ∀ y ∈ post, f y = (false, none)) (hx : (f x).2 = some e) :
    runFrom (FindLastIndexOf.loop (pre ++ x :: post) (traced f) (pre.length + 1 + k) h) log =
      ((empty T, -1, false, some e), log ++ (post.take k).reverse ++ [x]) := by
  induction k generalizing log with
  | zero =>
    simp only [Nat.add_zero, FindLastIndexOf.loop, runFrom_bind, runFrom_traced,
      List.get_eq_getElem, getElem_append_cons_mid, hx]
    simp [runFrom_pure]
  | succ k ih =>
    have hk2 : k < post.length := hk
    have hy := hpost post[k] (List.getElem_mem _)
    have hget := getElem_append_cons_post pre post x k hk2 (by simp; omega)
    simp only [← Nat.add_assoc]
    simp only [FindLastIndexOf.loop, runFrom_bind, List.get_eq_getElem, runFrom_traced, hget,
      hy]
    rw [take_succ_reverse post k hk2]
    simp [ih (by omega)]

theorem FindLastIndexOf_trace [Inhabited T] (f : T → Bool × Option E) (pre post : List T)
    (x : T) (e : E)
    (hpost : ∀ y ∈ post, f y = (false, none)) (hx : (f x).2 = some e) :
    runFrom (FindLastIndexOf (pre ++ x :: post) (traced f)) [] =
      ((empty T, -1, false, some e), post.reverse ++ [x]) := by
  have := FindLastIndexOf_loop_trace f pre post x e post.length (Nat.le_refl _)
    (by simp; omega) [] hpost hx
  simp only [List.take_length, List.nil_append] at this
  rw [← this]
  simp only [FindLastIndexOf]
  congr 2
  simp; omega

theorem DropRightWhile_loop_trace (f : T → Bool × Option E) (pre post : List T)
    (x : T) (e : E) (k : Nat) (hk : k ≤ post.length)
    (h : pre.length + 1 + k ≤ (pre ++ x :: post).length) (log : List T)
    (hpost : ∀ y ∈ post, f y = (true, none)) (hx : (f x).2 = some e) :
    runFrom (DropRightWhile.loop (pre ++ x :: post) (traced f) (pre.length + 1 + k) h) log =
      (Except.error e, log ++ (post.take k).reverse ++ [x]) := by
  induction k generalizing log with
  | zero =>
    simp only [Nat.add_zero, DropRightWhile.loop, runFrom_bind, runFrom_traced,
      List.get_eq_getElem, getElem_append_cons_mid, hx]
    simp [runFrom_pure]
  | succ k ih =>
    have hk2 : k < post.length := hk
    have hy := hpost post[k] (List.getElem_mem _)
    have hget := getElem_append_cons_post pre post x k hk2 (by simp; omega)
    simp only [← Nat.add_assoc]
    simp only [DropRightWhile.loop, runFrom_bind, List.get_eq_getElem, runFrom_traced, hget,
      hy]
    rw [take_succ_reverse post k hk2]
    simp [ih (by omega)]

theorem DropRightWhile_trace (f : T → Bool × Option E) (pre post : List T)
    (x : T) (e : E)
    (hpost : ∀ y ∈ post, f y = (true, none)) (hx : (f x).2 = some e) :
    runFrom (DropRightWhile (pre ++ x :: post) (traced f)) [] =
      ((none, some e), post.reverse ++ [x]) := by
  have := DropRightWhile_loop_trace f pre post x e post.length (Nat.le_refl _)
    (by simp; omega) [] hpost hx
  simp only [List.take_length, List.nil_append] at this
  have hn : (pre ++ x :: post).length = pre.length + 1 + post.length := by simp; omega
  simp only [DropRightWhile, runFrom_bind]
  simp only [hn, this]
  simp [runFrom_pure]

theorem getElem_indexedFrom (a : Nat) (s : List T) (k : Nat) (hs : k < s.length)
    (h : k < (indexedFrom a s).length) :
    (indexedFrom a s)[k] = (s[k], ((a + k : Nat) : Int)) := by
  simp [indexedFrom]

theorem isDuplPass_trace [DecidableEq U] (f : T → U × Option E) (pre post : List T) (x : T)
    (e : E) (isDupl : GoMap U Bool) (log : List T)
    (hpre : ∀ y ∈ pre, (f y).2 = none) (hx : (f x).2 = some e) :
    runFrom (isDuplPass (traced f) (pre ++ x :: post) isDupl) log =
      (Except.error e, log ++ pre ++ [x]) := by
  induction pre generalizing isDupl log with
  | nil => simp [isDuplPass, runFrom_bind, runFrom_traced, hx, runFrom_pure]
  | cons y ys ih =>
    have hy : (f y).2 = none := hpre y (by simp)
    have ih2 := fun a0 lg => ih a0 lg (fun z hz => hpre z (by simp [hz]))
    rw [List.cons_append]
    simp only [isDuplPass, runFrom_bind, runFrom_traced, hy]
    split
    · rw [ih2]; simp
    · split <;> rw [ih2] <;> simp

theorem FindUniquesBy_trace [DecidableEq U] (f : T → U × Option E) (pre post : List T) (x : T)
    (e : E) (hpre : ∀ y ∈ pre, (f y).2 = none) (hx : (f x).2 = some e) :
    runFrom (FindUniquesBy (pre ++ x :: post) (traced f)) [] = ((none, some e), pre ++ [x]) := by
  simp only [FindUniquesBy, runFrom_bind, isDuplPass_trace f pre post x e [] [] hpre hx]
  simp [runFrom_pure]

theorem FindDuplicatesBy_trace [DecidableEq U] (f : T → U × Option E) (pre post : List T)
    (x : T) (e : E) (hpre : ∀ y ∈ pre, (f y).2 = none) (hx : (f x).2 = some e) :
    runFrom (FindDuplicatesBy (pre ++ x :: post) (traced f)) [] =
      ((none, some e), pre ++ [x]) := by
  simp only [FindDuplicatesBy, runFrom_bind, isDuplPass_trace f pre post x e [] [] hpre hx]
  simp [runFrom_pure]

theorem Reduce_loop_trace [Inhabited R] (g : R → T → Int → R × Option E) (pre post : List T)
    (x : T) (e : E) (i : Nat) (initial acc : R) (log : List (T × Int))
    (hpre : Reduce.loop (m := Id) g pre i initial = (acc, none))
    (hx : (g acc x ((i + pre.length : Nat) : Int)).2 = some e) :
    runFrom (Reduce.loop (tracedAcc g) (pre ++ x :: post) i initial) log =
      ((empty R, some e), log ++ indexedFrom i pre ++ [(x, ((i + pre.length : Nat) : Int))]) := by
  induction pre generalizing i initial log with
  | nil =>
    simp only [Reduce.loop, pure] at hpre
    obtain rfl : initial = acc := congrArg Prod.fst hpre
    simp only [List.nil_append, Reduce.loop, runFrom_bind, runFrom_tracedAcc]
    simp only [List.length_nil, Nat.add_zero] at hx
    simp [hx, runFrom_pure, indexedFrom]
  | cons y ys ih =>
    have hl : i + (y :: ys).length = i + 1 + ys.length := by
      simp only [List.length_cons]; omega
    rw [hl] at hx ⊢
    simp only [Reduce.loop, bind] at hpre
    rw [List.cons_append]
    simp only [Reduce.loop, runFrom_bind, runFrom_tracedAcc]
    cases hy : (g initial y (i : Int)).2 with
    | some err =>
      rw [hy] at hpre
      exact absurd (congrArg Prod.snd hpre) (by simp [pure])
    | none =>
      rw [hy] at hpre
      simp only at hpre ⊢
      rw [ih (i + 1) _ _ hpre hx]
      simp [indexedFrom_cons]

theorem Reduce_trace [Inhabited R] (g : R → T → Int → R × Option E) (pre post : List T)
    (x : T) (e : E) (initial acc : R)
    (hpre : Id.run (Reduce pre g initial) = (acc, none))
    (hx : (g acc x (pre.length : Int)).2 = some e) :
    runFrom (Reduce (pre ++ x :: post) (tracedAcc g) initial) [] =
      ((empty R, some e), indexedFrom 0 pre ++ [(x, (pre.length : Int))]) := by
  have := Reduce_loop_trace g pre post x e 0 initial acc [] hpre (by simpa using hx)
  simpa [Reduce] using this

/-- The pass of `ReduceRight` over `pre ++ x :: post` visits the elements of
`post` as its pass over `post` alone does, with the positions shifted by
`len pre + 1`. -/
theorem ReduceRight_loop_trace [Inhabited R] (g : R → T → Int → R × Option E)
    (pre post : List T) (x : T) (e : E) (k : Nat) (hk : k ≤ post.length)
    (h : pre.length + 1 + k ≤ (pre ++ x :: post).length) (initial acc : R)
    (log : List (T × Int))
    (hpost : ReduceRight.loop (m := Id) post
      (fun a y j => g a y (j + ((pre.length : Int) + 1))) k hk initial = (acc, none))
    (hx : (g acc x (pre.length : Int)).2 = some e) :
    runFrom (ReduceRight.loop (pre ++ x :: post) (tracedAcc g) (pre.length + 1 + k) h initial)
        log =
      ((empty R, some e),
        log ++ ((indexedFrom (pre.length + 1) post).take k).reverse ++
          [(x, (pre.length : Int))]) := by
  induction k generalizing initial log with
  | zero =>
    simp only [ReduceRight.loop, pure] at hpost
    obtain rfl : initial = acc := congrArg Prod.fst hpost
    simp only [Nat.add_zero, ReduceRight.loop, runFrom_bind, runFrom_tracedAcc,
      List.get_eq_getElem, getElem_append_cons_mid, hx]
    simp [runFrom_pure]
  | succ k ih =>
    have hk2 : k < post.length := hk
    have hget := getElem_append_cons_post pre post x k hk2 (by simp; omega)
    have hk3 : k < (indexedFrom (pre.length + 1) post).length := by
      rw [length_indexedFrom]; exact hk2
    have hcast : ((pre.length + 1 + k : Nat) : Int) = (k : Int) + ((pre.length : Int) + 1) := by
      push_cast; omega
    simp only [ReduceRight.loop, bind, List.get_eq_getElem] at hpost
    simp only [← Nat.add_assoc]
    simp only [ReduceRight.loop, runFrom_bind, List.get_eq_getElem, runFrom_tracedAcc, hget]
    rw [take_succ_reverse _ k hk3, getElem_indexedFrom _ _ _ hk2, hcast]
    cases hy : (g initial post[k] ((k : Int) + ((pre.length : Int) + 1))).2 with
    | some err =>
      rw [hy] at hpost
      exact absurd (congrArg Prod.snd hpost) (by simp [pure])
    | none =>
      rw [hy] at hpost
      simp only at hpost ⊢
      rw [ih (Nat.le_of_succ_le hk) (by omega) _ _ hpost]
      simp

theorem ReduceRight_trace [Inhabited R] (g : R → T → Int → R × Option E)
    (pre post : List T) (x : T) (e : E) (initial acc : R)
    (hpost : Id.run (ReduceRight post (fun a y j => g a y (j + ((pre.length : Int) + 1)))
      initial) = (acc, none))
    (hx : (g acc x (pre.length : Int)).2 = some e) :
    runFrom (ReduceRight (pre ++ x :: post) (tracedAcc g) initial) [] =
      ((empty R, some e),
        (indexedFrom (pre.length + 1) post).reverse ++ [(x, (pre.length : Int))]) := by
  have := ReduceRight_loop_trace g pre post x e post.length (Nat.le_refl _)
    (by simp; omega) initial acc [] hpost hx
  rw [List.take_of_length_le (by rw [length_indexedFrom])] at this
  simp only [List.nil_append] at this
  rw [← this]
  simp only [ReduceRight]
  congr 2
  simp; omega

theorem UniqBy_loop_total [DecidableEq U] (f : T → U) (rest pre : List T) (seen : GoMap U Unit)
    (hseen : ∀ k, GoMap.index seen k = none ↔ k ∉ pre.map f) :
    UniqBy.loop (total (E := E) f) rest seen (firstByKey f pre) =
      (some (firstByKey f (pre ++ rest)), none) := by
  induction rest generalizing pre seen with
  | nil => simp [UniqBy.loop, pure]
  | cons x xs ih =>
    have hsplit : pre ++ x :: xs = (pre ++ [x]) ++ xs := by simp
    simp only [UniqBy.loop, total, bind]
    cases hi : GoMap.index seen (f x) with
    | some u =>
      have hmem : f x ∈ pre.map f := by
        by_contra hc
        rw [(hseen _).2 hc] at hi
        cases hi
      simp only
      rw [hsplit, ← ih (pre ++ [x]) seen, firstByKey_snoc, if_pos hmem]
      · intro k
        rw [hseen k]
        simp only [List.map_append, List.mem_append, List.map_cons, List.map_nil,
          List.mem_singleton, not_or]
        constructor
        · intro h
          exact ⟨h, fun hk => h (hk ▸ hmem)⟩
        · exact fun h => h.1
    | none =>
      have hmem : f x ∉ pre.map f := (hseen _).1 hi
      simp only
      rw [hsplit, ← ih (pre ++ [x]) (GoMap.assign seen (f x) ()), firstByKey_snoc, if_neg hmem]
      · intro k
        rw [GoMap.index_assign]
        by_cases hk : f x = k
        · simp [hk]
        · simp only [hk, if_false, hseen k, List.map_append, List.mem_append, List.map_cons,
            List.map_nil, List.mem_singleton, not_or]
          exact ⟨fun h => ⟨h, fun h2 => hk h2.symm⟩, fun h => h.1⟩

theorem UniqBy_total [DecidableEq U] (f : T → U) (s : List T) :
    Id.run (UniqBy s (total (E := E) f)) = (some (firstByKey f s), none) := by
  have := UniqBy_loop_total (E := E) f s [] [] (by simp [GoMap.index])
  simpa [firstByKey_nil] using this

theorem Map_loop_pure (t : T → Int → R × Option E) (rest : List T) (i : Nat) (result : List R)
    (hlen : i + rest.length ≤ result.length)
    (ht : ∀ (j : Nat) (h : j < rest.length), (t rest[j] ((i + j : Nat) : Int)).2 = none) :
    ∃ out : List R, Map.loop (m := Id) t rest i result = (some out, none) ∧
      out.length = result.length ∧
      (∀ j, j < i → out[j]? = result[j]?) ∧
      ∀ (j : Nat) (h : j < rest.length), out[i + j]? = some (t rest[j] ((i + j : Nat) : Int)).1 := by
  induction rest generalizing i result with
  | nil => exact ⟨result, rfl, rfl, fun _ _ => rfl, fun j h => absurd h (Nat.not_lt_zero _)⟩
  | cons x xs ih =>
    have h0 := ht 0 (by simp)
    simp only [Nat.add_zero, List.getElem_cons_zero] at h0
    simp only [List.length_cons] at hlen
    obtain ⟨out, hout, hl, hlt, hge⟩ := ih (i + 1) (result.set i (t x i).1)
      (by simp only [List.length_set]; omega)
      (fun j h => by
        have := ht (j + 1) (by simp only [List.length_cons]; omega)
        simp only [List.getElem_cons_succ] at this
        rw [show i + 1 + j = i + (j + 1) by omega]; exact this)
    refine ⟨out, ?_, ?_, ?_, ?_⟩
    · simp only [Map.loop, bind, h0]; exact hout
    · simpa using hl
    · intro j hj
      rw [hlt j (by omega), List.getElem?_set_ne (by omega)]
    · intro j h
      cases j with
      | zero =>
        rw [Nat.add_zero, hlt i (by omega), List.getElem?_set_self (by omega)]
        simp only [List.getElem_cons_zero, Nat.add_zero]
      | succ j =>
        have := hge j (by simp only [List.length_cons] at h; omega)
        simp only [List.getElem_cons_succ]
        rw [show i + (j + 1) = i + 1 + j by omega]; exact this

theorem Filter_loop_pure (p : V → Int → Bool × Option E) (rest : List V) (i : Nat)
    (result : List V)
    (hp : ∀ q ∈ rest.enumFrom i, (p q.2 (q.1 : Int)).2 = none) :
    Filter.loop (m := Id) p rest i result =
      (some (result ++ ((rest.enumFrom i).filter (fun q => (p q.2 (q.1 : Int)).1)).map Prod.snd),
        none) := by
  induction rest generalizing i result with
  | nil => simp [Filter.loop, pure]
  | cons x xs ih =>
    have h0 : (p x (i : Int)).2 = none := hp (i, x) (by simp)
    have ih1 := fun res => ih (i + 1) res (fun q hq => hp q (by simp [hq]))
    simp only [Filter.loop, bind, h0, List.enumFrom_cons]
    cases hb : (p x (i : Int)).1
    · simp only [Bool.false_eq_true, if_false]
      rw [ih1, List.filter_cons_of_neg (by simp [hb])]
    · simp only [if_true]
      rw [ih1, List.filter_cons_of_pos (by simp [hb])]
      simp

theorem not_mem_keys_take_iff [DecidableEq U] (f : T → U) (s : List T) (i : Nat) (k : U) :
    k ∉ (s.take i).map f ↔ ∀ (j : Nat) (_ : j < i) (hjs : j < s.length), f s[j] ≠ k := by
  simp only [List.mem_map, List.mem_take_iff_getElem, not_exists, not_and]
  constructor
  · intro h j hj hjs hk
    exact h s[j] ⟨j, by simp; omega, rfl⟩ hk
  · rintro h y ⟨j, hj, rfl⟩ hk
    have : j < i ∧ j < s.length := by simpa using hj
    exact h j this.1 this.2 hk

theorem mem_firstByKey_iff [DecidableEq U] (f : T → U) (s : List T) (x : T) :
    x ∈ firstByKey f s ↔
      ∃ (i : Nat) (h : i < s.length), s[i] = x ∧
        ∀ (j : Nat) (_ : j < i) (hjs : j < s.length), f s[j] ≠ f x := by
  rw [firstByKey, mem_pick]
  constructor
  · rintro ⟨i, h, hx, hk⟩
    exact ⟨i, h, hx, (not_mem_keys_take_iff f s i (f x)).1 (by simpa using hk)⟩
  · rintro ⟨i, h, hx, hk⟩
    exact ⟨i, h, hx, by simpa using (not_mem_keys_take_iff f s i (f x)).2 hk⟩

theorem GroupBy_total [DecidableEq U] (f : T → U) (s : List T) :
    ∃ mp : GoMap U (List T),
      Id.run (GroupBy s (total (E := E) f)) = (some mp, none) ∧
      (mp.map Prod.fst).Nodup ∧
      (∀ k, GoMap.index mp k =
        if k ∈ s.map f then some (s.filter (fun z => decide (f z = k))) else none) ∧
      (mp.map (fun en => en.2.length)).sum = s.length := by
  have := GroupBy_loop_total (E := E) f s [] [] (by simp) (by simp [GoMap.index]) (by simp)
  simpa [GroupBy] using this

theorem PartitionBy_total [DecidableEq K] (f : T → K) (s : List T) :
    ∃ groups : List (List T),
      Id.run (PartitionBy s (total (E := E) f)) = (some groups, none) ∧
      groups = (firstByKey f s).map (fun y => s.filter (fun z => decide (f z = f y))) ∧
      List.Perm groups.flatten s := by
  have := PartitionBy_loop_total (E := E) f s [] [] []
    (by simp [firstByKey_nil]) (by simp [firstByKey_nil, GoMap.index]) (by simp)
  simpa [PartitionBy] using this

theorem mem_pick_val (p : V → Int → Bool) (s : List V) (x : V) :
    x ∈ pick (fun i y => p y (i : Int)) s ↔
      ∃ (i : Nat) (h : i < s.length), s[i] = x ∧ p s[i] (i : Int) = true := by
  rw [mem_pick]
  constructor
  · rintro ⟨i, h, rfl, hp⟩; exact ⟨i, h, rfl, hp⟩
  · rintro ⟨i, h, rfl, hp⟩; exact ⟨i, h, rfl, hp⟩

/-! ## Search: the first and the last match -/

theorem eq_take_append_getElem_cons_drop (s : List T) (i : Nat) (h : i < s.length) :
    s = s.take i ++ s[i] :: s.drop (i + 1) := by
  rw [← List.drop_eq_getElem_cons h, List.take_append_drop]

theorem forall_mem_take_of_forall_lt {P : T → Prop} (s : List T) (i : Nat)
    (h : ∀ (j : Nat) (_ : j < i) (hjs : j < s.length), P s[j]) : ∀ y ∈ s.take i, P y := by
  intro y hy
  obtain ⟨j, hj, rfl⟩ := List.mem_take_iff_getElem.1 hy
  have : j < i ∧ j < s.length := by simpa using hj
  exact h j this.1 this.2

theorem forall_mem_drop_of_forall_gt {P : T → Prop} (s : List T) (i : Nat)
    (h : ∀ (j : Nat) (_ : i < j) (hjs : j < s.length), P s[j]) :
    ∀ y ∈ s.drop (i + 1), P y := by
  intro y hy
  obtain ⟨j, hj, rfl⟩ := List.getElem_of_mem hy
  rw [List.getElem_drop]
  have hj2 : j < s.length - (i + 1) := by simpa using hj
  exact h (i + 1 + j) (by omega) (by omega)

theorem Find_found [Inhabited T] (p : T → Bool × Option E) (pre post : List T) (x : T)
    (hpre : ∀ y ∈ pre, p y = (false, none)) (hx : p x = (true, none)) :
    Find (m := Id) (pre ++ x :: post) p = (x, true, none) := by
  induction pre with
  | nil => simp [Find, bind, hx, pure]
  | cons y ys ih =>
    have hy := hpre y (by simp)
    rw [List.cons_append]
    simp only [Find, bind, hy]
    simpa using ih (fun z hz => hpre z (by simp [hz]))

theorem Find_not_found [Inhabited T] (p : T → Bool × Option E) (s : List T)
    (hs : ∀ y ∈ s, p y = (false, none)) :
    Find (m := Id) s p = (empty T, false, none) := by
  induction s with
  | nil => rfl
  | cons y ys ih =>
    have hy := hs y (by simp)
    simp only [Find, bind, hy]
    simpa using ih (fun z hz => hs z (by simp [hz]))

theorem FindOrElse_found [Inhabited T] (p : T → Bool × Option E) (pre post : List T) (x : T)
    (fallback : T)
    (hpre : ∀ y ∈ pre, p y = (false, none)) (hx : p x = (true, none)) :
    FindOrElse (m := Id) (pre ++ x :: post) fallback p = (x, none) := by
  induction pre with
  | nil => simp [FindOrElse, bind, hx, pure]
  | cons y ys ih =>
    have hy := hpre y (by simp)
    rw [List.cons_append]
    simp only [FindOrElse, bind, hy]
    simpa using ih (fun z hz => hpre z (by simp [hz]))

theorem FindOrElse_not_found [Inhabited T] (p : T → Bool × Option E) (s : List T)
    (fallback : T) (hs : ∀ y ∈ s, p y = (false, none)) :
    FindOrElse (m := Id) s fallback p = (fallback, none) := by
  induction s with
  | nil => rfl
  | cons y ys ih =>
    have hy := hs y (by simp)
    simp only [FindOrElse, bind, hy]
    simpa using ih (fun z hz => hs z (by simp [hz]))

theorem FindIndexOf_loop_found [Inhabited T] (p : T → Bool × Option E) (pre post : List T)
    (x : T) (i : Nat)
    (hpre : ∀ y ∈ pre, p y = (false, none)) (hx : p x = (true, none)) :
    FindIndexOf.loop (m := Id) p (pre ++ x :: post) i =
      (x, ((i + pre.length : Nat) : Int), true, none) := by
  induction pre generalizing i with
  | nil => simp [FindIndexOf.loop, bind, hx, pure]
  | cons y ys ih =>
    have hy := hpre y (by simp)
    have hl : i + (y :: ys).length = i + 1 + ys.length := by
      simp only [List.length_cons]; omega
    rw [List.cons_append, hl]
    simp only [FindIndexOf.loop, bind, hy]
    simpa using ih (i + 1) (fun z hz => hpre z (by simp [hz]))

theorem FindIndexOf_loop_not_found [Inhabited T] (p : T → Bool × Option E) (s : List T)
    (i : Nat) (hs : ∀ y ∈ s, p y = (false, none)) :
    FindIndexOf.loop (m := Id) p s i = (empty T, -1, false, none) := by
  induction s generalizing i with
  | nil => rfl
  | cons y ys ih =>
    have hy := hs y (by simp)
    simp only [FindIndexOf.loop, bind, hy]
    simpa using ih (i + 1) (fun z hz => hs z (by simp [hz]))

theorem FindIndexOf_loop_range [Inhabited T] (p : T → Bool × Option E) (s : List T) (i : Nat)
    (hf : (FindIndexOf.loop (m := Id) p s i).2.2.1 = true) :
    (i : Int) ≤ (FindIndexOf.loop (m := Id) p s i).2.1 ∧
      (FindIndexOf.loop (m := Id) p s i).2.1 < ((i + s.length : Nat) : Int) := by
  induction s generalizing i with
  | nil => simp [FindIndexOf.loop, pure] at hf
  | cons y ys ih =>
    simp only [FindIndexOf.loop, bind] at hf ⊢
    split at hf
    · simp [pure] at hf
    · rename_i herr
      split at hf
      · rename_i ht
        simp only [if_pos ht, pure, List.length_cons]
        constructor <;> push_cast <;> omega
      · rename_i ht
        simp only [if_neg ht, List.length_cons]
        have := ih (i + 1) hf
        constructor
        · have h1 := this.1; push_cast at h1; omega
        · have h2 := this.2; push_cast at h2 ⊢; omega

theorem FindIndexOf_loop_eq_Find [Inhabited T] (p : T → Bool × Option E) (s : List T) (i : Nat) :
    (FindIndexOf.loop (m := Id) p s i).1 = (Find (m := Id) s p).1 ∧
      (FindIndexOf.loop (m := Id) p s i).2.2 = (Find (m := Id) s p).2 := by
  induction s generalizing i with
  | nil => exact ⟨rfl, rfl⟩
  | cons y ys ih =>
    simp only [FindIndexOf.loop, Find, bind]
    split
    · exact ⟨rfl, rfl⟩
    · split
      · exact ⟨rfl, rfl⟩
      · exact ih (i + 1)

theorem FindLastIndexOf_loop_found [Inhabited T] (p : T → Bool × Option E) (pre post : List T)
    (x : T) (k : Nat) (hk : k ≤ post.length)
    (h : pre.length + 1 + k ≤ (pre ++ x :: post).length)
    (hpost : ∀ y ∈ post, p y = (false, none)) (hx : p x = (true, none)) :
    FindLastIndexOf.loop (m := Id) (pre ++ x :: post) p (pre.length + 1 + k) h =
      (x, (pre.length : Int), true, none) := by
  induction k with
  | zero =>
    simp only [Nat.add_zero, FindLastIndexOf.loop, bind, List.get_eq_getElem,
      getElem_append_cons_mid, hx]
    simp [pure]
  | succ k ih =>
    have hk2 : k < post.length := hk
    have hy := hpost post[k] (List.getElem_mem _)
    have hget := getElem_append_cons_post pre post x k hk2 (by simp; omega)
    simp only [← Nat.add_assoc]
    simp only [FindLastIndexOf.loop, bind, List.get_eq_getElem, hget, hy]
    simpa using ih (by omega) (by omega)

theorem FindLastIndexOf_loop_not_found [Inhabited T] (p : T → Bool × Option E) (s : List T)
    (n : Nat) (h : n ≤ s.length) (hs : ∀ y ∈ s, p y = (false, none)) :
    FindLastIndexOf.loop (m := Id) s p n h = (empty T, -1, false, none) := by
  induction n with
  | zero => rfl
  | succ n ih =>
    have hy := hs (s.get ⟨n, h⟩) (List.get_mem _ _ _)
    simp only [FindLastIndexOf.loop, bind, hy]
    simpa using ih (by omega)

theorem FindLastIndexOf_loop_range [Inhabited T] (p : T → Bool × Option E) (s : List T)
    (n : Nat) (h : n ≤ s.length)
    (hf : (FindLastIndexOf.loop (m := Id) s p n h).2.2.1 = true) :
    0 ≤ (FindLastIndexOf.loop (m := Id) s p n h).2.1 ∧
      (FindLastIndexOf.loop (m := Id) s p n h).2.1 < (n : Int) := by
  induction n with
  | zero => simp [FindLastIndexOf.loop, pure] at hf
  | succ n ih =>
    simp only [FindLastIndexOf.loop, bind] at hf ⊢
    split at hf
    · simp [pure] at hf
    · rename_i herr
      split at hf
      · rename_i ht
        simp only [if_pos ht, pure]
        constructor <;> push_cast <;> omega
      · rename_i ht
        simp only [if_neg ht]
        have := ih (by omega) hf
        constructor
        · exact this.1
        · have h2 := this.2; push_cast; omega

theorem FindLastIndexOf_found [Inhabited T] (p : T → Bool × Option E) (pre post : List T)
    (x : T) (hpost : ∀ y ∈ post, p y = (false, none)) (hx : p x = (true, none)) :
    FindLastIndexOf (m := Id) (pre ++ x :: post) p = (x, (pre.length : Int), true, none) := by
  have := FindLastIndexOf_loop_found p pre post x post.length (Nat.le_refl _)
    (by simp; omega) hpost hx
  rw [← this]
  simp only [FindLastIndexOf]
  congr 1
  simp; omega

/-! ## Folds -/

theorem Reduce_loop_total [Inhabited R] (g : R → T → Int → R) (rest : List T) (i : Nat)
    (a : R) :
    Reduce.loop (total3 (E := E) g) rest i a =
      ((rest.enumFrom i).foldl (fun acc q => g acc q.2 (q.1 : Int)) a, none) := by
  induction rest generalizing i a with
  | nil => rfl
  | cons x xs ih =>
    simp only [Reduce.loop, total3, bind, List.enumFrom_cons, List.foldl_cons]
    exact ih (i + 1) _

theorem ReduceRight_loop_total [Inhabited R] (g : R → T → Int → R) (s : List T) (n : Nat)
    (h : n ≤ s.length) (a : R) :
    ReduceRight.loop s (total3 (E := E) g) n h a =
      ((s.take n).enum.foldr (fun q acc => g acc q.2 (q.1 : Int)) a, none) := by
  induction n generalizing a with
  | zero => rfl
  | succ n ih =>
    have hn : n < s.length := h
    have htake : (s.take (n + 1)).enum = (s.take n).enum ++ [(n, s[n])] := by
      rw [List.take_succ, List.getElem?_eq_getElem hn, List.enum_append]
      simp [List.enumFrom_singleton, Nat.min_eq_left (Nat.le_of_lt hn)]
    simp only [ReduceRight.loop, total3, bind, List.get_eq_getElem]
    rw [htake, List.foldr_append]
    exact ih (Nat.le_of_succ_le h) _

/-- In any monad, and whether or not the callback fails, `ReduceRight` is
`Reduce` on the reversed sequence with the index `i` turned into
`len s - 1 - i`. -/
theorem ReduceRight_loop_eq_Reduce_loop {m : Type → Type} [Monad m] [Inhabited R]
    (g : R → T → Int → m (R × Option E)) (s : List T) (n : Nat) (h : n ≤ s.length) (a : R) :
    ReduceRight.loop s g n h a =
      Reduce.loop (fun acc x i => g acc x ((s.length : Int) - 1 - i)) (s.take n).reverse
        (s.length - n) a := by
  induction n generalizing a with
  | zero => rfl
  | succ n ih =>
    have hn : n < s.length := h
    rw [take_succ_reverse s n hn]
    have hidx : (s.length : Int) - 1 - ((s.length - (n + 1) : Nat) : Int) = (n : Int) := by
      omega
    have hnext : s.length - (n + 1) + 1 = s.length - n := by omega
    simp only [ReduceRight.loop, Reduce.loop, List.get_eq_getElem, hidx, hnext]
    congr 1
    funext r
    cases r.2 with
    | some err => rfl
    | none => exact ih (Nat.le_of_succ_le h) _

theorem ReduceRight_eq_Reduce_reverse {m : Type → Type} [Monad m] [Inhabited R]
    (g : R → T → Int → m (R × Option E)) (s : List T) (a : R) :
    ReduceRight s g a =
      Reduce s.reverse (fun acc x i => g acc x ((s.length : Int) - 1 - i)) a := by
  have := ReduceRight_loop_eq_Reduce_loop g s s.length (Nat.le_refl _) a
  simpa [ReduceRight, Reduce] using this

/-! ## Dropping a run -/

theorem drop_length_takeWhile (p : T → Bool) (s : List T) :
    s.drop (s.takeWhile p).length = s.dropWhile p := by
  induction s with
  | nil => rfl
  | cons x xs ih =>
    by_cases hx : p x = true
    · simp [List.takeWhile_cons, List.dropWhile_cons, hx, ih]
    · simp [List.takeWhile_cons, List.dropWhile_cons, hx]

theorem take_length_dropWhile_reverse (p : T → Bool) (s : List T) :
    s.take (s.reverse.dropWhile p).length = (s.reverse.dropWhile p).reverse := by
  have h := List.takeWhile_append_dropWhile p s.reverse
  have hs : s = (s.reverse.dropWhile p).reverse ++ (s.reverse.takeWhile p).reverse := by
    rw [← List.reverse_append, h, List.reverse_reverse]
  conv_lhs => rw [hs]
  rw [List.take_left']
  simp

theorem DropWhile_loop_trace_total (p : T → Bool) (rest : List T) (i : Nat) (log : List T) :
    runFrom (DropWhile.loop (traced (fun x => ((p x, none) : Bool × Option E))) rest i) log =
      (Except.ok (i + (rest.takeWhile p).length),
        log ++ rest.take ((rest.takeWhile p).length + 1)) := by
  induction rest generalizing i log with
  | nil => simp [DropWhile.loop, runFrom_pure]
  | cons x xs ih =>
    simp only [DropWhile.loop, runFrom_bind, runFrom_traced]
    by_cases hx : p x = true
    · simp only [hx, Bool.not_true, Bool.false_eq_true, if_false, ih, List.takeWhile_cons,
        if_true, List.length_cons, List.take_succ_cons]
      simp; omega
    · simp [hx, runFrom_pure, List.takeWhile_cons]

theorem DropWhile_loop_total (p : T → Bool) (rest : List T) (i : Nat) :
    DropWhile.loop (total (E := E) p) rest i = Except.ok (i + (rest.takeWhile p).length) := by
  induction rest generalizing i with
  | nil => rfl
  | cons x xs ih =>
    simp only [DropWhile.loop, total, bind]
    by_cases hx : p x = true
    · simp only [hx, Bool.not_true, Bool.false_eq_true, if_false, ih, List.takeWhile_cons,
        if_true, List.length_cons]
      congr 1; omega
    · simp [hx, pure, List.takeWhile_cons]

theorem DropRightWhile_loop_trace_total (p : T → Bool) (s : List T) (n : Nat)
    (h : n ≤ s.length) (log : List T) :
    runFrom (DropRightWhile.loop s (traced (fun x => ((p x, none) : Bool × Option E))) n h)
        log =
      (Except.ok ((s.take n).reverse.dropWhile p).length,
        log ++ (s.take n).reverse.take (((s.take n).reverse.takeWhile p).length + 1)) := by
  induction n generalizing log with
  | zero => simp [DropRightWhile.loop, runFrom_pure]
  | succ n ih =>
    have hn : n < s.length := h
    simp only [DropRightWhile.loop, runFrom_bind, runFrom_traced, List.get_eq_getElem]
    rw [take_succ_reverse s n hn]
    by_cases hx : p s[n] = true
    · simp only [hx, Bool.not_true, Bool.false_eq_true, if_false, ih, List.takeWhile_cons,
        List.dropWhile_cons, if_true, List.length_cons, List.take_succ_cons]
      simp
    · simp [hx, runFrom_pure, List.takeWhile_cons, List.dropWhile_cons]
      omega

theorem DropRightWhile_loop_total (p : T → Bool) (s : List T) (n : Nat) (h : n ≤ s.length) :
    DropRightWhile.loop s (total (E := E) p) n h =
      Except.ok ((s.take n).reverse.dropWhile p).length := by
  induction n with
  | zero => rfl
  | succ n ih =>
    have hn : n < s.length := h
    simp only [DropRightWhile.loop, total, bind, List.get_eq_getElem]
    rw [take_succ_reverse s n hn]
    by_cases hx : p s[n] = true
    · simp only [hx, Bool.not_true, Bool.false_eq_true, if_false, ih, List.dropWhile_cons,
        if_true]
    · simp [hx, pure, List.dropWhile_cons, Nat.min_eq_left (Nat.le_of_lt hn)]

theorem DropWhile_total (p : T → Bool) (s : List T) :
    Id.run (DropWhile s (total (E := E) p)) = (some (s.dropWhile p), none) := by
  simp only [DropWhile, Id.run, bind, DropWhile_loop_total, Nat.zero_add, drop_length_takeWhile]
  rfl

theorem DropRightWhile_total (p : T → Bool) (s : List T) :
    Id.run (DropRightWhile s (total (E := E) p)) =
      (some (s.reverse.dropWhile p).reverse, none) := by
  simp only [DropRightWhile, Id.run, bind, DropRightWhile_loop_total, List.take_length,
    take_length_dropWhile_reverse]
  rfl

/-! ## Maps built from a sequence: the last write wins -/

theorem find?_reverse_snoc (q : T → Bool) (pre : List T) (x : T) :
    (pre ++ [x]).reverse.find? q = if q x = true then some x else pre.reverse.find? q := by
  rw [List.reverse_append, List.reverse_singleton, List.singleton_append, List.find?_cons]
  cases q x <;> simp

theorem find?_reverse_last (q : T → Bool) (pre post : List T) (x : T) (hx : q x = true)
    (hpost : ∀ y ∈ post, q y = false) : (pre ++ x :: post).reverse.find? q = some x := by
  rw [List.reverse_append, List.reverse_cons, List.append_assoc, List.find?_append]
  have h1 : post.reverse.find? q = none := by
    rw [List.find?_eq_none]
    intro y hy
    simp [hpost y (List.mem_reverse.1 hy)]
  simp [h1, hx]

theorem KeyBy_loop_total [DecidableEq K] (f : T → K) (rest pre : List T) (result : GoMap K T)
    (hnd : (result.map Prod.fst).Nodup)
    (hidx : ∀ k, GoMap.index result k = pre.reverse.find? (fun x => decide (f x = k))) :
    ∃ mp : GoMap K T, KeyBy.loop (total (E := E) f) rest result = (some mp, none) ∧
      (mp.map Prod.fst).Nodup ∧
      ∀ k, GoMap.index mp k = (pre ++ rest).reverse.find? (fun x => decide (f x = k)) := by
  induction rest generalizing pre result with
  | nil => exact ⟨result, rfl, hnd, by simpa using hidx⟩
  | cons x xs ih =>
    have hsplit : pre ++ x :: xs = (pre ++ [x]) ++ xs := by simp
    rw [hsplit]
    simp only [KeyBy.loop, total, bind]
    apply ih
    · exact GoMap.nodup_keys_assign _ _ _ hnd
    · intro k
      rw [GoMap.index_assign, find?_reverse_snoc, hidx k]
      by_cases hk : f x = k <;> simp [hk]

theorem Associate_loop_total [DecidableEq K] (t : T → K × V) (rest pre : List T)
    (result : GoMap K V)
    (hnd : (result.map Prod.fst).Nodup)
    (hidx : ∀ k, GoMap.index result k =
      ((pre.map t).reverse.find? (fun en => decide (en.1 = k))).map Prod.snd) :
    ∃ mp : GoMap K V, Associate.loop (totalPair (E := E) t) rest result = (some mp, none) ∧
      (mp.map Prod.fst).Nodup ∧
      ∀ k, GoMap.index mp k =
        (((pre ++ rest).map t).reverse.find? (fun en => decide (en.1 = k))).map Prod.snd := by
  induction rest generalizing pre result with
  | nil => exact ⟨result, rfl, hnd, by simpa using hidx⟩
  | cons x xs ih =>
    have hsplit : pre ++ x :: xs = (pre ++ [x]) ++ xs := by simp
    rw [hsplit]
    simp only [Associate.loop, totalPair, bind]
    apply ih
    · exact GoMap.nodup_keys_assign _ _ _ hnd
    · intro k
      rw [GoMap.index_assign, List.map_append, List.map_singleton, find?_reverse_snoc, hidx k]
      by_cases hk : (t x).1 = k <;> simp [hk]

theorem GoMap.mem_keys_iff_index_isSome [DecidableEq K] (mp : GoMap K V) (k : K) :
    k ∈ mp.map Prod.fst ↔ ∃ v, GoMap.index mp k = some v := by
  constructor
  · intro hk
    cases h : GoMap.index mp k with
    | none => exact absurd hk ((GoMap.index_eq_none_iff mp k).1 h)
    | some v => exact ⟨v, rfl⟩
  · rintro ⟨v, hv⟩
    by_contra hc
    rw [(GoMap.index_eq_none_iff mp k).2 hc] at hv
    cases hv

/-! ## Counting -/

theorem CountBy_loop_ok (p : T → Bool × Option E) (rest : List T) (count : Int)
    (hp : ∀ x ∈ rest, (p x).2 = none) :
    CountBy.loop (m := Id) p rest count =
      (count + (rest.countP (fun x => (p x).1) : Nat), none) := by
  induction rest generalizing count with
  | nil => simp [CountBy.loop, pure]
  | cons y ys ih =>
    have hy := hp y (by simp)
    have ih2 := fun c => ih c (fun z hz => hp z (by simp [hz]))
    simp only [CountBy.loop, bind, hy]
    by_cases ht : (p y).1 = true
    · rw [if_pos ht, ih2, List.countP_cons_of_pos (p := fun x => (p x).1) ys ht]
      congr 1; push_cast; omega
    · rw [if_neg ht, ih2, List.countP_cons_of_neg (p := fun x => (p x).1) ys ht]

theorem CountBy_loop_fail (p : T → Bool × Option E) (pre post : List T) (x : T) (e : E)
    (count : Int) (hpre : ∀ y ∈ pre, (p y).2 = none) (hx : (p x).2 = some e) :
    CountBy.loop (m := Id) p (pre ++ x :: post) count = (-1, some e) := by
  induction pre generalizing count with
  | nil => simp [CountBy.loop, bind, hx, pure]
  | cons y ys ih =>
    have hy := hpre y (by simp)
    have ih2 := fun c => ih c (fun z hz => hpre z (by simp [hz]))
    rw [List.cons_append]
    simp only [CountBy.loop, bind, hy]
    split <;> exact ih2 _

theorem CountBy_loop_minus_one_iff (p : T → Bool × Option E) (rest : List T) (count : Int)
    (hc : 0 ≤ count) :
    (CountBy.loop (m := Id) p rest count).1 = -1 ↔ ∃ x ∈ rest, (p x).2 ≠ none := by
  induction rest generalizing count with
  | nil =>
    simp only [CountBy.loop, pure, List.not_mem_nil, false_and, exists_false, iff_false]
    omega
  | cons y ys ih =>
    simp only [CountBy.loop, bind]
    cases hy : (p y).2 with
    | some err =>
      simp only [pure, true_iff]
      exact ⟨y, by simp, by simp [hy]⟩
    | none =>
      have hex : (∃ x ∈ y :: ys, (p x).2 ≠ none) ↔ ∃ x ∈ ys, (p x).2 ≠ none := by
        simp [hy]
      rw [hex]
      simp only
      split
      · exact ih (count + 1) (by omega)
      · exact ih count hc

theorem Filter_ignoring_index (p : T → Bool × Option E) (s : List T)
    (hp : ∀ x ∈ s, (p x).2 = none) :
    Filter (m := Id) s (fun x _ => p x) = (some (s.filter (fun x => (p x).1)), none) := by
  have := Filter_loop_pure (fun x _ => p x) s 0 []
    (fun q hq => hp q.2 (List.snd_mem_of_mem_enumFrom hq))
  rw [filter_eq_pick]
  simpa [Filter, pick, List.enum] using this

/-! ## The quantifier predicates -/

theorem ContainsBy_eq_SomeBy {m : Type → Type} [Monad m] (s : List T)
    (cb : T → m (Bool × Option E)) : ContainsBy s cb = SomeBy s cb := by
  induction s with
  | nil => rfl
  | cons x xs ih => simp only [ContainsBy, SomeBy, ih]

theorem SomeBy_total (p : T → Bool) (s : List T) :
    SomeBy s (total (E := E) p) = (s.any p, none) := by
  induction s with
  | nil => rfl
  | cons x xs ih =>
    simp only [SomeBy, total, bind, List.any_cons]
    by_cases hx : p x = true
    · simp [hx, pure]
    · simpa [hx] using ih

theorem EveryBy_total (p : T → Bool) (s : List T) :
    EveryBy s (total (E := E) p) = (s.all p, none) := by
  induction s with
  | nil => rfl
  | cons x xs ih =>
    simp only [EveryBy, total, bind, List.all_cons]
    by_cases hx : p x = true
    · simpa [hx] using ih
    · simp [hx, pure]

theorem NoneBy_total (p : T → Bool) (s : List T) :
    NoneBy s (total (E := E) p) = (!s.any p, none) := by
  induction s with
  | nil => rfl
  | cons x xs ih =>
    simp only [NoneBy, total, bind, List.any_cons]
    by_cases hx : p x = true
    · simp [hx, pure]
    · simpa [hx] using ih

/-! ## Generators -/

theorem set_append_replicate_succ (done : List T) (n : Nat) (z a : T) :
    (done ++ List.replicate (n + 1) z).set done.length a =
      (done ++ [a]) ++ List.replicate n z := by
  induction done with
  | nil => simp [List.replicate_succ]
  | cons d ds ih => simpa using ih

/-- In any monad, `Times` on its preallocated slice and `RepeatBy` on its
appended slice run the same invocations and return the same result. -/
theorem Times_loop_eq_RepeatBy_loop {m : Type → Type} [Monad m]
    (cb : Int → m (T × Option E)) (n : Nat) (z : T) (done : List T) :
    Times.loop cb n done.length (done ++ List.replicate n z) =
      RepeatBy.loop cb n done.length done := by
  induction n generalizing done with
  | zero => simp [Times.loop, RepeatBy.loop]
  | succ n ih =>
    simp only [Times.loop, RepeatBy.loop]
    congr 1
    funext r
    cases r.2 with
    | some err => rfl
    | none =>
      simp only
      rw [set_append_replicate_succ]
      have := ih (done ++ [r.1])
      simpa using this

theorem Times_eq_RepeatBy {m : Type → Type} [Monad m] [Inhabited T] (count : Nat)
    (cb : Int → m (T × Option E)) : Times count cb = RepeatBy count cb := by
  have := Times_loop_eq_RepeatBy_loop cb count (empty T) []
  simpa [Times, RepeatBy] using this

theorem RepeatBy_loop_ok (g : Int → T × Option E) (n i : Nat) (done : List T)
    (hg : ∀ j, j < n → (g ((i + j : Nat) : Int)).2 = none) :
    RepeatBy.loop (m := Id) g n i done =
      (some (done ++ (List.range n).map (fun j => (g ((i + j : Nat) : Int)).1)), none) := by
  induction n generalizing i done with
  | zero => simp [RepeatBy.loop, pure]
  | succ n ih =>
    have h0 := hg 0 (by omega)
    rw [Nat.add_zero] at h0
    simp only [RepeatBy.loop, bind, h0]
    rw [ih (i + 1) _ (fun j hj => by
      have := hg (j + 1) (by omega)
      rwa [show i + 1 + j = i + (j + 1) by omega])]
    rw [List.range_succ_eq_map, List.map_cons, List.map_map]
    simp only [Nat.add_zero, List.append_assoc, List.singleton_append, Option.some.injEq,
      Prod.mk.injEq, and_true]
    congr 4
    apply List.map_congr_left
    intro j _
    simp only [Function.comp, Nat.succ_eq_add_one]
    rw [show i + 1 + j = i + (j + 1) by omega]

theorem RepeatBy_loop_fail (g : Int → T × Option E) (n i k : Nat) (e : E) (done : List T)
    (hk : k < n) (hg : ∀ j, j < k → (g ((i + j : Nat) : Int)).2 = none)
    (he : (g ((i + k : Nat) : Int)).2 = some e) :
    RepeatBy.loop (m := Id) g n i done = (none, some e) := by
  induction n generalizing i k done with
  | zero => omega
  | succ n ih =>
    simp only [RepeatBy.loop, bind]
    cases k with
    | zero =>
      rw [Nat.add_zero] at he
      simp [he, pure]
    | succ k =>
      have h0 := hg 0 (by omega)
      rw [Nat.add_zero] at h0
      simp only [h0]
      exact ih (i + 1) k _ (by omega)
        (fun j hj => by
          have := hg (j + 1) (by omega)
          rwa [show i + 1 + j = i + (j + 1) by omega])
        (by rwa [show i + 1 + k = i + (k + 1) by omega])

/-! ## Filter and Reject -/

theorem Reject_loop_pure (p : V → Int → Bool × Option E) (rest : List V) (i : Nat)
    (result : List V)
    (hp : ∀ q ∈ rest.enumFrom i, (p q.2 (q.1 : Int)).2 = none) :
    Reject.loop (m := Id) p rest i result =
      (some (result ++
        ((rest.enumFrom i).filter (fun q => !(p q.2 (q.1 : Int)).1)).map Prod.snd), none) := by
  induction rest generalizing i result with
  | nil => simp [Reject.loop, pure]
  | cons x xs ih =>
    have h0 : (p x (i : Int)).2 = none := hp (i, x) (by simp)
    have ih1 := fun res => ih (i + 1) res (fun q hq => hp q (by simp [hq]))
    simp only [Reject.loop, bind, h0, List.enumFrom_cons]
    cases hb : (p x (i : Int)).1
    · simp only [Bool.not_false, if_true]
      rw [ih1, List.filter_cons_of_pos (by simp [hb])]
      simp
    · simp only [Bool.not_true, Bool.false_eq_true, if_false]
      rw [ih1, List.filter_cons_of_neg (by simp [hb])]

theorem Filter_total2 (q : V → Int → Bool) (s : List V) :
    Id.run (Filter s (total2 (E := E) q)) = (some (pick (fun i x => q x (i : Int)) s), none) := by
  have := Filter_loop_pure (total2 (E := E) q) s 0 [] (fun _ _ => rfl)
  simpa [Filter, pick, List.enum, total2] using this

theorem Reject_total2 (q : V → Int → Bool) (s : List V) :
    Id.run (Reject s (total2 (E := E) q)) =
      (some (pick (fun i x => !q x (i : Int)) s), none) := by
  have := Reject_loop_pure (total2 (E := E) q) s 0 [] (fun _ _ => rfl)
  simpa [Reject, pick, List.enum, total2] using this

theorem length_pick_add_length_pick_not (keep : Nat → V → Bool) (s : List V) :
    (pick keep s).length + (pick (fun i x => !keep i x) s).length = s.length := by
  simp only [pick, List.length_map]
  have := List.length_eq_length_filter_add (l := s.enum) (fun q => keep q.1 q.2)
  rw [List.enum_length] at this
  omega

theorem pick_true (s : List V) : pick (fun _ _ => true) s = s := by
  simp [pick, List.enum_map_snd]

theorem pick_false (s : List V) : pick (fun _ _ => false) s = [] := by
  simp [pick]

/-! ## MapValues -/

theorem GoMap.assign_of_not_mem [DecidableEq K] (mp : GoMap K V) (k : K) (v : V)
    (hk : k ∉ mp.map Prod.fst) : GoMap.assign mp k v = mp ++ [(k, v)] := by
  induction mp with
  | nil => rfl
  | cons en rest ih =>
    obtain ⟨k', v'⟩ := en
    simp only [List.map_cons, List.mem_cons, not_or] at hk
    simp [GoMap.assign, Ne.symm hk.1, ih hk.2]

theorem GoMap.index_map_values [DecidableEq K] (t : V → K → R) (mp : GoMap K V) (k : K) :
    GoMap.index (mp.map (fun en => (en.1, t en.2 en.1))) k =
      (GoMap.index mp k).map (fun v => t v k) := by
  induction mp with
  | nil => rfl
  | cons en rest ih =>
    obtain ⟨k', v'⟩ := en
    by_cases hk : k' = k
    · subst hk; simp [GoMap.index]
    · simp [GoMap.index, hk, ih]

theorem GoMap.index_perm [DecidableEq K] (mp mp2 : GoMap K V) (hperm : List.Perm mp2 mp)
    (hnd : (mp.map Prod.fst).Nodup) (k : K) : GoMap.index mp2 k = GoMap.index mp k := by
  have hnd2 : (mp2.map Prod.fst).Nodup := (hperm.map Prod.fst).nodup_iff.2 hnd
  cases h : GoMap.index mp k with
  | none =>
    rw [GoMap.index_eq_none_iff] at h ⊢
    intro hk
    exact h ((hperm.map Prod.fst).mem_iff.1 hk)
  | some v =>
    exact GoMap.index_of_mem mp2 hnd2 k v (hperm.mem_iff.2 (GoMap.mem_of_index mp k v h))

theorem MapValues_loop_total [DecidableEq K] (t : V → K → R) (rest pre : GoMap K V)
    (hnd : ((pre ++ rest).map Prod.fst).Nodup) :
    MapValues.loop (total2 (E := E) t) rest (pre.map (fun en => (en.1, t en.2 en.1))) =
      (some ((pre ++ rest).map (fun en => (en.1, t en.2 en.1))), none) := by
  induction rest generalizing pre with
  | nil => simp [MapValues.loop, pure]
  | cons en rest ih =>
    obtain ⟨k, v⟩ := en
    have hsplit : pre ++ (k, v) :: rest = (pre ++ [(k, v)]) ++ rest := by simp
    have hk : k ∉ (pre.map (fun en => (en.1, t en.2 en.1))).map Prod.fst := by
      rw [List.map_append, List.map_cons, List.nodup_append] at hnd
      intro hmem
      rw [List.map_map] at hmem
      exact hnd.2.2 (by simpa [Function.comp] using hmem) (List.mem_cons_self _ _)
    simp only [MapValues.loop, total2, bind]
    rw [GoMap.assign_of_not_mem _ _ _ hk, hsplit, ← ih (pre ++ [(k, v)]) (by rwa [← hsplit])]
    simp

/-! ## The capacity of the result of FindUniquesBy and FindDuplicatesBy -/

theorem isDuplPass_keys [DecidableEq U] (f : T → U) (rest pre : List T) (isDupl : GoMap U Bool)
    (hkeys : isDupl.map Prod.fst = (firstByKey f pre).map f) :
    ∃ mp : GoMap U Bool, isDuplPass (total (E := E) f) rest isDupl = Except.ok mp ∧
      mp.map Prod.fst = (firstByKey f (pre ++ rest)).map f := by
  induction rest generalizing pre isDupl with
  | nil => exact ⟨isDupl, rfl, by simpa using hkeys⟩
  | cons x xs ih =>
    have hsplit : pre ++ x :: xs = (pre ++ [x]) ++ xs := by simp
    rw [hsplit]
    have hmem : f x ∈ isDupl.map Prod.fst ↔ f x ∈ pre.map f := by
      rw [hkeys]; exact mem_keys_firstByKey f pre _
    have hstep : ∀ b, (GoMap.assign isDupl (f x) b).map Prod.fst =
        (firstByKey f (pre ++ [x])).map f := by
      intro b
      rw [GoMap.keys_assign, firstByKey_snoc, hkeys]
      by_cases h : f x ∈ pre.map f
      · rw [if_pos ((mem_keys_firstByKey f pre _).2 h), if_pos h]
      · rw [if_neg (fun hc => h ((mem_keys_firstByKey f pre _).1 hc)), if_neg h]
        simp
    simp only [isDuplPass, total, bind]
    cases hi : GoMap.index isDupl (f x) with
    | none => exact ih _ _ (hstep false)
    | some d =>
      simp only
      split
      · exact ih _ _ (hstep true)
      · apply ih
        have hin : f x ∈ pre.map f := by
          rw [← hmem]
          by_contra hc
          rw [(GoMap.index_eq_none_iff isDupl (f x)).2 hc] at hi
          cases hi
        rw [firstByKey_snoc, if_pos hin]
        exact hkeys

theorem length_le_sum_of_one_le (c : T → Nat) (l : List T) (hc : ∀ y ∈ l, 1 ≤ c y) :
    l.length + (l.filter (fun y => decide (2 ≤ c y))).length ≤ (l.map c).sum := by
  induction l with
  | nil => simp
  | cons y ys ih =>
    have h1 := hc y (by simp)
    have ih2 := ih (fun z hz => hc z (by simp [hz]))
    by_cases h2 : 2 ≤ c y
    · simp only [List.filter_cons, h2, decide_True, if_true, List.length_cons, List.map_cons,
        List.sum_cons]
      omega
    · simp only [List.filter_cons, h2, decide_False, Bool.false_eq_true, if_false,
        List.length_cons, List.map_cons, List.sum_cons]
      omega

theorem length_filter_key_eq_keyCount [DecidableEq U] (f : T → U) (s : List T) (k : U) :
    (s.filter (fun z => decide (f z = k))).length = keyCount f s k := by
  induction s with
  | nil => rfl
  | cons x xs ih =>
    by_cases h : f x = k
    · simp [keyCount, List.filter_cons, h] at ih ⊢
      exact ih
    · simp [keyCount, List.filter_cons, h, List.count_cons] at ih ⊢
      exact ih

theorem length_eq_sum_keyCount [DecidableEq U] (f : T → U) (s : List T) :
    s.length = ((firstByKey f s).map (fun y => keyCount f s (f y))).sum := by
  obtain ⟨groups, -, hgroups, hperm⟩ := PartitionBy_total (E := Unit) f s
  rw [← hperm.length_eq, List.length_flatten, hgroups, List.map_map]
  congr 1
  apply List.map_congr_left
  intro y _
  exact length_filter_key_eq_keyCount f s (f y)

theorem card_keys_eq_length_firstByKey [DecidableEq U] (f : T → U) (s : List T) :
    (s.map f).toFinset.card = (firstByKey f s).length := by
  have h : (s.map f).toFinset = ((firstByKey f s).map f).toFinset := by
    ext k
    simp only [List.mem_toFinset]
    exact (mem_keys_firstByKey f s k).symm
  rw [h, List.toFinset_card_of_nodup (nodup_keys_firstByKey f s), List.length_map]

theorem GoMap.length_assign_le [DecidableEq K] (mp : GoMap K V) (k : K) (v : V) :
    (GoMap.assign mp k v).length ≤ mp.length + 1 := by
  induction mp with
  | nil => simp [GoMap.assign]
  | cons en rest ih =>
    obtain ⟨k', v'⟩ := en
    by_cases h : k' = k
    · simp [GoMap.assign, h]
    · simp only [GoMap.assign, h, if_false, List.length_cons]
      omega

/-- Whatever the callback, a closure that may fail or not, the first loop
records at most one key per element visited. -/
theorem isDuplPass_length_le [DecidableEq U] (cb : T → StateM σ (U × Option E))
    (rest : List T) (isDupl mp : GoMap U Bool) (st : σ)
    (h : (runFrom (isDuplPass cb rest isDupl) st).1 = Except.ok mp) :
    mp.length ≤ isDupl.length + rest.length := by
  induction rest generalizing isDupl st with
  | nil =>
    simp only [isDuplPass, runFrom_pure, Except.ok.injEq] at h
    subst h
    simp
  | cons x xs ih =>
    simp only [isDuplPass, runFrom_bind] at h
    simp only [List.length_cons]
    split at h
    · simp [runFrom_pure] at h
    · split at h
      · have := ih _ _ h
        have := GoMap.length_assign_le isDupl (runFrom (cb x) st).1.1 false
        omega
      · split at h
        · have := ih _ _ h
          have := GoMap.length_assign_le isDupl (runFrom (cb x) st).1.1 true
          omega
        · have := ih _ _ h
          omega

theorem capacity_nonneg_of_closure [DecidableEq U] (cb : T → StateM σ (U × Option E))
    (s : List T) (st : σ) (c : Int) :
    ((runFrom (FindUniquesBy.capacity s cb) st).1 = some c → 0 ≤ c) ∧
    ((runFrom (FindDuplicatesBy.capacity s cb) st).1 = some c → 0 ≤ c) := by
  have key : ∀ mp : GoMap U Bool, (runFrom (isDuplPass cb s []) st).1 = Except.ok mp →
      0 ≤ (s.length : Int) - GoMap.len mp := by
    intro mp hmp
    have := isDuplPass_length_le cb s [] mp st hmp
    simp only [List.length_nil, Nat.zero_add] at this
    simp only [GoMap.len]
    omega
  constructor
  · intro h
    simp only [FindUniquesBy.capacity, runFrom_bind] at h
    split at h
    · simp [runFrom_pure] at h
    · rename_i mp hmp
      simp only [runFrom_pure, Option.some.injEq] at h
      rw [← h]
      exact key mp hmp
  · intro h
    simp only [FindDuplicatesBy.capacity, runFrom_bind] at h
    split at h
    · simp [runFrom_pure] at h
    · rename_i mp hmp
      simp only [runFrom_pure, Option.some.injEq] at h
      rw [← h]
      exact key mp hmp

/-! # The properties of the specification -/

/-- C1. Short circuit.  The callback `f` is instrumented to log its arguments
(`traced`, `tracedIdx`, `tracedAcc`), and the input is `pre ++ x :: post`.

Forward passes: when `f` fails on no element of `pre` (and, for a search, no
element of `pre` ends it) and fails with `e` on `x`, which is the `k`-th
element for `k = len pre + 1`, the log is `pre ++ [x]` (with the positions
`0, ..., len pre` for an indexed callback): `f` is invoked `k` times, on the
first `k` elements and on no element of `post`.  The error returned is `e`.

Passes from the right (`ReduceRight`, `FindLastIndexOf`, `DropRightWhile`):
the same with the elements counted in the order of the visit: when `f` fails
on no element of `post` and fails on `x`, the log is `reverse post ++ [x]` and
no element of `pre` is visited.

For `Reduce` and `ReduceRight` the callback fails on no element before `x`
when the pass over those elements alone (at the same positions) returns an
accumulator `acc` and a nil error; it then fails on `x` given `acc`. -/
theorem short_circuit_at_first_failure [Inhabited T] [Inhabited R] [DecidableEq U] :
    (∀ (f : T → Bool × Option E) (pre post : List T) (x : T) (e : E),
      (∀ y ∈ pre, f y = (false, none)) → (f x).2 = some e →
      runFrom (Find (pre ++ x :: post) (traced f)) [] =
        ((empty T, false, some e), pre ++ [x]) ∧
      (pre ++ [x]).length = pre.length + 1) ∧
    (∀ (f : T → Bool × Option E) (pre post : List T) (x : T) (e : E),
      (∀ y ∈ pre, f y = (false, none)) → (f x).2 = some e →
      runFrom (FindIndexOf (pre ++ x :: post) (traced f)) [] =
        ((empty T, -1, false, some e), pre ++ [x])) ∧
    (∀ (f : T → Bool × Option E) (pre post : List T) (x : T) (e : E) (fallback : T),
      (∀ y ∈ pre, f y = (false, none)) → (f x).2 = some e →
      runFrom (FindOrElse (pre ++ x :: post) fallback (traced f)) [] =
        ((empty T, some e), pre ++ [x])) ∧
    (∀ (f : T → Bool × Option E) (pre post : List T) (x : T) (e : E),
      (∀ y ∈ pre, f y = (false, none)) → (f x).2 = some e →
      runFrom (ContainsBy (pre ++ x :: post) (traced f)) [] =
        ((false, some e), pre ++ [x])) ∧
    (∀ (f : T → Bool × Option E) (pre post : List T) (x : T) (e : E),
      (∀ y ∈ pre, f y = (false, none)) → (f x).2 = some e →
      runFrom (SomeBy (pre ++ x :: post) (traced f)) [] =
        ((false, some e), pre ++ [x])) ∧
    (∀ (f : T → Bool × Option E) (pre post : List T) (x : T) (e : E),
      (∀ y ∈ pre, f y = (false, none)) → (f x).2 = some e →
      runFrom (NoneBy (pre ++ x :: post) (traced f)) [] =
        ((false, some e), pre ++ [x])) ∧
    (∀ (f : T → Bool × Option E) (pre post : List T) (x : T) (e : E),
      (∀ y ∈ pre, f y = (true, none)) → (f x).2 = some e →
      runFrom (EveryBy (pre ++ x :: post) (traced f)) [] =
        ((false, some e), pre ++ [x])) ∧
    (∀ (f : T → Bool × Option E) (pre post : List T) (x : T) (e : E),
      (∀ y ∈ pre, f y = (true, none)) → (f x).2 = some e →
      runFrom (DropWhile (pre ++ x :: post) (traced f)) [] =
        ((none, some e), pre ++ [x])) ∧
    (∀ (f : T → U × Option E) (pre post : List T) (x : T) (e : E),
      (∀ y ∈ pre, (f y).2 = none) → (f x).2 = some e →
      runFrom (UniqBy (pre ++ x :: post) (traced f)) [] = ((none, some e), pre ++ [x])) ∧
    (∀ (f : T → U × Option E) (pre post : List T) (x : T) (e : E),
      (∀ y ∈ pre, (f y).2 = none) → (f x).2 = some e →
      runFrom (GroupBy (pre ++ x :: post) (traced f)) [] = ((none, some e), pre ++ [x])) ∧
    (∀ (f : T → U × Option E) (pre post : List T) (x : T) (e : E),
      (∀ y ∈ pre, (f y).2 = none) → (f x).2 = some e →
      runFrom (PartitionBy (pre ++ x :: post) (traced f)) [] = ((none, some e), pre ++ [x])) ∧
    (∀ (f : T → U × Option E) (pre post : List T) (x : T) (e : E),
      (∀ y ∈ pre, (f y).2 = none) → (f x).2 = some e →
      runFrom (KeyBy (pre ++ x :: post) (traced f)) [] = ((none, some e), pre ++ [x])) ∧
    (∀ (f : T → U × V × Option E) (pre post : List T) (x : T) (e : E),
      (∀ y ∈ pre, (f y).2.2 = none) → (f x).2.2 = some e →
      runFrom (Associate (pre ++ x :: post) (traced f)) [] = ((none, some e), pre ++ [x])) ∧
    (∀ (f : T → Bool × Option E) (pre post : List T) (x : T) (e : E),
      (∀ y ∈ pre, (f y).2 = none) → (f x).2 = some e →
      runFrom (CountBy (pre ++ x :: post) (traced f)) [] = ((-1, some e), pre ++ [x])) ∧
    (∀ (f : T → U × Option E) (pre post : List T) (x : T) (e : E),
      (∀ y ∈ pre, (f y).2 = none) → (f x).2 = some e →
      runFrom (CountValuesBy (pre ++ x :: post) (traced f)) [] = ((none, some e), pre ++ [x])) ∧
    (∀ (f : T → U × Option E) (pre post : List T) (x : T) (e : E),
      (∀ y ∈ pre, (f y).2 = none) → (f x).2 = some e →
      runFrom (FindUniquesBy (pre ++ x :: post) (traced f)) [] = ((none, some e), pre ++ [x])) ∧
    (∀ (f : T → U × Option E) (pre post : List T) (x : T) (e : E),
      (∀ y ∈ pre, (f y).2 = none) → (f x).2 = some e →
      runFrom (FindDuplicatesBy (pre ++ x :: post) (traced f)) [] = ((none, some e), pre ++ [x])) ∧
    (∀ (f : T → Int → R × Option E) (pre post : List T) (x : T) (e : E),
      (∀ (j : Nat) (h : j < pre.length), (f pre[j] (j : Int)).2 = none) →
      (f x (pre.length : Int)).2 = some e →
      runFrom (Map (pre ++ x :: post) (tracedIdx f)) [] =
        ((none, some e), indexedFrom 0 pre ++ [(x, (pre.length : Int))])) ∧
    (∀ (f : T → Int → Bool × Option E) (pre post : List T) (x : T) (e : E),
      (∀ (j : Nat) (h : j < pre.length), (f pre[j] (j : Int)).2 = none) →
      (f x (pre.length : Int)).2 = some e →
      runFrom (Filter (pre ++ x :: post) (tracedIdx f)) [] =
        ((none, some e), indexedFrom 0 pre ++ [(x, (pre.length : Int))])) ∧
    (∀ (f : T → Int → Bool × Option E) (pre post : List T) (x : T) (e : E),
      (∀ (j : Nat) (h : j < pre.length), (f pre[j] (j : Int)).2 = none) →
      (f x (pre.length : Int)).2 = some e →
      runFrom (Reject (pre ++ x :: post) (tracedIdx f)) [] =
        ((none, some e), indexedFrom 0 pre ++ [(x, (pre.length : Int))])) ∧
    (∀ (f : T → Int → R × Bool × Option E) (pre post : List T) (x : T) (e : E),
      (∀ (j : Nat) (h : j < pre.length), (f pre[j] (j : Int)).2.2 = none) →
      (f x (pre.length : Int)).2.2 = some e →
      runFrom (FilterMap (pre ++ x :: post) (tracedIdx f)) [] =
        ((none, some e), indexedFrom 0 pre ++ [(x, (pre.length : Int))])) ∧
    (∀ (f : T → Int → Option (List R) × Option E) (pre post : List T) (x : T) (e : E),
      (∀ (j : Nat) (h : j < pre.length), (f pre[j] (j : Int)).2 = none) →
      (f x (pre.length : Int)).2 = some e →
      runFrom (FlatMap (pre ++ x :: post) (tracedIdx f)) [] =
        ((none, some e), indexedFrom 0 pre ++ [(x, (pre.length : Int))])) ∧
    (∀ (f : T → Int → Option E) (pre post : List T) (x : T) (e : E),
      (∀ (j : Nat) (h : j < pre.length), f pre[j] (j : Int) = none) →
      f x (pre.length : Int) = some e →
      runFrom (ForEach (pre ++ x :: post) (tracedIdx f)) [] =
        (some e, indexedFrom 0 pre ++ [(x, (pre.length : Int))])) ∧
    (∀ (g : R → T → Int → R × Option E) (pre post : List T) (x : T) (e : E)
        (initial acc : R),
      Id.run (Reduce pre g initial) = (acc, none) →
      (g acc x (pre.length : Int)).2 = some e →
      runFrom (Reduce (pre ++ x :: post) (tracedAcc g) initial) [] =
        ((empty R, some e), indexedFrom 0 pre ++ [(x, (pre.length : Int))])) ∧
    (∀ (g : R → T → Int → R × Option E) (pre post : List T) (x : T) (e : E)
        (initial acc : R),
      Id.run (ReduceRight post (fun a y j => g a y (j + ((pre.length : Int) + 1)))
        initial) = (acc, none) →
      (g acc x (pre.length : Int)).2 = some e →
      runFrom (ReduceRight (pre ++ x :: post) (tracedAcc g) initial) [] =
        ((empty R, some e),
          (indexedFrom (pre.length + 1) post).reverse ++ [(x, (pre.length : Int))])) ∧
    (∀ (f : T → Bool × Option E) (pre post : List T) (x : T) (e : E),
      (∀ y ∈ post, f y = (false, none)) → (f x).2 = some e →
      runFrom (FindLastIndexOf (pre ++ x :: post) (traced f)) [] =
        ((empty T, -1, false, some e), post.reverse ++ [x])) ∧
    (∀ (f : T → Bool × Option E) (pre post : List T) (x : T) (e : E),
      (∀ y ∈ post, f y = (true, none)) → (f x).2 = some e →
      runFrom (DropRightWhile (pre ++ x :: post) (traced f)) [] =
        ((none, some e), post.reverse ++ [x])) :=
  ⟨fun f pre post x e hpre hx =>
      ⟨by simpa using Find_trace f pre post x e [] hpre hx, by simp⟩,
    fun f pre post x e hpre hx => FindIndexOf_trace f pre post x e hpre hx,
    fun f pre post x e fallback hpre hx => by
      simpa using FindOrElse_trace f pre post x e fallback [] hpre hx,
    fun f pre post x e hpre hx => by
      simpa using ContainsBy_trace f pre post x e [] hpre hx,
    fun f pre post x e hpre hx => by
      simpa using SomeBy_trace f pre post x e [] hpre hx,
    fun f pre post x e hpre hx => by
      simpa using NoneBy_trace f pre post x e [] hpre hx,
    fun f pre post x e hpre hx => by
      simpa using EveryBy_trace f pre post x e [] hpre hx,
    fun f pre post x e hpre hx => DropWhile_trace f pre post x e hpre hx,
    fun f pre post x e hpre hx => UniqBy_trace f pre post x e hpre hx,
    fun f pre post x e hpre hx => GroupBy_trace f pre post x e hpre hx,
    fun f pre post x e hpre hx => PartitionBy_trace f pre post x e hpre hx,
    fun f pre post x e hpre hx => KeyBy_trace f pre post x e hpre hx,
    fun f pre post x e hpre hx => Associate_trace f pre post x e hpre hx,
    fun f pre post x e hpre hx => CountBy_trace f pre post x e hpre hx,
    fun f pre post x e hpre hx => CountValuesBy_trace f pre post x e hpre hx,
    fun f pre post x e hpre hx => FindUniquesBy_trace f pre post x e hpre hx,
    fun f pre post x e hpre hx => FindDuplicatesBy_trace f pre post x e hpre hx,
    fun f pre post x e hpre hx => Map_trace f pre post x e hpre hx,
    fun f pre post x e hpre hx => Filter_trace f pre post x e hpre hx,
    fun f pre post x e hpre hx => Reject_trace f pre post x e hpre hx,
    fun f pre post x e hpre hx => FilterMap_trace f pre post x e hpre hx,
    fun f pre post x e hpre hx => FlatMap_trace f pre post x e hpre hx,
    fun f pre post x e hpre hx => ForEach_trace f pre post x e hpre hx,
    fun g pre post x e initial acc hpre hx =>
      Reduce_trace g pre post x e initial acc hpre hx,
    fun g pre post x e initial acc hpost hx =>
      ReduceRight_trace g pre post x e initial acc hpost hx,
    fun f pre post x e hpost hx => FindLastIndexOf_trace f pre post x e hpost hx,
    fun f pre post x e hpost hx => DropRightWhile_trace f pre post x e hpost hx⟩

/-- Witness of C1: `Find` on a sequence of 5 elements with a predicate that is
false at the indices 0 and 1 and fails at the index 2: 3 invocations, and the
result is `(0, false, "boom")`. -/
theorem short_circuit_Find_witness :
    (∀ y ∈ [(1 : Int), 2], failsOnThree y = (false, none)) ∧
    (failsOnThree 3).2 = some "boom" ∧
    runFrom (Find ([1, 2] ++ 3 :: [4, 5]) (traced failsOnThree)) [] =
      ((0, false, some "boom"), [1, 2, 3]) ∧
    ([(1 : Int), 2] ++ [3]).length = 3 :=
  ⟨by decide, rfl,
    ((short_circuit_at_first_failure (T := Int) (R := Int) (E := String) (U := Int)
      (V := Int)).1 failsOnThree [1, 2] [4, 5] 3 "boom" (by decide) rfl).1,
    rfl⟩

/-- Counterexample to C2: with a predicate that fails on every item, `CountBy`
returns the count `-1` and `FindIndexOf` and `FindLastIndexOf` the index `-1`
along with the error; `-1` is not the zero value of the integers. -/
theorem zero_value_on_failure_counterexample :
    Id.run (CountBy [7] alwaysFails) = (-1, some "boom") ∧
    Id.run (FindIndexOf [7] alwaysFails) = (0, -1, false, some "boom") ∧
    Id.run (FindLastIndexOf [7] alwaysFails) = (0, -1, false, some "boom") ∧
    ¬ ((Id.run (CountBy [7] alwaysFails)).2 ≠ none →
        (Id.run (CountBy [7] alwaysFails)).1 = empty Int) ∧
    ¬ ((Id.run (FindIndexOf [7] alwaysFails)).2.2.2 ≠ none →
        (Id.run (FindIndexOf [7] alwaysFails)).2.1 = empty Int) ∧
    ¬ ((Id.run (FindLastIndexOf [7] alwaysFails)).2.2.2 ≠ none →
        (Id.run (FindLastIndexOf [7] alwaysFails)).2.1 = empty Int) := by
  refine ⟨rfl, rfl, rfl, ?_, ?_, ?_⟩ <;> decide

/-- C2, amended.  The callbacks are closures over a state of type `σ`; the
operations are run from any closure state `st`, with the callback `cb` as it
is and with `cb` instrumented to record its failures (`watched`), the record
being empty at the start.  For every operation:

* whenever a callback invocation fails, with an error `e`, the operation
  returns `e`, and every other component of its result is the zero value of
  its type: the nil slice or map, `false`, the zero element (`FindOrElse`
  returns the zero element, not its fallback), with one exception: the count
  of `CountBy` and the index of `FindIndexOf` and of `FindLastIndexOf` are `-1`;
* the instrumented run returns what the run with `cb` itself returns;
* whenever the operation returns a non-nil error, every other component of
  its result is that zero value, or `-1` for the three integers above.

`ForEach` returns nothing but the error. -/
theorem zero_value_or_sentinel_on_failure [Inhabited T] [Inhabited R] [Inhabited U]
    [DecidableEq U] [DecidableEq R] [DecidableEq K2] :
    (∀ (cb : T → Int → StateM σ (Bool × Option E)) (s : List T) (st : σ),
      (∀ e ∈ (runFrom (Filter s (fun x i => watched Prod.snd (cb x i))) (st, [])).2.2,
        (runFrom (Filter s (fun x i => watched Prod.snd (cb x i))) (st, [])).1 =
          (none, some e)) ∧
      (runFrom (Filter s (fun x i => watched Prod.snd (cb x i))) (st, [])).1 =
        (runFrom (Filter s cb) st).1 ∧
      ((runFrom (Filter s cb) st).1.2 ≠ none →
        (runFrom (Filter s cb) st).1.1 = none)) ∧
    (∀ (cb : T → Int → StateM σ (R × Bool × Option E)) (s : List T) (st : σ),
      (∀ e ∈ (runFrom (FilterMap s (fun x i => watched (fun r => r.2.2) (cb x i))) (st, [])).2.2,
        (runFrom (FilterMap s (fun x i => watched (fun r => r.2.2) (cb x i))) (st, [])).1 =
          (none, some e)) ∧
      (runFrom (FilterMap s (fun x i => watched (fun r => r.2.2) (cb x i))) (st, [])).1 =
        (runFrom (FilterMap s cb) st).1 ∧
      ((runFrom (FilterMap s cb) st).1.2 ≠ none →
        (runFrom (FilterMap s cb) st).1.1 = none)) ∧
    (∀ (cb : T → Int → StateM σ (Option (List R) × Option E)) (s : List T) (st : σ),
      (∀ e ∈ (runFrom (FlatMap s (fun x i => watched Prod.snd (cb x i))) (st, [])).2.2,
        (runFrom (FlatMap s (fun x i => watched Prod.snd (cb x i))) (st, [])).1 =
          (none, some e)) ∧
      (runFrom (FlatMap s (fun x i => watched Prod.snd (cb x i))) (st, [])).1 =
        (runFrom (FlatMap s cb) st).1 ∧
      ((runFrom (FlatMap s cb) st).1.2 ≠ none →
        (runFrom (FlatMap s cb) st).1.1 = none)) ∧
    (∀ (cb : T → Int → StateM σ (Bool × Option E)) (s : List T) (st : σ),
      (∀ e ∈ (runFrom (Reject s (fun x i => watched Prod.snd (cb x i))) (st, [])).2.2,
        (runFrom (Reject s (fun x i => watched Prod.snd (cb x i))) (st, [])).1 =
          (none, some e)) ∧
      (runFrom (Reject s (fun x i => watched Prod.snd (cb x i))) (st, [])).1 =
        (runFrom (Reject s cb) st).1 ∧
      ((runFrom (Reject s cb) st).1.2 ≠ none →
        (runFrom (Reject s cb) st).1.1 = none)) ∧
    (∀ (cb : T → Int → StateM σ (R × Option E)) (s : List T) (st : σ),
      (∀ e ∈ (runFrom (Map s (fun x i => watched Prod.snd (cb x i))) (st, [])).2.2,
        (runFrom (Map s (fun x i => watched Prod.snd (cb x i))) (st, [])).1 =
          (none, some e)) ∧
      (runFrom (Map s (fun x i => watched Prod.snd (cb x i))) (st, [])).1 =
        (runFrom (Map s cb) st).1 ∧
      ((runFrom (Map s cb) st).1.2 ≠ none →
        (runFrom (Map s cb) st).1.1 = none)) ∧
    (∀ (cb : R → T → Int → StateM σ (R × Option E)) (s : List T) (initial : R) (st : σ),
      (∀ e ∈ (runFrom (Reduce s (fun a x i => watched Prod.snd (cb a x i)) initial) (st, [])).2.2,
        (runFrom (Reduce s (fun a x i => watched Prod.snd (cb a x i)) initial) (st, [])).1 =
          (empty R, some e)) ∧
      (runFrom (Reduce s (fun a x i => watched Prod.snd (cb a x i)) initial) (st, [])).1 =
        (runFrom (Reduce s cb initial) st).1 ∧
      ((runFrom (Reduce s cb initial) st).1.2 ≠ none →
        (runFrom (Reduce s cb initial) st).1.1 = empty R)) ∧
    (∀ (cb : R → T → Int → StateM σ (R × Option E)) (s : List T) (initial : R) (st : σ),
      (∀ e ∈ (runFrom (ReduceRight s (fun a x i => watched Prod.snd (cb a x i)) initial) (st, [])).2.2,
        (runFrom (ReduceRight s (fun a x i => watched Prod.snd (cb a x i)) initial) (st, [])).1 =
          (empty R, some e)) ∧
      (runFrom (ReduceRight s (fun a x i => watched Prod.snd (cb a x i)) initial) (st, [])).1 =
        (runFrom (ReduceRight s cb initial) st).1 ∧
      ((runFrom (ReduceRight s cb initial) st).1.2 ≠ none →
        (runFrom (ReduceRight s cb initial) st).1.1 = empty R)) ∧
    (∀ (cb : T → Int → StateM σ (Option E)) (s : List T) (st : σ),
      (∀ e ∈ (runFrom (ForEach s (fun x i => watched (fun r => r) (cb x i))) (st, [])).2.2,
        (runFrom (ForEach s (fun x i => watched (fun r => r) (cb x i))) (st, [])).1 =
          some e) ∧
      (runFrom (ForEach s (fun x i => watched (fun r => r) (cb x i))) (st, [])).1 =
        (runFrom (ForEach s cb) st).1) ∧
    (∀ (cb : Int → StateM σ (T × Option E)) (count : Nat) (st : σ),
      (∀ e ∈ (runFrom (Times count (fun i => watched Prod.snd (cb i))) (st, [])).2.2,
        (runFrom (Times count (fun i => watched Prod.snd (cb i))) (st, [])).1 =
          (none, some e)) ∧
      (runFrom (Times count (fun i => watched Prod.snd (cb i))) (st, [])).1 =
        (runFrom (Times count cb) st).1 ∧
      ((runFrom (Times count cb) st).1.2 ≠ none →
        (runFrom (Times count cb) st).1.1 = none)) ∧
    (∀ (cb : Int → StateM σ (T × Option E)) (count : Nat) (st : σ),
      (∀ e ∈ (runFrom (RepeatBy count (fun i => watched Prod.snd (cb i))) (st, [])).2.2,
        (runFrom (RepeatBy count (fun i => watched Prod.snd (cb i))) (st, [])).1 =
          (none, some e)) ∧
      (runFrom (RepeatBy count (fun i => watched Prod.snd (cb i))) (st, [])).1 =
        (runFrom (RepeatBy count cb) st).1 ∧
      ((runFrom (RepeatBy count cb) st).1.2 ≠ none →
        (runFrom (RepeatBy count cb) st).1.1 = none)) ∧
    (∀ (cb : T → StateM σ (U × Option E)) (s : List T) (st : σ),
      (∀ e ∈ (runFrom (UniqBy s (fun x => watched Prod.snd (cb x))) (st, [])).2.2,
        (runFrom (UniqBy s (fun x => watched Prod.snd (cb x))) (st, [])).1 =
          (none, some e)) ∧
      (runFrom (UniqBy s (fun x => watched Prod.snd (cb x))) (st, [])).1 =
        (runFrom (UniqBy s cb) st).1 ∧
      ((runFrom (UniqBy s cb) st).1.2 ≠ none →
        (runFrom (UniqBy s cb) st).1.1 = none)) ∧
    (∀ (cb : T → StateM σ (U × Option E)) (s : List T) (st : σ),
      (∀ e ∈ (runFrom (GroupBy s (fun x => watched Prod.snd (cb x))) (st, [])).2.2,
        (runFrom (GroupBy s (fun x => watched Prod.snd (cb x))) (st, [])).1 =
          (none, some e)) ∧
      (runFrom (GroupBy s (fun x => watched Prod.snd (cb x))) (st, [])).1 =
        (runFrom (GroupBy s cb) st).1 ∧
      ((runFrom (GroupBy s cb) st).1.2 ≠ none →
        (runFrom (GroupBy s cb) st).1.1 = none)) ∧
    (∀ (cb : T → StateM σ (U × Option E)) (s : List T) (st : σ),
      (∀ e ∈ (runFrom (PartitionBy s (fun x => watched Prod.snd (cb x))) (st, [])).2.2,
        (runFrom (PartitionBy s (fun x => watched Prod.snd (cb x))) (st, [])).1 =
          (none, some e)) ∧
      (runFrom (PartitionBy s (fun x => watched Prod.snd (cb x))) (st, [])).1 =
        (runFrom (PartitionBy s cb) st).1 ∧
      ((runFrom (PartitionBy s cb) st).1.2 ≠ none →
        (runFrom (PartitionBy s cb) st).1.1 = none)) ∧
    (∀ (cb : T → StateM σ (U × Option E)) (s : List T) (st : σ),
      (∀ e ∈ (runFrom (KeyBy s (fun x => watched Prod.snd (cb x))) (st, [])).2.2,
        (runFrom (KeyBy s (fun x => watched Prod.snd (cb x))) (st, [])).1 =
          (none, some e)) ∧
      (runFrom (KeyBy s (fun x => watched Prod.snd (cb x))) (st, [])).1 =
        (runFrom (KeyBy s cb) st).1 ∧
      ((runFrom (KeyBy s cb) st).1.2 ≠ none →
        (runFrom (KeyBy s cb) st).1.1 = none)) ∧
    (∀ (cb : T → StateM σ (U × Option E)) (s : List T) (st : σ),
      (∀ e ∈ (runFrom (CountValuesBy s (fun x => watched Prod.snd (cb x))) (st, [])).2.2,
        (runFrom (CountValuesBy s (fun x => watched Prod.snd (cb x))) (st, [])).1 =
          (none, some e)) ∧
      (runFrom (CountValuesBy s (fun x => watched Prod.snd (cb x))) (st, [])).1 =
        (runFrom (CountValuesBy s cb) st).1 ∧
      ((runFrom (CountValuesBy s cb) st).1.2 ≠ none →
        (runFrom (CountValuesBy s cb) st).1.1 = none)) ∧
    (∀ (cb : T → StateM σ (U × V × Option E)) (s : List T) (st : σ),
      (∀ e ∈ (runFrom (Associate s (fun x => watched (fun r => r.2.2) (cb x))) (st, [])).2.2,
        (runFrom (Associate s (fun x => watched (fun r => r.2.2) (cb x))) (st, [])).1 =
          (none, some e)) ∧
      (runFrom (Associate s (fun x => watched (fun r => r.2.2) (cb x))) (st, [])).1 =
        (runFrom (Associate s cb) st).1 ∧
      ((runFrom (Associate s cb) st).1.2 ≠ none →
        (runFrom (Associate s cb) st).1.1 = none)) ∧
    (∀ (cb : T → StateM σ (U × V × Option E)) (s : List T) (st : σ),
      (∀ e ∈ (runFrom (SliceToMap s (fun x => watched (fun r => r.2.2) (cb x))) (st, [])).2.2,
        (runFrom (SliceToMap s (fun x => watched (fun r => r.2.2) (cb x))) (st, [])).1 =
          (none, some e)) ∧
      (runFrom (SliceToMap s (fun x => watched (fun r => r.2.2) (cb x))) (st, [])).1 =
        (runFrom (SliceToMap s cb) st).1 ∧
      ((runFrom (SliceToMap s cb) st).1.2 ≠ none →
        (runFrom (SliceToMap s cb) st).1.1 = none)) ∧
    (∀ (cb : T → StateM σ (Bool × Option E)) (s : List T) (st : σ),
      (∀ e ∈ (runFrom (DropWhile s (fun x => watched Prod.snd (cb x))) (st, [])).2.2,
        (runFrom (DropWhile s (fun x => watched Prod.snd (cb x))) (st, [])).1 =
          (none, some e)) ∧
      (runFrom (DropWhile s (fun x => watched Prod.snd (cb x))) (st, [])).1 =
        (runFrom (DropWhile s cb) st).1 ∧
      ((runFrom (DropWhile s cb) st).1.2 ≠ none →
        (runFrom (DropWhile s cb) st).1.1 = none)) ∧
    (∀ (cb : T → StateM σ (Bool × Option E)) (s : List T) (st : σ),
      (∀ e ∈ (runFrom (DropRightWhile s (fun x => watched Prod.snd (cb x))) (st, [])).2.2,
        (runFrom (DropRightWhile s (fun x => watched Prod.snd (cb x))) (st, [])).1 =
          (none, some e)) ∧
      (runFrom (DropRightWhile s (fun x => watched Prod.snd (cb x))) (st, [])).1 =
        (runFrom (DropRightWhile s cb) st).1 ∧
      ((runFrom (DropRightWhile s cb) st).1.2 ≠ none →
        (runFrom (DropRightWhile s cb) st).1.1 = none)) ∧
    (∀ (cb : T → StateM σ (Bool × Option E)) (s : List T) (st : σ),
      (∀ e ∈ (runFrom (Find s (fun x => watched Prod.snd (cb x))) (st, [])).2.2,
        (runFrom (Find s (fun x => watched Prod.snd (cb x))) (st, [])).1 =
          (empty T, false, some e)) ∧
      (runFrom (Find s (fun x => watched Prod.snd (cb x))) (st, [])).1 =
        (runFrom (Find s cb) st).1 ∧
      ((runFrom (Find s cb) st).1.2.2 ≠ none →
        (runFrom (Find s cb) st).1.1 = empty T ∧
        (runFrom (Find s cb) st).1.2.1 = false)) ∧
    (∀ (cb : T → StateM σ (Bool × Option E)) (s : List T) (fallback : T) (st : σ),
      (∀ e ∈ (runFrom (FindOrElse s fallback (fun x => watched Prod.snd (cb x))) (st, [])).2.2,
        (runFrom (FindOrElse s fallback (fun x => watched Prod.snd (cb x))) (st, [])).1 =
          (empty T, some e)) ∧
      (runFrom (FindOrElse s fallback (fun x => watched Prod.snd (cb x))) (st, [])).1 =
        (runFrom (FindOrElse s fallback cb) st).1 ∧
      ((runFrom (FindOrElse s fallback cb) st).1.2 ≠ none →
        (runFrom (FindOrElse s fallback cb) st).1.1 = empty T)) ∧
    (∀ (cb : U → V → StateM σ (Bool × Option E)) (object : GoMap U V) (st : σ),
      (∀ e ∈ (runFrom (FindKeyBy object (fun k v => watched Prod.snd (cb k v))) (st, [])).2.2,
        (runFrom (FindKeyBy object (fun k v => watched Prod.snd (cb k v))) (st, [])).1 =
          (empty U, false, some e)) ∧
      (runFrom (FindKeyBy object (fun k v => watched Prod.snd (cb k v))) (st, [])).1 =
        (runFrom (FindKeyBy object cb) st).1 ∧
      ((runFrom (FindKeyBy object cb) st).1.2.2 ≠ none →
        (runFrom (FindKeyBy object cb) st).1.1 = empty U ∧
        (runFrom (FindKeyBy object cb) st).1.2.1 = false)) ∧
    (∀ (cb : T → StateM σ (U × Option E)) (s : List T) (st : σ),
      (∀ e ∈ (runFrom (FindUniquesBy s (fun x => watched Prod.snd (cb x))) (st, [])).2.2,
        (runFrom (FindUniquesBy s (fun x => watched Prod.snd (cb x))) (st, [])).1 =
          (none, some e)) ∧
      (runFrom (FindUniquesBy s (fun x => watched Prod.snd (cb x))) (st, [])).1 =
        (runFrom (FindUniquesBy s cb) st).1 ∧
      ((runFrom (FindUniquesBy s cb) st).1.2 ≠ none →
        (runFrom (FindUniquesBy s cb) st).1.1 = none)) ∧
    (∀ (cb : T → StateM σ (U × Option E)) (s : List T) (st : σ),
      (∀ e ∈ (runFrom (FindDuplicatesBy s (fun x => watched Prod.snd (cb x))) (st, [])).2.2,
        (runFrom (FindDuplicatesBy s (fun x => watched Prod.snd (cb x))) (st, [])).1 =
          (none, some e)) ∧
      (runFrom (FindDuplicatesBy s (fun x => watched Prod.snd (cb x))) (st, [])).1 =
        (runFrom (FindDuplicatesBy s cb) st).1 ∧
      ((runFrom (FindDuplicatesBy s cb) st).1.2 ≠ none →
        (runFrom (FindDuplicatesBy s cb) st).1.1 = none)) ∧
    (∀ (cb : T → StateM σ (Bool × Option E)) (s : List T) (st : σ),
      (∀ e ∈ (runFrom (ContainsBy s (fun x => watched Prod.snd (cb x))) (st, [])).2.2,
        (runFrom (ContainsBy s (fun x => watched Prod.snd (cb x))) (st, [])).1 =
          (false, some e)) ∧
      (runFrom (ContainsBy s (fun x => watched Prod.snd (cb x))) (st, [])).1 =
        (runFrom (ContainsBy s cb) st).1 ∧
      ((runFrom (ContainsBy s cb) st).1.2 ≠ none →
        (runFrom (ContainsBy s cb) st).1.1 = false)) ∧
    (∀ (cb : T → StateM σ (Bool × Option E)) (s : List T) (st : σ),
      (∀ e ∈ (runFrom (EveryBy s (fun x => watched Prod.snd (cb x))) (st, [])).2.2,
        (runFrom (EveryBy s (fun x => watched Prod.snd (cb x))) (st, [])).1 =
          (false, some e)) ∧
      (runFrom (EveryBy s (fun x => watched Prod.snd (cb x))) (st, [])).1 =
        (runFrom (EveryBy s cb) st).1 ∧
      ((runFrom (EveryBy s cb) st).1.2 ≠ none →
        (runFrom (EveryBy s cb) st).1.1 = false)) ∧
    (∀ (cb : T → StateM σ (Bool × Option E)) (s : List T) (st : σ),
      (∀ e ∈ (runFrom (SomeBy s (fun x => watched Prod.snd (cb x))) (st, [])).2.2,
        (runFrom (SomeBy s (fun x => watched Prod.snd (cb x))) (st, [])).1 =
          (false, some e)) ∧
      (runFrom (SomeBy s (fun x => watched Prod.snd (cb x))) (st, [])).1 =
        (runFrom (SomeBy s cb) st).1 ∧
      ((runFrom (SomeBy s cb) st).1.2 ≠ none →
        (runFrom (SomeBy s cb) st).1.1 = false)) ∧
    (∀ (cb : T → StateM σ (Bool × Option E)) (s : List T) (st : σ),
      (∀ e ∈ (runFrom (NoneBy s (fun x => watched Prod.snd (cb x))) (st, [])).2.2,
        (runFrom (NoneBy s (fun x => watched Prod.snd (cb x))) (st, [])).1 =
          (false, some e)) ∧
      (runFrom (NoneBy s (fun x => watched Prod.snd (cb x))) (st, [])).1 =
        (runFrom (NoneBy s cb) st).1 ∧
      ((runFrom (NoneBy s cb) st).1.2 ≠ none →
        (runFrom (NoneBy s cb) st).1.1 = false)) ∧
    (∀ (cb : V → U → StateM σ (R × Option E)) (inp : GoMap U V) (st : σ),
      (∀ e ∈ (runFrom (MapKeys inp (fun v k => watched Prod.snd (cb v k))) (st, [])).2.2,
        (runFrom (MapKeys inp (fun v k => watched Prod.snd (cb v k))) (st, [])).1 =
          (none, some e)) ∧
      (runFrom (MapKeys inp (fun v k => watched Prod.snd (cb v k))) (st, [])).1 =
        (runFrom (MapKeys inp cb) st).1 ∧
      ((runFrom (MapKeys inp cb) st).1.2 ≠ none →
        (runFrom (MapKeys inp cb) st).1.1 = none)) ∧
    (∀ (cb : V → U → StateM σ (R × Option E)) (inp : GoMap U V) (st : σ),
      (∀ e ∈ (runFrom (MapValues inp (fun v k => watched Prod.snd (cb v k))) (st, [])).2.2,
        (runFrom (MapValues inp (fun v k => watched Prod.snd (cb v k))) (st, [])).1 =
          (none, some e)) ∧
      (runFrom (MapValues inp (fun v k => watched Prod.snd (cb v k))) (st, [])).1 =
        (runFrom (MapValues inp cb) st).1 ∧
      ((runFrom (MapValues inp cb) st).1.2 ≠ none →
        (runFrom (MapValues inp cb) st).1.1 = none)) ∧
    (∀ (cb : U → V → StateM σ (K2 × V2 × Option E)) (inp : GoMap U V) (st : σ),
      (∀ e ∈ (runFrom (MapEntries inp (fun k v => watched (fun r => r.2.2) (cb k v))) (st, [])).2.2,
        (runFrom (MapEntries inp (fun k v => watched (fun r => r.2.2) (cb k v))) (st, [])).1 =
          (none, some e)) ∧
      (runFrom (MapEntries inp (fun k v => watched (fun r => r.2.2) (cb k v))) (st, [])).1 =
        (runFrom (MapEntries inp cb) st).1 ∧
      ((runFrom (MapEntries inp cb) st).1.2 ≠ none →
        (runFrom (MapEntries inp cb) st).1.1 = none)) ∧
    (∀ (cb : U → V → StateM σ (R × Option E)) (inp : GoMap U V) (st : σ),
      (∀ e ∈ (runFrom (MapToSlice inp (fun k v => watched Prod.snd (cb k v))) (st, [])).2.2,
        (runFrom (MapToSlice inp (fun k v => watched Prod.snd (cb k v))) (st, [])).1 =
          (none, some e)) ∧
      (runFrom (MapToSlice inp (fun k v => watched Prod.snd (cb k v))) (st, [])).1 =
        (runFrom (MapToSlice inp cb) st).1 ∧
      ((runFrom (MapToSlice inp cb) st).1.2 ≠ none →
        (runFrom (MapToSlice inp cb) st).1.1 = none)) ∧
    (∀ (cb : T → StateM σ (Bool × Option E)) (s : List T) (st : σ),
      (∀ e ∈ (runFrom (CountBy s (fun x => watched Prod.snd (cb x))) (st, [])).2.2,
        (runFrom (CountBy s (fun x => watched Prod.snd (cb x))) (st, [])).1 =
          (-1, some e)) ∧
      (runFrom (CountBy s (fun x => watched Prod.snd (cb x))) (st, [])).1 =
        (runFrom (CountBy s cb) st).1 ∧
      ((runFrom (CountBy s cb) st).1.2 ≠ none →
        (runFrom (CountBy s cb) st).1.1 = -1)) ∧
    (∀ (cb : T → StateM σ (Bool × Option E)) (s : List T) (st : σ),
      (∀ e ∈ (runFrom (FindIndexOf s (fun x => watched Prod.snd (cb x))) (st, [])).2.2,
        (runFrom (FindIndexOf s (fun x => watched Prod.snd (cb x))) (st, [])).1 =
          (empty T, -1, false, some e)) ∧
      (runFrom (FindIndexOf s (fun x => watched Prod.snd (cb x))) (st, [])).1 =
        (runFrom (FindIndexOf s cb) st).1 ∧
      ((runFrom (FindIndexOf s cb) st).1.2.2.2 ≠ none →
        (runFrom (FindIndexOf s cb) st).1.1 = empty T ∧
        (runFrom (FindIndexOf s cb) st).1.2.1 = -1 ∧
        (runFrom (FindIndexOf s cb) st).1.2.2.1 = false)) ∧
    (∀ (cb : T → StateM σ (Bool × Option E)) (s : List T) (st : σ),
      (∀ e ∈ (runFrom (FindLastIndexOf s (fun x => watched Prod.snd (cb x))) (st, [])).2.2,
        (runFrom (FindLastIndexOf s (fun x => watched Prod.snd (cb x))) (st, [])).1 =
          (empty T, -1, false, some e)) ∧
      (runFrom (FindLastIndexOf s (fun x => watched Prod.snd (cb x))) (st, [])).1 =
        (runFrom (FindLastIndexOf s cb) st).1 ∧
      ((runFrom (FindLastIndexOf s cb) st).1.2.2.2 ≠ none →
        (runFrom (FindLastIndexOf s cb) st).1.1 = empty T ∧
        (runFrom (FindLastIndexOf s cb) st).1.2.1 = -1 ∧
        (runFrom (FindLastIndexOf s cb) st).1.2.2.1 = false)) :=
  ⟨fun cb s st =>
      watched_pair _ _ _ (Filter_loop_watched cb s 0 [] st [])
        (Filter_loop_zero cb s 0 [] st),
    fun cb s st =>
      watched_pair _ _ _ (FilterMap_loop_watched cb s 0 [] st [])
        (FilterMap_loop_zero cb s 0 [] st),
    fun cb s st =>
      watched_pair _ _ _ (FlatMap_loop_watched cb s 0 [] st [])
        (FlatMap_loop_zero cb s 0 [] st),
    fun cb s st =>
      watched_pair _ _ _ (Reject_loop_watched cb s 0 [] st [])
        (Reject_loop_zero cb s 0 [] st),
    fun cb s st =>
      watched_pair _ _ _ (Map_loop_watched cb s 0 _ st [])
        (Map_loop_zero cb s 0 _ st),
    fun cb s initial st =>
      watched_pair _ _ _ (Reduce_loop_watched cb s 0 initial st [])
        (Reduce_loop_zero cb s 0 initial st),
    fun cb s initial st =>
      watched_pair _ _ _ (ReduceRight_loop_watched cb s _ _ initial st [])
        (ReduceRight_loop_zero cb s _ _ initial st),
    fun cb s st =>
      watched_err _ _ (ForEach_loop_watched cb s 0 st []),
    fun cb count st =>
      watched_pair _ _ _ (Times_loop_watched cb count 0 _ st [])
        (Times_loop_zero cb count 0 _ st),
    fun cb count st =>
      watched_pair _ _ _ (RepeatBy_loop_watched cb count 0 [] st [])
        (RepeatBy_loop_zero cb count 0 [] st),
    fun cb s st =>
      watched_pair _ _ _ (UniqBy_loop_watched cb s [] [] st [])
        (UniqBy_loop_zero cb s [] [] st),
    fun cb s st =>
      watched_pair _ _ _ (GroupBy_loop_watched cb s [] st [])
        (GroupBy_loop_zero cb s [] st),
    fun cb s st =>
      watched_pair _ _ _ (PartitionBy_loop_watched cb s [] [] st [])
        (PartitionBy_loop_zero cb s [] [] st),
    fun cb s st =>
      watched_pair _ _ _ (KeyBy_loop_watched cb s [] st [])
        (KeyBy_loop_zero cb s [] st),
    fun cb s st =>
      watched_pair _ _ _ (CountValuesBy_loop_watched cb s [] st [])
        (CountValuesBy_loop_zero cb s [] st),
    fun cb s st =>
      watched_pair _ _ _ (Associate_loop_watched cb s [] st [])
        (Associate_loop_zero cb s [] st),
    fun cb s st =>
      watched_pair _ _ _ (Associate_loop_watched cb s [] st [])
        (Associate_loop_zero cb s [] st),
    fun cb s st =>
      watched_pair _ _ _ (DropWhile_watched cb s st [])
        (DropWhile_zero cb s st),
    fun cb s st =>
      watched_pair _ _ _ (DropRightWhile_watched cb s st [])
        (DropRightWhile_zero cb s st),
    fun cb s st =>
      watched_triple _ _ _ (Find_watched cb s st [])
        (Find_zero cb s st),
    fun cb s fallback st =>
      watched_pair _ _ _ (FindOrElse_watched cb s fallback st [])
        (FindOrElse_zero cb s fallback st),
    fun cb object st =>
      watched_triple _ _ _ (FindKeyBy_watched cb object st [])
        (FindKeyBy_zero cb object st),
    fun cb s st =>
      watched_pair _ _ _ (FindUniquesBy_watched cb s st [])
        (FindUniquesBy_zero cb s st),
    fun cb s st =>
      watched_pair _ _ _ (FindDuplicatesBy_watched cb s st [])
        (FindDuplicatesBy_zero cb s st),
    fun cb s st =>
      watched_pair _ _ _ (ContainsBy_watched cb s st [])
        (ContainsBy_zero cb s st),
    fun cb s st =>
      watched_pair _ _ _ (EveryBy_watched cb s st [])
        (EveryBy_zero cb s st),
    fun cb s st =>
      watched_pair _ _ _ (SomeBy_watched cb s st [])
        (SomeBy_zero cb s st),
    fun cb s st =>
      watched_pair _ _ _ (NoneBy_watched cb s st [])
        (NoneBy_zero cb s st),
    fun cb inp st =>
      watched_pair _ _ _ (MapKeys_loop_watched cb inp [] st [])
        (MapKeys_loop_zero cb inp [] st),
    fun cb inp st =>
      watched_pair _ _ _ (MapValues_loop_watched cb inp [] st [])
        (MapValues_loop_zero cb inp [] st),
    fun cb inp st =>
      watched_pair _ _ _ (MapEntries_loop_watched cb inp [] st [])
        (MapEntries_loop_zero cb inp [] st),
    fun cb inp st =>
      watched_pair _ _ _ (MapToSlice_loop_watched cb inp [] st [])
        (MapToSlice_loop_zero cb inp [] st),
    fun cb s st =>
      watched_pair _ _ _ (CountBy_loop_watched cb s 0 st [])
        (CountBy_loop_zero cb s 0 st),
    fun cb s st =>
      watched_quad _ _ _ (FindIndexOf_loop_watched cb s 0 st [])
        (FindIndexOf_loop_zero cb s 0 st),
    fun cb s st =>
      watched_quad _ _ _ (FindLastIndexOf_loop_watched cb s _ _ st [])
        (FindLastIndexOf_loop_zero cb s _ _ st)⟩

/-- Witness of C2: `Filter` on `[1, 2, 3, 4]` with a predicate that holds of
`1` and of `2` and fails on `3`.  The failure `"boom"` is recorded, and the
result is the nil slice with that error, not the partial result `[1, 2]`. -/
theorem zero_value_or_sentinel_witness :
    "boom" ∈ (runFrom (Filter [1, 2, 3, 4] (fun x i => watched Prod.snd
      (pure (trueUntilThree x i) : StateM Unit (Bool × Option String)))) ((), [])).2.2 ∧
    (runFrom (Filter [1, 2, 3, 4] (fun x i => watched Prod.snd
      (pure (trueUntilThree x i) : StateM Unit (Bool × Option String)))) ((), [])).1 =
      (none, some "boom") :=
  ⟨List.mem_singleton.2 rfl,
    ((@zero_value_or_sentinel_on_failure Int Int String Int Int Int Int Unit _ _ _ _ _ _).1
      (fun x i => pure (trueUntilThree x i)) [1, 2, 3, 4] ()).1 "boom"
      (List.mem_singleton.2 rfl)⟩

/-- C3. With a key extractor `f` that never fails, `UniqBy s f` returns, with a
nil error, the elements `s[i]` whose key is the key of no earlier element
`s[j]`, `j < i`, in their original order: the first occurrence of every key.
The keys of the result are pairwise distinct and every key of `s` is the key
of a result element.  On `[1, 2, 2, 3, 3, 3]` with the identity the result is
`[1, 2, 3]`. -/
theorem UniqBy_keeps_first_occurrences [DecidableEq U] (s : List T) (f : T → U) :
    Id.run (UniqBy s (total (E := E) f)) = (some (firstByKey f s), none) ∧
    (∀ x, x ∈ firstByKey f s ↔
      ∃ (i : Nat) (h : i < s.length), s[i] = x ∧
        ∀ (j : Nat) (_ : j < i) (hjs : j < s.length), f s[j] ≠ f x) ∧
    List.Sublist (firstByKey f s) s ∧
    ((firstByKey f s).map f).Nodup ∧
    (∀ x ∈ s, f x ∈ (firstByKey f s).map f) ∧
    Id.run (UniqBy [1, 2, 2, 3, 3, 3] (total (E := E) (fun x : Int => x))) =
      (some [1, 2, 3], none) := by
  refine ⟨UniqBy_total f s, mem_firstByKey_iff f s, firstByKey_sublist f s,
    nodup_keys_firstByKey f s, ?_, rfl⟩
  · intro x hx
    exact (mem_keys_firstByKey f s _).2 (List.mem_map_of_mem f hx)

/-- C4. With a key extractor `f` that never fails, `FindUniquesBy s f` returns,
with a nil error and in original order, exactly the elements of `s` whose key
occurs once among the keys of `s`; every element of a duplicated key is left
out, its first occurrence included.  On `[1, 2, 2, 3]` with the identity the
result is `[1, 3]`. -/
theorem FindUniquesBy_keeps_keys_occurring_once [DecidableEq U] (s : List T) (f : T → U) :
    Id.run (FindUniquesBy s (total (E := E) f)) =
      (some (s.filter (fun x => decide (keyCount f s (f x) = 1))), none) ∧
    (∀ x, x ∈ s.filter (fun x => decide (keyCount f s (f x) = 1)) ↔
      x ∈ s ∧ ((s.map f).count (f x) = 1)) ∧
    List.Sublist (s.filter (fun x => decide (keyCount f s (f x) = 1))) s ∧
    Id.run (FindUniquesBy [1, 2, 2, 3] (total (E := E) (fun x : Int => x))) =
      (some [1, 3], none) := by
  refine ⟨FindUniquesBy_total f s, ?_, List.filter_sublist _, rfl⟩
  intro x
  simp [List.mem_filter, keyCount]

/-- C5. With a key extractor `f` that never fails, `FindDuplicatesBy s f`
returns, with a nil error, the first occurrences of the keys of `s` (the
elements of `firstByKey f s`, in their order) whose key occurs more than once
in `s`.  So the keys of the result are pairwise distinct, a key is the key of a
result element exactly when it occurs at least twice in `s`, and the elements
come in the order of the first occurrence of their keys.  On `[1, 2, 2, 3]`
with the identity the result is `[2]`. -/
theorem FindDuplicatesBy_keeps_first_of_repeated_keys [DecidableEq U] (s : List T)
    (f : T → U) :
    Id.run (FindDuplicatesBy s (total (E := E) f)) =
      (some ((firstByKey f s).filter (fun x => decide (2 ≤ keyCount f s (f x)))), none) ∧
    (∀ x, x ∈ (firstByKey f s).filter (fun x => decide (2 ≤ keyCount f s (f x))) ↔
      (∃ (i : Nat) (h : i < s.length), s[i] = x ∧
        ∀ (j : Nat) (_ : j < i) (hjs : j < s.length), f s[j] ≠ f x) ∧
      2 ≤ (s.map f).count (f x)) ∧
    (((firstByKey f s).filter (fun x => decide (2 ≤ keyCount f s (f x)))).map f).Nodup ∧
    (∀ k, k ∈ ((firstByKey f s).filter (fun x => decide (2 ≤ keyCount f s (f x)))).map f ↔
      2 ≤ (s.map f).count k) ∧
    List.Sublist ((firstByKey f s).filter (fun x => decide (2 ≤ keyCount f s (f x))))
      (firstByKey f s) ∧
    Id.run (FindDuplicatesBy [1, 2, 2, 3] (total (E := E) (fun x : Int => x))) =
      (some [2], none) := by
  refine ⟨FindDuplicatesBy_total f s, ?_, ?_, ?_, List.filter_sublist _, rfl⟩
  · intro x
    rw [List.mem_filter, mem_firstByKey_iff]
    simp [keyCount]
  · exact List.Nodup.sublist (List.Sublist.map f (List.filter_sublist _))
      (nodup_keys_firstByKey f s)
  · intro k
    simp only [List.mem_map, List.mem_filter, decide_eq_true_eq]
    constructor
    · rintro ⟨x, ⟨_, h2⟩, rfl⟩
      exact h2
    · intro h2
      have hk : k ∈ (firstByKey f s).map f :=
        (mem_keys_firstByKey f s k).2 (List.count_pos_iff.1 (by omega))
      obtain ⟨x, hx, rfl⟩ := List.mem_map.1 hk
      exact ⟨x, ⟨hx, h2⟩, rfl⟩

/-- C6. Complementarity: with a key extractor `f` that never fails, the results
`us` of `FindUniquesBy`, `ds` of `FindDuplicatesBy` and `rs` of `UniqBy` on the
same input are such that no key of `us` is a key of `ds`, `us` and `ds` are
subsequences of `rs`, every element of `rs` is in `us` or in `ds`, and
`len us + len ds <= len rs` (with equality). -/
theorem FindUniquesBy_FindDuplicatesBy_complementary [DecidableEq U] (s : List T)
    (f : T → U) :
    ∃ us ds rs : List T,
      Id.run (FindUniquesBy s (total (E := E) f)) = (some us, none) ∧
      Id.run (FindDuplicatesBy s (total (E := E) f)) = (some ds, none) ∧
      Id.run (UniqBy s (total (E := E) f)) = (some rs, none) ∧
      (∀ x ∈ us, ∀ y ∈ ds, f x ≠ f y) ∧
      List.Sublist us rs ∧ List.Sublist ds rs ∧
      (∀ x ∈ us, x ∈ rs) ∧ (∀ y ∈ ds, y ∈ rs) ∧
      (∀ x ∈ rs, x ∈ us ∨ x ∈ ds) ∧
      us.length + ds.length ≤ rs.length ∧
      us.length + ds.length = rs.length := by
  have hus := FindUniquesBy_total (E := E) f s
  rw [filter_once_eq_firstByKey_filter] at hus
  have hpos : ∀ x ∈ firstByKey f s, 0 < keyCount f s (f x) := fun x hx =>
    (keyCount_pos_iff f s _).2 (List.mem_map_of_mem f ((firstByKey_sublist f s).subset hx))
  have hlen : ((firstByKey f s).filter (fun x => decide (keyCount f s (f x) = 1))).length +
      ((firstByKey f s).filter (fun x => decide (2 ≤ keyCount f s (f x)))).length =
      (firstByKey f s).length := by
    have hcongr : (firstByKey f s).filter (fun x => decide (2 ≤ keyCount f s (f x))) =
        (firstByKey f s).filter (fun x => !decide (keyCount f s (f x) = 1)) := by
      apply List.filter_congr
      intro x hx
      have := hpos x hx
      by_cases h1 : keyCount f s (f x) = 1
      · simp [h1]
      · have : 2 ≤ keyCount f s (f x) := by omega
        simp [h1, this]
    rw [hcongr]
    have := List.length_eq_length_filter_add (l := firstByKey f s)
      (fun x => decide (keyCount f s (f x) = 1))
    omega
  refine ⟨_, _, _, hus, FindDuplicatesBy_total f s, UniqBy_total f s, ?_,
    List.filter_sublist _, List.filter_sublist _, ?_, ?_, ?_, Nat.le_of_eq hlen, hlen⟩
  · intro x hx y hy hxy
    have h1 : keyCount f s (f x) = 1 := by simpa using (List.mem_filter.1 hx).2
    have h2 : 2 ≤ keyCount f s (f y) := by simpa using (List.mem_filter.1 hy).2
    rw [hxy] at h1
    omega
  · exact fun x hx => (List.mem_filter.1 hx).1
  · exact fun x hx => (List.mem_filter.1 hx).1
  · intro x hx
    have := hpos x hx
    by_cases h1 : keyCount f s (f x) = 1
    · exact Or.inl (List.mem_filter.2 ⟨hx, by simpa using h1⟩)
    · exact Or.inr (List.mem_filter.2 ⟨hx, by simp; omega⟩)

/-- C7. With a key extractor `f` that never fails, `PartitionBy s f` returns,
with a nil error, as many groups as `UniqBy s f` has elements, that is one
group per distinct key of `s`.  Group `j` is made of the elements of `s` whose
key is the key of the `j`-th element of `UniqBy s f`, in their original order;
it is not empty and it is the group of that key in `GroupBy s f`.  The
concatenation of the groups is a permutation of `s`. -/
theorem PartitionBy_groups_in_first_seen_order [DecidableEq K] (s : List T) (f : T → K) :
    ∃ (groups : List (List T)) (rs : List T) (mp : GoMap K (List T)),
      Id.run (PartitionBy s (total (E := E) f)) = (some groups, none) ∧
      Id.run (UniqBy s (total (E := E) f)) = (some rs, none) ∧
      Id.run (GroupBy s (total (E := E) f)) = (some mp, none) ∧
      groups.length = rs.length ∧
      ((rs.map f).Nodup ∧ ∀ x ∈ s, f x ∈ rs.map f) ∧
      (∀ (j : Nat) (hg : j < groups.length) (hr : j < rs.length),
        groups[j] = s.filter (fun z => decide (f z = f rs[j])) ∧
        groups[j] ≠ [] ∧
        GoMap.index mp (f rs[j]) = some groups[j]) ∧
      List.Perm groups.flatten s := by
  obtain ⟨groups, hrun, hgroups, hperm⟩ := PartitionBy_total (E := E) f s
  obtain ⟨mp, hmp, -, hidx, -⟩ := GroupBy_total (E := E) f s
  refine ⟨groups, firstByKey f s, mp, hrun, UniqBy_total f s, hmp, by simp [hgroups],
    ⟨nodup_keys_firstByKey f s, fun x hx =>
      (mem_keys_firstByKey f s _).2 (List.mem_map_of_mem f hx)⟩, ?_, hperm⟩
  intro j hg hr
  have hmem : (firstByKey f s)[j] ∈ s := (firstByKey_sublist f s).subset (List.getElem_mem _)
  have hj : groups[j] = s.filter (fun z => decide (f z = f (firstByKey f s)[j])) := by
    subst hgroups
    simp
  refine ⟨hj, ?_, ?_⟩
  · rw [hj]
    intro hnil
    have := List.filter_eq_nil_iff.1 hnil _ hmem
    simp at this
  · rw [hidx, if_pos (List.mem_map_of_mem f hmem), hj]

/-- C8. With a key extractor `f` that never fails, `GroupBy s f` returns, with
a nil error, a map whose keys are exactly the keys `f x` of the elements `x`
of `s` (each once), in which the group of such a key `k` is the subsequence of
the elements of `s` with key `k` in their original order, which is not empty;
the lengths of the groups add up to `len s`. -/
theorem GroupBy_groups_by_key [DecidableEq U] (s : List T) (f : T → U) :
    ∃ mp : GoMap U (List T),
      Id.run (GroupBy s (total (E := E) f)) = (some mp, none) ∧
      (mp.map Prod.fst).Nodup ∧
      (∀ k, k ∈ mp.map Prod.fst ↔ ∃ x ∈ s, f x = k) ∧
      (∀ x ∈ s, GoMap.index mp (f x) = some (s.filter (fun z => decide (f z = f x)))) ∧
      (∀ k, (∀ x ∈ s, f x ≠ k) → GoMap.index mp k = none) ∧
      (∀ k g, (k, g) ∈ mp →
        g = s.filter (fun z => decide (f z = k)) ∧ g ≠ [] ∧ List.Sublist g s) ∧
      (mp.map (fun en => en.2.length)).sum = s.length := by
  obtain ⟨mp, hmp, hnd, hidx, hsum⟩ := GroupBy_total (E := E) f s
  have hnone : ∀ k, (∀ x ∈ s, f x ≠ k) → GoMap.index mp k = none := by
    intro k hk
    rw [hidx, if_neg]
    simpa using hk
  have hkeys : ∀ k, k ∈ mp.map Prod.fst ↔ ∃ x ∈ s, f x = k := by
    intro k
    constructor
    · intro hk
      by_contra hc
      have := hnone k (by simpa using hc)
      exact ((GoMap.index_eq_none_iff mp k).1 this) hk
    · rintro ⟨x, hx, rfl⟩
      by_contra hc
      have := (GoMap.index_eq_none_iff mp (f x)).2 hc
      rw [hidx, if_pos (List.mem_map_of_mem f hx)] at this
      cases this
  refine ⟨mp, hmp, hnd, hkeys, ?_, hnone, ?_, hsum⟩
  · intro x hx
    rw [hidx, if_pos (List.mem_map_of_mem f hx)]
  · intro k g hkg
    obtain ⟨x, hx, rfl⟩ := (hkeys k).1 (List.mem_map_of_mem Prod.fst hkg)
    have h1 := GoMap.index_of_mem mp hnd _ _ hkg
    rw [hidx, if_pos (List.mem_map_of_mem f hx)] at h1
    have hg : g = s.filter (fun z => decide (f z = f x)) := (Option.some.inj h1).symm
    refine ⟨hg, ?_, hg ▸ List.filter_sublist _⟩
    rw [hg]
    intro hnil
    have := List.filter_eq_nil_iff.1 hnil _ hx
    simp at this

/-- C9. When the transform `t` fails on no element of `s` (given with its
index), `Map s t` returns a nil error and a slice of the length of `s` whose
element `i` is `t s[i] i`. -/
theorem Map_applies_transform_at_each_index [Inhabited R] (s : List T)
    (t : T → Int → R × Option E)
    (ht : ∀ (i : Nat) (h : i < s.length), (t s[i] (i : Int)).2 = none) :
    ∃ result : List R, Id.run (Map s t) = (some result, none) ∧
      result.length = s.length ∧
      ∀ (i : Nat) (h : i < s.length) (hr : i < result.length),
        result[i] = (t s[i] (i : Int)).1 := by
  obtain ⟨out, hout, hl, -, hge⟩ := Map_loop_pure t s 0 (List.replicate s.length (empty R))
    (by simp) (by simpa using ht)
  refine ⟨out, hout, by simpa using hl, ?_⟩
  intro i h hr
  have := hge i h
  rw [Nat.zero_add, List.getElem?_eq_getElem hr] at this
  simpa using this

/-- Witness of C9: `Map [1, 2, 3] double`, which is `[2, 4, 6]` with a nil
error. -/
theorem Map_applies_transform_witness :
    (∀ (i : Nat) (h : i < [(1 : Int), 2, 3].length),
      (double [(1 : Int), 2, 3][i] (i : Int)).2 = none) ∧
    (∃ result : List Int, Id.run (Map [1, 2, 3] double) = (some result, none) ∧
      result.length = [(1 : Int), 2, 3].length ∧
      ∀ (i : Nat) (h : i < [(1 : Int), 2, 3].length) (hr : i < result.length),
        result[i] = (double [(1 : Int), 2, 3][i] (i : Int)).1) ∧
    Id.run (Map [1, 2, 3] double) = (some [2, 4, 6], none) :=
  ⟨fun _ _ => rfl, Map_applies_transform_at_each_index [1, 2, 3] double (fun _ _ => rfl), rfl⟩

/-- C10. When the predicate `p` fails on no element of `s` (given with its
index), `Filter s p` returns, with a nil error, the subsequence of `s` made of
the elements `s[i]` such that `p s[i] i` is true, in their original order: the
index that `p` receives is the position in `s`, not the position in the
result. -/
theorem Filter_keeps_elements_satisfying_predicate (s : List V) (p : V → Int → Bool × Option E)
    (hp : ∀ (i : Nat) (h : i < s.length), (p s[i] (i : Int)).2 = none) :
    Id.run (Filter s p) = (some (pick (fun i x => (p x (i : Int)).1) s), none) ∧
    List.Sublist (pick (fun i x => (p x (i : Int)).1) s) s ∧
    (∀ x, x ∈ pick (fun i x => (p x (i : Int)).1) s ↔
      ∃ (i : Nat) (h : i < s.length), s[i] = x ∧ (p s[i] (i : Int)).1 = true) := by
  refine ⟨?_, pick_sublist _ _, mem_pick_val (fun y i => (p y i).1) s⟩
  have := Filter_loop_pure p s 0 [] (by
    have := (List.forall_mem_enum (l := s) (p := fun q => (p q.2 (q.1 : Int)).2 = none)).2 hp
    simpa [List.enum] using this)
  simpa [Filter, pick, List.enum] using this

/-- Witness of C10: an index-sensitive predicate on `[5, 6, 7, 8]` that keeps
the elements at even positions. -/
theorem Filter_keeps_elements_witness :
    (∀ (i : Nat) (h : i < [(5 : Int), 6, 7, 8].length),
      ((fun (_ : Int) (j : Int) => ((decide (j % 2 = 0), none) : Bool × Option String))
        [(5 : Int), 6, 7, 8][i] (i : Int)).2 = none) ∧
    Id.run (Filter [(5 : Int), 6, 7, 8]
      (fun (_ : Int) (j : Int) => ((decide (j % 2 = 0), none) : Bool × Option String))) =
      (some [5, 7], none) :=
  ⟨fun _ _ => rfl,
    (Filter_keeps_elements_satisfying_predicate [(5 : Int), 6, 7, 8]
      (fun (_ : Int) (j : Int) => ((decide (j % 2 = 0), none) : Bool × Option String))
      (fun _ _ => rfl)).1.trans rfl⟩

/-- C11. For a predicate `p` that does not fail before its first true result:
when `i` is the least index at which `p` is true, `Find s p` is
`(s[i], true, nil)` and `FindOrElse` returns `s[i]` too; when `p` is false on
every element (so also on the empty sequence), `Find s p` is
`(zero value, false, nil)` and `FindOrElse` returns its fallback unchanged.
`Find [1, 2, 3] isEven` is `(2, true, nil)` and `Find [1, 3, 5] isEven` is
`(0, false, nil)`. -/
theorem Find_returns_first_match [Inhabited T] (s : List T) (p : T → Bool × Option E) :
    (∀ (i : Nat) (h : i < s.length), p s[i] = (true, none) →
      (∀ (j : Nat) (_ : j < i) (hjs : j < s.length), p s[j] = (false, none)) →
      Id.run (Find s p) = (s[i], true, none) ∧
      ∀ fallback : T, Id.run (FindOrElse s fallback p) = (s[i], none)) ∧
    ((∀ x ∈ s, p x = (false, none)) →
      Id.run (Find s p) = (empty T, false, none) ∧
      ∀ fallback : T, Id.run (FindOrElse s fallback p) = (fallback, none)) ∧
    (Id.run (Find ([] : List T) p) = (empty T, false, none) ∧
      ∀ fallback : T, Id.run (FindOrElse ([] : List T) fallback p) = (fallback, none)) ∧
    Id.run (Find [1, 2, 3] isEven) = (2, true, none) ∧
    Id.run (Find [1, 3, 5] isEven) = (0, false, none) := by
  refine ⟨?_, ?_, ⟨rfl, fun _ => rfl⟩, rfl, rfl⟩
  · intro i h hi hlt
    have hs := eq_take_append_getElem_cons_drop s i h
    have hpre := forall_mem_take_of_forall_lt (P := fun y => p y = (false, none)) s i hlt
    constructor
    · conv_lhs => rw [hs]
      exact Find_found p _ _ _ hpre hi
    · intro fallback
      conv_lhs => rw [hs]
      exact FindOrElse_found p _ _ _ fallback hpre hi
  · intro hs
    exact ⟨Find_not_found p s hs, fun fallback => FindOrElse_not_found p s fallback hs⟩

/-- Witness of C11: in `[1, 2, 3]` the least index at which `isEven` is true
is 1. -/
theorem Find_first_match_witness :
    Id.run (Find [1, 2, 3] isEven) = (2, true, none) ∧
    (∀ fallback : Int, Id.run (FindOrElse [1, 2, 3] fallback isEven) = (2, none)) ∧
    Id.run (Find [1, 3, 5] isEven) = (0, false, none) ∧
    Id.run (FindOrElse [1, 3, 5] 7 isEven) = (7, none) :=
  ⟨((Find_returns_first_match [1, 2, 3] isEven).1 1 (by decide) (by decide)
      (fun j hj _ => by
        have : j = 0 := by omega
        subst this; rfl)).1,
    ((Find_returns_first_match [1, 2, 3] isEven).1 1 (by decide) (by decide)
      (fun j hj _ => by
        have : j = 0 := by omega
        subst this; rfl)).2,
    ((Find_returns_first_match [1, 3, 5] isEven).2.1 (by decide)).1,
    ((Find_returns_first_match [1, 3, 5] isEven).2.1 (by decide)).2 7⟩

/-- C12. For a predicate `p` that never fails: when `i` is the least index at
which `p` holds, `FindIndexOf s p` is `(s[i], i, true, nil)`; when `j` is the
greatest such index, `FindLastIndexOf s p` is `(s[j], j, true, nil)`; when `p`
holds of no element both are `(zero value, -1, false, nil)`.  An index
returned with `found = true` is at least 0 and less than `len s`.  The
element and the found flag of `FindIndexOf` are those of `Find`. -/
theorem FindIndexOf_FindLastIndexOf_return_extreme_match [Inhabited T] (s : List T)
    (p : T → Bool) :
    (∀ (i : Nat) (h : i < s.length), p s[i] = true →
      (∀ (j : Nat) (_ : j < i) (hjs : j < s.length), p s[j] = false) →
      Id.run (FindIndexOf s (total (E := E) p)) = (s[i], (i : Int), true, none)) ∧
    (∀ (j : Nat) (h : j < s.length), p s[j] = true →
      (∀ (l : Nat) (_ : j < l) (hls : l < s.length), p s[l] = false) →
      Id.run (FindLastIndexOf s (total (E := E) p)) = (s[j], (j : Int), true, none)) ∧
    ((∀ x ∈ s, p x = false) →
      Id.run (FindIndexOf s (total (E := E) p)) = (empty T, -1, false, none) ∧
      Id.run (FindLastIndexOf s (total (E := E) p)) = (empty T, -1, false, none)) ∧
    ((Id.run (FindIndexOf s (total (E := E) p))).2.2.1 = true →
      0 ≤ (Id.run (FindIndexOf s (total (E := E) p))).2.1 ∧
      (Id.run (FindIndexOf s (total (E := E) p))).2.1 < (s.length : Int)) ∧
    ((Id.run (FindLastIndexOf s (total (E := E) p))).2.2.1 = true →
      0 ≤ (Id.run (FindLastIndexOf s (total (E := E) p))).2.1 ∧
      (Id.run (FindLastIndexOf s (total (E := E) p))).2.1 < (s.length : Int)) ∧
    (Id.run (FindIndexOf s (total (E := E) p))).1 = (Id.run (Find s (total (E := E) p))).1 ∧
    (Id.run (FindIndexOf s (total (E := E) p))).2.2.1 =
      (Id.run (Find s (total (E := E) p))).2.1 := by
  have hfalse : ∀ y, p y = false → total (E := E) p y = (false, none) := by
    intro y hy; simp [total, hy]
  have htrue : ∀ y, p y = true → total (E := E) p y = (true, none) := by
    intro y hy; simp [total, hy]
  refine ⟨?_, ?_, ?_, ?_, ?_, ?_, ?_⟩
  · intro i h hi hlt
    have hs := eq_take_append_getElem_cons_drop s i h
    have hpre := forall_mem_take_of_forall_lt (P := fun y => total (E := E) p y = (false, none))
      s i (fun j hj hjs => hfalse _ (hlt j hj hjs))
    have := FindIndexOf_loop_found (total (E := E) p) (s.take i) (s.drop (i + 1)) s[i] 0 hpre
      (htrue _ hi)
    rw [← hs] at this
    have hlen : (s.take i).length = i := by simp; omega
    simpa [FindIndexOf, hlen] using this
  · intro j h hj hgt
    have hs := eq_take_append_getElem_cons_drop s j h
    have hpost := forall_mem_drop_of_forall_gt
      (P := fun y => total (E := E) p y = (false, none)) s j
      (fun l hl hls => hfalse _ (hgt l hl hls))
    have hlen : (s.take j).length = j := by simp; omega
    have := FindLastIndexOf_found (total (E := E) p) (s.take j) (s.drop (j + 1)) s[j]
      hpost (htrue _ hj)
    rw [← hs, hlen] at this
    exact this
  · intro hs
    exact ⟨FindIndexOf_loop_not_found _ s 0 (fun y hy => hfalse y (hs y hy)),
      FindLastIndexOf_loop_not_found _ s _ _ (fun y hy => hfalse y (hs y hy))⟩
  · intro hf
    have := FindIndexOf_loop_range (total (E := E) p) s 0 hf
    simpa [FindIndexOf] using this
  · intro hf
    exact FindLastIndexOf_loop_range (total (E := E) p) s _ _ hf
  · exact (FindIndexOf_loop_eq_Find (total (E := E) p) s 0).1
  · exact congrArg Prod.fst (FindIndexOf_loop_eq_Find (total (E := E) p) s 0).2

/-- Witness of C12 on `[1, 2, 3, 4, 5]` with "is even": the least index is 1
and the greatest is 3. -/
theorem FindIndexOf_FindLastIndexOf_witness :
    Id.run (FindIndexOf [1, 2, 3, 4, 5] (total (E := String) (fun x : Int => decide (x % 2 = 0))))
      = (2, 1, true, none) ∧
    Id.run (FindLastIndexOf [1, 2, 3, 4, 5]
      (total (E := String) (fun x : Int => decide (x % 2 = 0)))) = (4, 3, true, none) :=
  ⟨(FindIndexOf_FindLastIndexOf_return_extreme_match (E := String) [1, 2, 3, 4, 5]
      (fun x : Int => decide (x % 2 = 0))).1 1 (by decide) (by decide)
      (fun j hj _ => by
        have : j = 0 := by omega
        subst this; rfl),
    (FindIndexOf_FindLastIndexOf_return_extreme_match (E := String) [1, 2, 3, 4, 5]
      (fun x : Int => decide (x % 2 = 0))).2.1 3 (by decide) (by decide)
      (fun l hl hls => by
        have : l = 4 := by simp at hls; omega
        subst this; rfl)⟩

/-- C13. For an accumulator `g` that never fails, `Reduce s g a` is the fold of
`s` from the left, `g (... (g (g a s[0] 0) s[1] 1) ...) s[n-1] (n-1)`, and
`ReduceRight s g a` the fold from the right,
`g (... (g (g a s[n-1] (n-1)) s[n-2] (n-2)) ...) s[0] 0`: every element comes
with its position in `s`.  Both return `a` on the empty sequence.
`ReduceRight s g a` is `Reduce (reverse s) g' a` with
`g' acc x i = g acc x (n - 1 - i)`, also for a callback that fails.  On
`[10, 20, 30]`, collecting the pairs visited, the passes see
`(10, 0), (20, 1), (30, 2)` and `(30, 2), (20, 1), (10, 0)`. -/
theorem Reduce_ReduceRight_are_indexed_folds [Inhabited R] (s : List T) (g : R → T → Int → R)
    (a : R) :
    Id.run (Reduce s (total3 (E := E) g) a) =
      (s.enum.foldl (fun acc q => g acc q.2 (q.1 : Int)) a, none) ∧
    Id.run (ReduceRight s (total3 (E := E) g) a) =
      (s.enum.foldr (fun q acc => g acc q.2 (q.1 : Int)) a, none) ∧
    Id.run (Reduce ([] : List T) (total3 (E := E) g) a) = (a, none) ∧
    Id.run (ReduceRight ([] : List T) (total3 (E := E) g) a) = (a, none) ∧
    Id.run (ReduceRight s (total3 (E := E) g) a) =
      Id.run (Reduce s.reverse
        (total3 (E := E) (fun acc x i => g acc x ((s.length : Int) - 1 - i))) a) ∧
    (∀ G : R → T → Int → R × Option E,
      Id.run (ReduceRight s G a) =
        Id.run (Reduce s.reverse (fun acc x i => G acc x ((s.length : Int) - 1 - i)) a)) ∧
    Id.run (Reduce [10, 20, 30]
      (total3 (E := E) (fun (acc : List (Int × Int)) (x : Int) (i : Int) => acc ++ [(x, i)]))
      []) = ([(10, 0), (20, 1), (30, 2)], none) ∧
    Id.run (ReduceRight [10, 20, 30]
      (total3 (E := E) (fun (acc : List (Int × Int)) (x : Int) (i : Int) => acc ++ [(x, i)]))
      []) = ([(30, 2), (20, 1), (10, 0)], none) := by
  refine ⟨?_, ?_, rfl, rfl, ?_, ?_, rfl, rfl⟩
  · exact Reduce_loop_total g s 0 a
  · have := ReduceRight_loop_total (E := E) g s s.length (Nat.le_refl _) a
    rw [List.take_length] at this
    exact this
  · exact congrArg Id.run (ReduceRight_eq_Reduce_reverse (total3 (E := E) g) s a)
  · intro G
    exact congrArg Id.run (ReduceRight_eq_Reduce_reverse (m := Id) G s a)

/-- C14. For a predicate `p` that never fails, `DropWhile s p` is the suffix
of `s` that starts at the first element of which `p` is false: the longest
prefix of elements satisfying `p` is removed and nothing else (the result is
empty when all satisfy `p`).  `DropRightWhile s p` is the prefix of `s` that
ends at the last element of which `p` is false, that is
`reverse (DropWhile (reverse s) p)`.  The predicate is evaluated on the
elements up to the first one of which it is false, from the left for
`DropWhile` and from the right for `DropRightWhile`, and on no other.  On
`[1, 2, 3, 1, 2]` with "less than 3" the results are `[3, 1, 2]` and
`[1, 2, 3]`, and the elements visited `1, 2, 3` and `2, 1, 3`. -/
theorem DropWhile_DropRightWhile_drop_longest_run (s : List T) (p : T → Bool) :
    Id.run (DropWhile s (total (E := E) p)) = (some (s.dropWhile p), none) ∧
    (s.takeWhile p ++ s.dropWhile p = s ∧ (∀ x ∈ s.takeWhile p, p x = true) ∧
      ∀ x, (s.dropWhile p).head? = some x → p x = false) ∧
    ((∀ x ∈ s, p x = true) → Id.run (DropWhile s (total (E := E) p)) = (some [], none)) ∧
    Id.run (DropRightWhile s (total (E := E) p)) =
      (some (s.reverse.dropWhile p).reverse, none) ∧
    (Id.run (DropRightWhile s (total (E := E) p))).1 =
      (Id.run (DropWhile s.reverse (total (E := E) p))).1.map List.reverse ∧
    runFrom (DropWhile s (traced (fun x => ((p x, none) : Bool × Option E)))) [] =
      ((some (s.dropWhile p), none), s.take ((s.takeWhile p).length + 1)) ∧
    runFrom (DropRightWhile s (traced (fun x => ((p x, none) : Bool × Option E)))) [] =
      ((some (s.reverse.dropWhile p).reverse, none),
        s.reverse.take ((s.reverse.takeWhile p).length + 1)) ∧
    runFrom (DropWhile [1, 2, 3, 1, 2]
      (traced (fun x : Int => ((decide (x < 3), none) : Bool × Option E)))) [] =
      ((some [3, 1, 2], none), [1, 2, 3]) ∧
    runFrom (DropRightWhile [1, 2, 3, 1, 2]
      (traced (fun x : Int => ((decide (x < 3), none) : Bool × Option E)))) [] =
      ((some [1, 2, 3], none), [2, 1, 3]) := by
  refine ⟨DropWhile_total p s, ⟨List.takeWhile_append_dropWhile p s,
    fun x hx => List.mem_takeWhile_imp hx, ?_⟩, ?_, DropRightWhile_total p s, ?_, ?_, ?_,
    rfl, rfl⟩
  · intro x hx
    have := List.head?_dropWhile_not p s
    rw [hx] at this
    exact this
  · intro hall
    rw [DropWhile_total]
    have : s.dropWhile p = [] := by
      rw [List.dropWhile_eq_nil_iff]
      exact hall
    rw [this]
  · rw [DropRightWhile_total, DropWhile_total]
    rfl
  · simp only [DropWhile, runFrom_bind, DropWhile_loop_trace_total, Nat.zero_add,
      drop_length_takeWhile, List.nil_append]
    rfl
  · simp only [DropRightWhile, runFrom_bind, DropRightWhile_loop_trace_total,
      List.take_length, take_length_dropWhile_reverse, List.nil_append]
    rfl

/-- C15. Last write wins.  With a callback that never fails, `KeyBy s f` returns
a map whose keys are exactly the keys `f x` of the elements of `s` and in
which a key `k` is mapped to the last element of `s` with key `k`;
`Associate s t` returns a map whose keys are exactly the keys produced by `t`
and in which a key `k` is mapped to the value of the last pair of key `k`.
The error is nil whatever the collisions.  `SliceToMap` is `Associate`, for
every input and every callback. -/
theorem KeyBy_Associate_last_write_wins [DecidableEq K] (s : List T) (f : T → K)
    (t : T → K × V) :
    (∃ mp : GoMap K T, Id.run (KeyBy s (total (E := E) f)) = (some mp, none) ∧
      (mp.map Prod.fst).Nodup ∧
      (∀ k, k ∈ mp.map Prod.fst ↔ ∃ x ∈ s, f x = k) ∧
      (∀ k, GoMap.index mp k = s.reverse.find? (fun x => decide (f x = k))) ∧
      (∀ (pre post : List T) (x : T), s = pre ++ x :: post → (∀ y ∈ post, f y ≠ f x) →
        GoMap.index mp (f x) = some x)) ∧
    (∃ mp : GoMap K V, Id.run (Associate s (totalPair (E := E) t)) = (some mp, none) ∧
      (mp.map Prod.fst).Nodup ∧
      (∀ k, k ∈ mp.map Prod.fst ↔ ∃ x ∈ s, (t x).1 = k) ∧
      (∀ k, GoMap.index mp k =
        ((s.map t).reverse.find? (fun en => decide (en.1 = k))).map Prod.snd) ∧
      (∀ (pre post : List T) (x : T), s = pre ++ x :: post →
        (∀ y ∈ post, (t y).1 ≠ (t x).1) → GoMap.index mp (t x).1 = some (t x).2)) ∧
    (∀ (m : Type → Type) [Monad m] (cb : T → m (K × V × Option E)),
      SliceToMap s cb = Associate s cb) := by
  refine ⟨?_, ?_, fun _ _ _ => rfl⟩
  · obtain ⟨mp, hrun, hnd, hidx⟩ := KeyBy_loop_total (E := E) f s [] [] (by simp)
      (by simp [GoMap.index])
    simp only [List.nil_append] at hidx
    refine ⟨mp, hrun, hnd, ?_, hidx, ?_⟩
    · intro k
      rw [GoMap.mem_keys_iff_index_isSome, hidx]
      constructor
      · rintro ⟨v, hv⟩
        have h1 := List.find?_some hv
        have h2 := List.mem_of_find?_eq_some hv
        exact ⟨v, List.mem_reverse.1 h2, by simpa using h1⟩
      · rintro ⟨x, hx, hk⟩
        cases h : s.reverse.find? (fun x => decide (f x = k)) with
        | none =>
          have := List.find?_eq_none.1 h x (List.mem_reverse.2 hx)
          simp [hk] at this
        | some v => exact ⟨v, rfl⟩
    · intro pre post x hs hpost
      rw [hidx, hs]
      exact find?_reverse_last _ pre post x (by simp) (fun y hy => by simp [hpost y hy])
  · obtain ⟨mp, hrun, hnd, hidx⟩ := Associate_loop_total (E := E) t s [] [] (by simp)
      (by simp [GoMap.index])
    simp only [List.nil_append] at hidx
    refine ⟨mp, hrun, hnd, ?_, hidx, ?_⟩
    · intro k
      rw [GoMap.mem_keys_iff_index_isSome, hidx]
      constructor
      · rintro ⟨v, hv⟩
        cases h : (s.map t).reverse.find? (fun en => decide (en.1 = k)) with
        | none => rw [h] at hv; cases hv
        | some en =>
          have h1 := List.find?_some h
          have h2 := List.mem_reverse.1 (List.mem_of_find?_eq_some h)
          obtain ⟨x, hx, rfl⟩ := List.mem_map.1 h2
          exact ⟨x, hx, by simpa using h1⟩
      · rintro ⟨x, hx, hk⟩
        cases h : (s.map t).reverse.find? (fun en => decide (en.1 = k)) with
        | none =>
          have := List.find?_eq_none.1 h (t x) (List.mem_reverse.2 (List.mem_map_of_mem t hx))
          simp [hk] at this
        | some en => exact ⟨en.2, rfl⟩
    · intro pre post x hs hpost
      rw [hidx, hs, List.map_append, List.map_cons,
        find?_reverse_last _ (pre.map t) (post.map t) (t x) (by simp)
          (fun en hen => by
            obtain ⟨y, hy, rfl⟩ := List.mem_map.1 hen
            simp [hpost y hy])]
      rfl

/-- C16. When `p` fails on no element of `s`, `CountBy s p` returns a nil error
and the number `c` of elements (counted with their positions) of which `p` is
true: `0 <= c <= len s`, and `c` is the length of `Filter s p` with `p`
ignoring the index.  When `p` fails, first on `x` with the error `e`,
`CountBy s p` returns `(-1, e)`.  So the count returned is `-1` exactly when
an invocation of `p` fails. -/
theorem CountBy_counts_or_returns_minus_one (s : List T) (p : T → Bool × Option E) :
    ((∀ x ∈ s, (p x).2 = none) →
      Id.run (CountBy s p) = (((s.countP (fun x => (p x).1) : Nat) : Int), none) ∧
      0 ≤ (Id.run (CountBy s p)).1 ∧ (Id.run (CountBy s p)).1 ≤ (s.length : Int) ∧
      ∃ kept : List T, Id.run (Filter s (fun x _ => p x)) = (some kept, none) ∧
        (Id.run (CountBy s p)).1 = (kept.length : Int)) ∧
    (∀ (pre post : List T) (x : T) (e : E), s = pre ++ x :: post →
      (∀ y ∈ pre, (p y).2 = none) → (p x).2 = some e →
      Id.run (CountBy s p) = (-1, some e)) ∧
    ((Id.run (CountBy s p)).1 = -1 ↔ ∃ x ∈ s, (p x).2 ≠ none) := by
  refine ⟨?_, ?_, CountBy_loop_minus_one_iff p s 0 (Int.le_refl 0)⟩
  · intro hp
    have hrun : Id.run (CountBy s p) = (((s.countP (fun x => (p x).1) : Nat) : Int), none) := by
      have := CountBy_loop_ok p s 0 hp
      simpa [CountBy] using this
    have hle : s.countP (fun x => (p x).1) ≤ s.length := List.countP_le_length _
    refine ⟨hrun, ?_, ?_, s.filter (fun x => (p x).1), Filter_ignoring_index p s hp, ?_⟩
    · rw [hrun]; exact Int.ofNat_nonneg _
    · rw [hrun]; exact Int.ofNat_le.2 hle
    · rw [hrun, List.countP_eq_length_filter]
  · intro pre post x e hs hpre hx
    rw [hs]
    exact CountBy_loop_fail p pre post x e 0 hpre hx

/-- Witness of C16: three of `[1, 2, 3, 4, 6]` are even; with a predicate that
fails on 3 the result is `(-1, "boom")`. -/
theorem CountBy_witness :
    Id.run (CountBy [1, 2, 3, 4, 6] isEven) = (3, none) ∧
    Id.run (CountBy [1, 2, 3, 4, 6] failsOnThree) = (-1, some "boom") :=
  ⟨((CountBy_counts_or_returns_minus_one [1, 2, 3, 4, 6] isEven).1 (by decide)).1.trans rfl,
    (CountBy_counts_or_returns_minus_one [1, 2, 3, 4, 6] failsOnThree).2.1 [1, 2] [4, 6] 3
      "boom" rfl (by decide) rfl⟩

/-- C17. For a predicate `p` that never fails, `ContainsBy s p` and `SomeBy s p`
return the same result, true exactly when some element of `s` satisfies `p`;
`EveryBy s p` is true exactly when every element does, and `NoneBy s p`
exactly when none does.  So `NoneBy s p = not (SomeBy s p)` and
`EveryBy s p = NoneBy s (not p)`.  On the empty sequence `EveryBy` and
`NoneBy` return true, `SomeBy` and `ContainsBy` false.  `ContainsBy` and
`SomeBy` agree, result and error, for every callback, failing or not. -/
theorem By_predicates_are_quantifiers (s : List T) (p : T → Bool) :
    (Id.run (ContainsBy s (total (E := E) p)) = Id.run (SomeBy s (total (E := E) p)) ∧
      Id.run (SomeBy s (total (E := E) p)) = (s.any p, none) ∧
      Id.run (EveryBy s (total (E := E) p)) = (s.all p, none) ∧
      Id.run (NoneBy s (total (E := E) p)) = (!s.any p, none)) ∧
    (((Id.run (SomeBy s (total (E := E) p))).1 = true ↔ ∃ x ∈ s, p x = true) ∧
      ((Id.run (ContainsBy s (total (E := E) p))).1 = true ↔ ∃ x ∈ s, p x = true) ∧
      ((Id.run (EveryBy s (total (E := E) p))).1 = true ↔ ∀ x ∈ s, p x = true) ∧
      ((Id.run (NoneBy s (total (E := E) p))).1 = true ↔ ∀ x ∈ s, p x = false)) ∧
    ((Id.run (NoneBy s (total (E := E) p))).1 = !(Id.run (SomeBy s (total (E := E) p))).1 ∧
      Id.run (EveryBy s (total (E := E) p)) =
        Id.run (NoneBy s (total (E := E) (fun x => !p x)))) ∧
    (Id.run (EveryBy ([] : List T) (total (E := E) p)) = (true, none) ∧
      Id.run (NoneBy ([] : List T) (total (E := E) p)) = (true, none) ∧
      Id.run (SomeBy ([] : List T) (total (E := E) p)) = (false, none) ∧
      Id.run (ContainsBy ([] : List T) (total (E := E) p)) = (false, none)) ∧
    (∀ (m : Type → Type) [Monad m] (cb : T → m (Bool × Option E)),
      ContainsBy s cb = SomeBy s cb) := by
  have hS := SomeBy_total (E := E) p s
  have hE := EveryBy_total (E := E) p s
  have hN := NoneBy_total (E := E) p s
  have hC : ContainsBy s (total (E := E) p) = (s.any p, none) :=
    (ContainsBy_eq_SomeBy s _).trans hS
  refine ⟨⟨congrArg Id.run (ContainsBy_eq_SomeBy s _), hS, hE, hN⟩, ⟨?_, ?_, ?_, ?_⟩, ⟨?_, ?_⟩,
    ⟨rfl, rfl, rfl, rfl⟩, fun m _ cb => ContainsBy_eq_SomeBy s cb⟩
  · simp [Id.run, hS]
  · simp [Id.run, hC]
  · simp [Id.run, hE]
  · simp [Id.run, hN]
  · simp [Id.run, hN, hS]
  · simp only [Id.run, hE, NoneBy_total]
    congr 1
    exact List.all_eq_not_any_not s p

/-- C18. For a count `N` (a natural number) and a generator `g`: when `g` fails
on none of `0, ..., N - 1`, `Times N g` returns a nil error and a slice of
length `N` whose element `i` is `g i`, and `RepeatBy N g` returns the same;
when `g` fails, first at the index `k` with the error `e`, both return
`(nil, e)`.  `Times` and `RepeatBy` are equal on every input, for every
callback. -/
theorem Times_RepeatBy_generate_the_same [Inhabited T] (count : Nat)
    (g : Int → T × Option E) :
    ((∀ (i : Nat), i < count → (g (i : Int)).2 = none) →
      ∃ result : List T, Id.run (Times count g) = (some result, none) ∧
        Id.run (RepeatBy count g) = (some result, none) ∧
        result.length = count ∧
        ∀ (i : Nat) (_ : i < count) (hr : i < result.length), result[i] = (g (i : Int)).1) ∧
    (∀ (k : Nat) (e : E), k < count → (∀ (i : Nat), i < k → (g (i : Int)).2 = none) →
      (g (k : Int)).2 = some e →
      Id.run (Times count g) = (none, some e) ∧ Id.run (RepeatBy count g) = (none, some e)) ∧
    Id.run (Times count g) = Id.run (RepeatBy count g) ∧
    (∀ (m : Type → Type) [Monad m] (cb : Int → m (T × Option E)),
      Times count cb = RepeatBy count cb) := by
  have heq : Id.run (Times count g) = Id.run (RepeatBy count g) :=
    congrArg Id.run (Times_eq_RepeatBy (m := Id) count g)
  refine ⟨?_, ?_, heq, fun m _ cb => Times_eq_RepeatBy count cb⟩
  · intro hg
    have hR : Id.run (RepeatBy count g) =
        (some ((List.range count).map (fun (j : Nat) => (g (j : Int)).1)), none) := by
      have := RepeatBy_loop_ok g count 0 [] (by simpa using hg)
      simpa [RepeatBy] using this
    refine ⟨_, heq.trans hR, hR, by simp, ?_⟩
    intro i hi hr
    simp
  · intro k e hk hg he
    have hR : Id.run (RepeatBy count g) = (none, some e) :=
      RepeatBy_loop_fail g count 0 k e [] hk (by simpa using hg) (by simpa using he)
    exact ⟨heq.trans hR, hR⟩

/-- Witness of C18: the squares of `0, 1, 2, 3`, and a generator that fails at
the index 2. -/
theorem Times_RepeatBy_witness :
    Id.run (Times 4 (fun i : Int => ((i * i, none) : Int × Option String))) =
      (some [0, 1, 4, 9], none) ∧
    Id.run (RepeatBy 4 (fun i : Int => ((i * i, none) : Int × Option String))) =
      (some [0, 1, 4, 9], none) ∧
    Id.run (Times 4 (fun i : Int => ((i, if i = 2 then some "boom" else none) :
      Int × Option String))) = (none, some "boom") ∧
    Id.run (RepeatBy 4 (fun i : Int => ((i, if i = 2 then some "boom" else none) :
      Int × Option String))) = (none, some "boom") :=
  ⟨rfl, rfl,
    ((Times_RepeatBy_generate_the_same 4
      (fun i : Int => ((i, if i = 2 then some "boom" else none) : Int × Option String))).2.1
      2 "boom" (by decide) (by decide) rfl).1,
    ((Times_RepeatBy_generate_the_same 4
      (fun i : Int => ((i, if i = 2 then some "boom" else none) : Int × Option String))).2.1
      2 "boom" (by decide) (by decide) rfl).2⟩

/-- C19. With a predicate that is true, without error, of every element and
index, `Filter s p` is a sequence equal to `s` and `Reject s p` is the empty
sequence.  For every predicate `q` that never fails, `Reject s q` is
`Filter s (not q)` and `len (Filter s q) + len (Reject s q) = len s`. -/
theorem Filter_Reject_partition_the_input (s : List V) (q : V → Int → Bool) :
    ((∀ (i : Nat) (h : i < s.length), q s[i] (i : Int) = true) →
      Id.run (Filter s (total2 (E := E) q)) = (some s, none) ∧
      Id.run (Reject s (total2 (E := E) q)) = (some [], none)) ∧
    (Id.run (Filter s (total2 (E := E) (fun _ _ => true))) = (some s, none) ∧
      Id.run (Reject s (total2 (E := E) (fun _ _ => true))) = (some [], none)) ∧
    Id.run (Reject s (total2 (E := E) q)) =
      Id.run (Filter s (total2 (E := E) (fun x i => !q x i))) ∧
    (∃ kept rejected : List V,
      Id.run (Filter s (total2 (E := E) q)) = (some kept, none) ∧
      Id.run (Reject s (total2 (E := E) q)) = (some rejected, none) ∧
      kept.length + rejected.length = s.length) := by
  refine ⟨?_, ⟨?_, ?_⟩, ?_, ?_⟩
  · intro hq
    rw [Filter_total2, Reject_total2]
    have h1 : pick (fun i x => q x (i : Int)) s = pick (fun _ _ => true) s :=
      pick_congr _ _ s (fun i hi => hq i hi)
    have h2 : pick (fun i x => !q x (i : Int)) s = pick (fun _ _ => false) s :=
      pick_congr _ _ s (fun i hi => by simp [hq i hi])
    rw [h1, h2, pick_true, pick_false]
    exact ⟨rfl, rfl⟩
  · rw [Filter_total2, pick_true]
  · rw [Reject_total2]
    have : pick (fun (_ : Nat) (_ : V) => !true) s = pick (fun _ _ => false) s := rfl
    rw [this, pick_false]
  · rw [Reject_total2, Filter_total2]
  · exact ⟨_, _, Filter_total2 q s, Reject_total2 q s, length_pick_add_length_pick_not _ s⟩

/-- Witness of C19 on `[3, 0, 5]`: `nonNegative` is true of every element. -/
theorem Filter_Reject_witness :
    Id.run (Filter [3, 0, 5] nonNegative) = (some [3, 0, 5], none) ∧
    Id.run (Reject [3, 0, 5] nonNegative) = (some [], none) :=
  (Filter_Reject_partition_the_input (E := String) [3, 0, 5]
    (fun (x : Int) (_ : Int) => decide (0 ≤ x))).1
    (fun i hi => by
      have hi3 : i < 3 := hi
      interval_cases i <;> rfl)

/-- C20. For a map `inp` (its keys pairwise distinct) and a transform `t` that
never fails, `MapValues inp t` returns a nil error and a map with the keys of
`inp`, in which a key `k` is mapped to `t inp[k] k`; it has as many entries
as `inp`.  The result does not depend on the order in which the entries of
`inp` are visited: from any permutation of the entries the result has the
same entries and maps every key to the same value. -/
theorem MapValues_transforms_values_keeps_keys [DecidableEq K] (inp : GoMap K V)
    (t : V → K → R) (hnd : (inp.map Prod.fst).Nodup) :
    ∃ out : GoMap K R, Id.run (MapValues inp (total2 (E := E) t)) = (some out, none) ∧
      (out.map Prod.fst).Nodup ∧
      (∀ k, k ∈ out.map Prod.fst ↔ k ∈ inp.map Prod.fst) ∧
      (∀ k, GoMap.index out k = (GoMap.index inp k).map (fun v => t v k)) ∧
      (∀ k v, (k, v) ∈ inp → GoMap.index out k = some (t v k)) ∧
      out.length = inp.length ∧
      ∀ inp2 : GoMap K V, List.Perm inp2 inp →
        ∃ out2 : GoMap K R, Id.run (MapValues inp2 (total2 (E := E) t)) = (some out2, none) ∧
          List.Perm out2 out ∧ ∀ k, GoMap.index out2 k = GoMap.index out k := by
  have hrun : ∀ mp : GoMap K V, (mp.map Prod.fst).Nodup →
      Id.run (MapValues mp (total2 (E := E) t)) =
        (some (mp.map (fun en => (en.1, t en.2 en.1))), none) := by
    intro mp hmp
    have := MapValues_loop_total (E := E) t mp [] (by simpa using hmp)
    simpa [MapValues] using this
  have hkeys : ∀ mp : GoMap K V,
      (mp.map (fun en => (en.1, t en.2 en.1))).map Prod.fst = mp.map Prod.fst := by
    intro mp
    rw [List.map_map]
    rfl
  refine ⟨_, hrun inp hnd, by rw [hkeys]; exact hnd, fun k => by rw [hkeys],
    GoMap.index_map_values t inp, ?_, by simp, ?_⟩
  · intro k v hkv
    rw [GoMap.index_map_values, GoMap.index_of_mem inp hnd k v hkv]
    rfl
  · intro inp2 hperm
    have hnd2 : (inp2.map Prod.fst).Nodup := (hperm.map Prod.fst).nodup_iff.2 hnd
    refine ⟨_, hrun inp2 hnd2, hperm.map _, ?_⟩
    intro k
    rw [GoMap.index_map_values, GoMap.index_map_values, GoMap.index_perm inp inp2 hperm hnd]

/-- Witness of C20: a map of two entries, visited in one order or the other. -/
theorem MapValues_witness :
    (([(1, 10), (2, 20)] : GoMap Int Int).map Prod.fst).Nodup ∧
    Id.run (MapValues ([(1, 10), (2, 20)] : GoMap Int Int)
      (total2 (E := String) (fun (v k : Int) => v + k))) = (some [(1, 11), (2, 22)], none) ∧
    Id.run (MapValues ([(2, 20), (1, 10)] : GoMap Int Int)
      (total2 (E := String) (fun (v k : Int) => v + k))) = (some [(2, 22), (1, 11)], none) ∧
    ∃ out : GoMap Int Int,
      Id.run (MapValues ([(1, 10), (2, 20)] : GoMap Int Int)
        (total2 (E := String) (fun (v k : Int) => v + k))) = (some out, none) ∧
      out.length = 2 :=
  ⟨by decide, rfl, rfl,
    (MapValues_transforms_values_keeps_keys (E := String) ([(1, 10), (2, 20)] : GoMap Int Int)
      (fun (v k : Int) => v + k) (by decide)).imp
      (fun _ h => ⟨h.1, h.2.2.2.2.2.1⟩)⟩

/-- C21. With a key extractor `f` that never fails, the first loop of
`FindUniquesBy` and of `FindDuplicatesBy` leaves a map `isDupl` with one entry
per distinct key of `s`, so the capacity `len(collection)-len(isDupl)` that
both pass to `make` is `len s` minus the number of distinct keys.  It is not
negative, hence the allocation does not panic (this part holds for every
callback, stateful or failing, whenever the allocation is reached), and the
result of `FindDuplicatesBy` is no longer than it. -/
theorem FindUniquesBy_FindDuplicatesBy_capacity_is_safe [DecidableEq U] (s : List T)
    (f : T → U) :
    (∃ isDupl : GoMap U Bool,
      Id.run (isDuplPass (total (E := E) f) s []) = Except.ok isDupl ∧
      GoMap.len isDupl = ((s.map f).toFinset.card : Int)) ∧
    Id.run (FindUniquesBy.capacity s (total (E := E) f)) =
      some ((s.length : Int) - ((s.map f).toFinset.card : Int)) ∧
    Id.run (FindDuplicatesBy.capacity s (total (E := E) f)) =
      some ((s.length : Int) - ((s.map f).toFinset.card : Int)) ∧
    0 ≤ (s.length : Int) - ((s.map f).toFinset.card : Int) ∧
    makeEmpty T ((s.length : Int) - ((s.map f).toFinset.card : Int)) = some [] ∧
    (∃ ds : List T, Id.run (FindDuplicatesBy s (total (E := E) f)) = (some ds, none) ∧
      (ds.length : Int) ≤ (s.length : Int) - ((s.map f).toFinset.card : Int)) ∧
    (∀ (σ : Type) (cb : T → StateM σ (U × Option E)) (st : σ) (c : Int),
      ((runFrom (FindUniquesBy.capacity s cb) st).1 = some c → 0 ≤ c) ∧
      ((runFrom (FindDuplicatesBy.capacity s cb) st).1 = some c → 0 ≤ c)) ∧
    Id.run (FindDuplicatesBy.capacity [1, 2, 2, 3] (total (E := E) (fun x : Int => x))) =
      some 1 ∧
    Id.run (FindDuplicatesBy [1, 2, 2, 3] (total (E := E) (fun x : Int => x))) =
      (some [2], none) := by
  obtain ⟨mp, hrun, hkeys⟩ := isDuplPass_keys (E := E) f s [] [] (by simp [firstByKey_nil])
  simp only [List.nil_append] at hkeys
  have hlen : GoMap.len mp = ((s.map f).toFinset.card : Int) := by
    have h1 : mp.length = ((firstByKey f s).map f).length := by
      rw [← hkeys, List.length_map]
    rw [card_keys_eq_length_firstByKey, GoMap.len, h1, List.length_map]
  have hsum := length_eq_sum_keyCount f s
  have hpos : ∀ y ∈ firstByKey f s, 1 ≤ keyCount f s (f y) := fun y hy =>
    (keyCount_pos_iff f s _).2 (List.mem_map_of_mem f ((firstByKey_sublist f s).subset hy))
  have hbound := length_le_sum_of_one_le (fun y => keyCount f s (f y)) (firstByKey f s) hpos
  beta_reduce at hbound
  have hcard := card_keys_eq_length_firstByKey f s
  have hnonneg : 0 ≤ (s.length : Int) - ((s.map f).toFinset.card : Int) := by
    rw [hcard]; omega
  refine ⟨⟨mp, hrun, hlen⟩, ?_, ?_, hnonneg, ?_, ?_, ?_, rfl, rfl⟩
  · simp only [FindUniquesBy.capacity, Id.run, bind] at hrun ⊢
    rw [hrun]
    simp only [pure, hlen]
  · simp only [FindDuplicatesBy.capacity, Id.run, bind] at hrun ⊢
    rw [hrun]
    simp only [pure, hlen]
  · simp only [makeEmpty, if_neg (not_lt.2 hnonneg)]
  · refine ⟨_, FindDuplicatesBy_total f s, ?_⟩
    rw [hcard]
    omega
  · intro σ cb st c
    exact capacity_nonneg_of_closure cb s st c

end Loe
